import Mathlib

/-!
Verification of the argumappr layered graph-drawing engine.

This file gives a shallow embedding, in Lean 4, of the parts of the
argumappr source that the specification claims talk about:

  * the graph model (`src/graph.ts`, a thin extension of graphlib),
  * utilities and the rank table (`src/utils.ts`, first variant),
  * cycle removal (`src/remove-cycles.ts`, first variant, lines 1-175),
  * layering (`src/layer-nodes.ts`),
  * crossing minimisation (`src/minimise-crossings.ts`),
  * coordinate assignment (`src/straighten-edges.ts`),
  * routing and the pipeline driver (`src/lay-out-graph.ts` and the
    `drawBezierCurves` routine).

Modelling conventions, used consistently below:

  * JavaScript numbers are modelled as `ℚ`.  The modelled code never
    divides by values that can round, and no claim depends on binary
    floating-point rounding.
  * A JavaScript value that may be `undefined` is modelled as an
    `Option`.  Reading a property of `undefined` (a `TypeError` at run
    time) and other garbage states in which `undefined`, `NaN` or an
    infinity would leak into arithmetic are modelled by making the
    enclosing operation return `none`; a `none` result of a phase means
    the phase crashed or diverged rather than produced a layout.
  * Insertion-ordered JavaScript objects and `Map`s are modelled as
    association lists kept in insertion order, matching the enumeration
    order that the source relies on for its tie-breaks.
  * `while` loops and recursions that the source does not obviously
    bound are given explicit fuel; fuel exhaustion is mapped to `none`.
    The top-level entry points pick fuel large enough for every
    terminating run that the theorems below exercise.
-/

namespace Argumappr

/-- Node identifiers are strings, as in graphlib. -/
abbrev NodeId := String

/-- One Bezier control point; the coordinates come from node labels and may
be `undefined` in the source, hence the `Option`s. -/
abbrev Point := Option ℚ × Option ℚ

/-- Edge labels: the attribute bag fields that the embedded code reads or
writes.  Absent fields are `none` (JavaScript `undefined`). -/
structure EdgeLabel where
  minlen : Option ℚ := none
  weight : Option ℚ := none
  width : Option ℚ := none
  height : Option ℚ := none
  labeloffset : Option ℚ := none
  labelpos : Option String := none
  points : Option (List Point) := none
  conflicted : Option Bool := none
  cutValue : Option ℚ := none
  isConjunctEdge : Bool := false
deriving Repr, DecidableEq

/-- An edge record as carried around by the cycle remover and the
restoration code: endpoints, optional name, optional label. -/
structure EdgeRec where
  v : NodeId
  w : NodeId
  name : Option String := none
  label : Option EdgeLabel := none
deriving Repr, DecidableEq

/-- Scalar (non-recursive) node attributes: the fields of the node
attribute bag that the embedded code reads or writes, other than the
fields that store whole node labels. -/
structure NodeAttrs where
  x : Option ℚ := none
  y : Option ℚ := none
  width : Option ℚ := none
  height : Option ℚ := none
  isDummyNode : Bool := false
  isConjunctNode : Bool := false
  isConjunctDummyNode : Bool := false
  isWarrantSink : Bool := false
  isWarrantSource : Bool := false
  isWarrantDummySource : Bool := false
  isRelevanceSink : Bool := false
  isRelevanceDummySource : Bool := false
  isRelevanceDummySink : Bool := false
  number : Option ℚ := none
  minSubtreeNumber : Option ℚ := none
  barycenter : Option ℚ := none
  subnodes : List NodeId := []
  blockRoot : Option NodeId := none
  nextBlockNode : Option NodeId := none
  classSink : Option NodeId := none
  shift : Option ℚ := none
  edgeData : Option EdgeLabel := none
deriving Repr

/-- The `shift` attribute is initialised to `Infinity` in the source; the
model uses `none` for that infinity, so `shift < Infinity` is `isSome`. -/
def NodeAttrs.shiftIsFinite (a : NodeAttrs) : Bool := a.shift.isSome

/-- Node labels.  The recursive fields store whole node labels: conjunct
and warrant merging stash labels of removed nodes inside the label of the
surviving node (`subnodeData`, `conjunctNode`, `warrantNodes`,
`relevanceNodes`), and restore them later. -/
inductive NodeLabel where
  | mk
      (attrs : NodeAttrs)
      (subnodeData : List (NodeId × Option NodeLabel))
      (originalEdges : List EdgeRec)
      (conjunctNode : Option (NodeId × Option NodeLabel))
      (warrantNodes : Option ((NodeId × Option NodeLabel) × (NodeId × Option NodeLabel)))
      (relevanceNodes : Option ((NodeId × Option NodeLabel) × (NodeId × Option NodeLabel)))
      : NodeLabel

/-- Scalar attributes of a node label. -/
def NodeLabel.attrs : NodeLabel → NodeAttrs
  | .mk a _ _ _ _ _ => a

/-- Stored sub-node labels of a merged conjunct or meta node. -/
def NodeLabel.subnodeData : NodeLabel → List (NodeId × Option NodeLabel)
  | .mk _ s _ _ _ _ => s

/-- Stored original edges of a merged conjunct or meta node. -/
def NodeLabel.originalEdges : NodeLabel → List EdgeRec
  | .mk _ _ e _ _ _ => e

/-- Stored conjunct node (id and label) of a conjunct start dummy. -/
def NodeLabel.conjunctNode : NodeLabel → Option (NodeId × Option NodeLabel)
  | .mk _ _ _ c _ _ => c

/-- Stored warrant source and sink (id and label pairs). -/
def NodeLabel.warrantNodes : NodeLabel → Option ((NodeId × Option NodeLabel) × (NodeId × Option NodeLabel))
  | .mk _ _ _ _ w _ => w

/-- Stored relevance source and sink (id and label pairs). -/
def NodeLabel.relevanceNodes : NodeLabel → Option ((NodeId × Option NodeLabel) × (NodeId × Option NodeLabel))
  | .mk _ _ _ _ _ r => r

/-- An empty attribute bag, the `{}` object. -/
def NodeLabel.empty : NodeLabel := .mk {} [] [] none none none

/-- Replace the scalar attributes of a label. -/
def NodeLabel.withAttrs (l : NodeLabel) (a : NodeAttrs) : NodeLabel :=
  .mk a l.subnodeData l.originalEdges l.conjunctNode l.warrantNodes l.relevanceNodes

/-- Update the scalar attributes of a label. -/
def NodeLabel.modAttrs (l : NodeLabel) (f : NodeAttrs → NodeAttrs) : NodeLabel :=
  l.withAttrs (f l.attrs)

/-- Graph label: the configuration bag attached to the whole graph. -/
structure GraphLabel where
  ranksep : Option ℚ := none
  edgesep : Option ℚ := none
  nodesep : Option ℚ := none
  rankdir : Option String := none
  maxrankingloops : Option ℚ := none
  maxcrossingloops : Option ℚ := none
  width : Option ℚ := none
  height : Option ℚ := none
deriving Repr, DecidableEq

/-- Edge keys of a non-multigraph: source and target id.  All graphs the
embedded code builds are non-multigraphs, so the optional edge name never
distinguishes two edges. -/
abbrev EdgeKey := NodeId × NodeId

/-- The graph model: a directed compound graph in the style of graphlib.
Node, edge and parent lists are kept in insertion order, because the
source's enumeration-order tie-breaks depend on it.  `defaultEmptyNode`
models `setDefaultNodeLabel(() => ({}))`: when set, nodes created without
a label get `{}` instead of `undefined`. -/
structure Graph where
  nodes : List (NodeId × Option NodeLabel)
  edges : List (EdgeKey × Option EdgeLabel)
  parents : List (NodeId × NodeId)
  glabel : Option GraphLabel
  defaultEmptyNode : Bool

/-- A fresh graph, as built by `new Graph(...)`. -/
def Graph.new : Graph := ⟨[], [], [], none, false⟩

/-- Lookup in an insertion-ordered association list. -/
def alookup {α : Type} (l : List (NodeId × α)) (k : NodeId) : Option α :=
  (l.find? (fun p => p.1 == k)).map (·.2)

/-- Membership test for a node. -/
def Graph.hasNode (g : Graph) (v : NodeId) : Bool :=
  g.nodes.any (fun p => p.1 == v)

/-- Node label access, `graph.node(v)`: `undefined` both for a missing
node and for a node whose label is `undefined`. -/
def Graph.node? (g : Graph) (v : NodeId) : Option NodeLabel :=
  (alookup g.nodes v).bind id

/-- Create the node if missing, keeping an existing label
(`graph.setNode(v)` with one argument). -/
def Graph.setNodeKeep (g : Graph) (v : NodeId) : Graph :=
  if g.hasNode v then g
  else { g with nodes := g.nodes ++ [(v, if g.defaultEmptyNode then some .empty else none)] }

/-- Set a node's label (`graph.setNode(v, label)`), creating the node if
missing; an existing node keeps its position in enumeration order. -/
def Graph.setNode (g : Graph) (v : NodeId) (l : Option NodeLabel) : Graph :=
  if g.hasNode v then
    { g with nodes := g.nodes.map (fun p => if p.1 == v then (v, l) else p) }
  else
    { g with nodes := g.nodes ++ [(v, l)] }

/-- Update a node's label in place (the source mutates label objects such
as in `graph.node(v).x = ...`); a missing node or an `undefined` label
makes the source throw, which the callers below handle by `Option`. -/
def Graph.modNode (g : Graph) (v : NodeId) (f : NodeLabel → NodeLabel) : Graph :=
  { g with nodes := g.nodes.map (fun p => if p.1 == v then (p.1, p.2.map f) else p) }

/-- Edge label access by endpoints, `graph.edge(v, w)`. -/
def Graph.edge? (g : Graph) (v w : NodeId) : Option EdgeLabel :=
  ((g.edges.find? (fun p => p.1.1 == v && p.1.2 == w)).map (·.2)).bind id

/-- Membership test for an edge. -/
def Graph.hasEdge (g : Graph) (v w : NodeId) : Bool :=
  g.edges.any (fun p => p.1.1 == v && p.1.2 == w)

/-- Set an edge with an explicit label value (`graph.setEdge(v, w, l)`,
including an explicitly `undefined` `l`).  Missing endpoints are created;
an existing edge keeps its position in enumeration order. -/
def Graph.setEdgeL (g : Graph) (v w : NodeId) (l : Option EdgeLabel) : Graph :=
  let g := (g.setNodeKeep v).setNodeKeep w
  if g.hasEdge v w then
    { g with edges := g.edges.map (fun p => if p.1.1 == v && p.1.2 == w then (p.1, l) else p) }
  else
    { g with edges := g.edges ++ [((v, w), l)] }

/-- Set an edge without a label argument (`graph.setEdge(v, w)`): an
existing edge keeps its label, a new edge gets `undefined`. -/
def Graph.setEdgeKeep (g : Graph) (v w : NodeId) : Graph :=
  let g := (g.setNodeKeep v).setNodeKeep w
  if g.hasEdge v w then g
  else { g with edges := g.edges ++ [((v, w), none)] }

/-- Update an edge's label in place (mutation of the label object). -/
def Graph.modEdge (g : Graph) (v w : NodeId) (f : EdgeLabel → EdgeLabel) : Graph :=
  { g with edges := g.edges.map (fun p =>
      if p.1.1 == v && p.1.2 == w then (p.1, p.2.map f) else p) }

/-- Remove an edge by endpoints, without the argumappr override
(`graphlib`'s own `removeEdge`). -/
def Graph.removeEdgeBase (g : Graph) (v w : NodeId) : Graph :=
  { g with edges := g.edges.filter (fun p => !(p.1.1 == v && p.1.2 == w)) }

/-- Remove a node: its label, its incident edges, and every parent link it
takes part in, as in graphlib. -/
def Graph.removeNode (g : Graph) (v : NodeId) : Graph :=
  { g with
    nodes := g.nodes.filter (fun p => p.1 != v)
    edges := g.edges.filter (fun p => p.1.1 != v && p.1.2 != v)
    parents := g.parents.filter (fun p => p.1 != v && p.2 != v) }

/-- Node enumeration, in insertion order. -/
def Graph.nodeIds (g : Graph) : List NodeId := g.nodes.map (·.1)

/-- Edge enumeration, in insertion order. -/
def Graph.edgeKeys (g : Graph) : List EdgeKey := g.edges.map (·.1)

/-- Count of nodes. -/
def Graph.nodeCount (g : Graph) : Nat := g.nodes.length

/-- Count of edges. -/
def Graph.edgeCount (g : Graph) : Nat := g.edges.length

/-- In-edges of a node, in insertion order. -/
def Graph.inEdges (g : Graph) (w : NodeId) : List EdgeKey :=
  (g.edges.filter (fun p => p.1.2 == w)).map (·.1)

/-- Out-edges of a node, in insertion order. -/
def Graph.outEdges (g : Graph) (v : NodeId) : List EdgeKey :=
  (g.edges.filter (fun p => p.1.1 == v)).map (·.1)

/-- All incident edges: in-edges then out-edges, as in graphlib's
`nodeEdges`. -/
def Graph.nodeEdges (g : Graph) (v : NodeId) : List EdgeKey :=
  g.inEdges v ++ g.outEdges v

/-- Predecessors of a node, in edge insertion order. -/
def Graph.predecessors (g : Graph) (w : NodeId) : List NodeId :=
  (g.inEdges w).map (·.1)

/-- Successors of a node, in edge insertion order. -/
def Graph.successors (g : Graph) (v : NodeId) : List NodeId :=
  (g.outEdges v).map (·.2)

/-- Neighbors: predecessors first, then the successors not already seen,
as graphlib builds the union. -/
def Graph.neighbors (g : Graph) (v : NodeId) : List NodeId :=
  let p := g.predecessors v
  p ++ (g.successors v).filter (fun s => !(p.contains s || s == v && p.contains v))

/-- Sinks: nodes with no out-edges, in node insertion order. -/
def Graph.sinks (g : Graph) : List NodeId :=
  (g.nodes.map (·.1)).filter (fun v => (g.outEdges v).isEmpty)

/-- Sources: nodes with no in-edges, in node insertion order. -/
def Graph.sources (g : Graph) : List NodeId :=
  (g.nodes.map (·.1)).filter (fun v => (g.inEdges v).isEmpty)

/-- Parent of a node in the compound hierarchy. -/
def Graph.parent (g : Graph) (v : NodeId) : Option NodeId :=
  alookup g.parents v

/-- Set or clear the parent of a node; a cleared or fresh link keeps the
source's insertion-order bookkeeping. -/
def Graph.setParent (g : Graph) (v : NodeId) : Option NodeId → Graph
  | none => { g with parents := g.parents.filter (fun p => p.1 != v) }
  | some pa =>
      let g := (g.setNodeKeep v).setNodeKeep pa
      if (g.parents.find? (fun p => p.1 == v)).isSome then
        { g with parents := g.parents.map (fun p => if p.1 == v then (v, pa) else p) }
      else
        { g with parents := g.parents ++ [(v, pa)] }

/-- Children of a node, in parent-link insertion order. -/
def Graph.children (g : Graph) (v : NodeId) : List NodeId :=
  (g.parents.filter (fun p => p.2 == v)).map (·.1)

end Argumappr

namespace Argumappr

/-! ## Graph model extensions (`src/graph.ts`) -/

/-- Overridden `removeEdge` of `src/graph.ts` (lines 85-117): before the
plain removal it drops a conjunct source node or a warrant sink target
node, and when a warrant sink named `v -> w` exists it removes it and
clears its source's `isWarrantSource` flag.  The flag write crashes with a
`TypeError` when the sink has no predecessor or the source has no label;
those crashes are `none`. -/
def Graph.removeEdgeOv (g : Graph) (v w : NodeId) : Option Graph :=
  let g1 :=
    if ((g.node? v).map (·.attrs.isConjunctNode)).getD false then g.removeNode v
    else if ((g.node? w).map (·.attrs.isWarrantSink)).getD false then g.removeNode w
    else g
  let sinkId := v ++ " -> " ++ w
  if g1.hasNode sinkId then
    match g1.predecessors sinkId with
    | [] => none
    | src :: _ =>
        let g2 := g1.removeNode sinkId
        match g2.node? src with
        | none => none
        | some _ =>
            some ((g2.modNode src
              (·.modAttrs (fun a => { a with isWarrantSource := false }))).removeEdgeBase v w)
  else
    some (g1.removeEdgeBase v w)

/-- The `setWarrantEdge` extension of `src/graph.ts` (lines 59-78),
specialised to the call shape the modelled scenarios use: the optional
`label` and `name` parameters are absent, so the `if (label)` update
branch is dead and the created edge's label is the default edge label,
which is `undefined` on a plain graph. -/
def Graph.setWarrantEdge (g : Graph) (sourceNode tv tw : NodeId) : Graph :=
  let dummyNodeId := tv ++ " -> " ++ tw
  if g.hasEdge sourceNode dummyNodeId then g
  else
    let g := g.setNode dummyNodeId (some (NodeLabel.empty.modAttrs
      (fun a => { a with isWarrantSink := true, width := some 0, height := some 0 })))
    g.setEdgeL sourceNode dummyNodeId none

/-! ## Utilities (`src/utils.ts`, first variant, lines 1-218) -/

/-- The `NODE_Y_SPACING` constant of `src/utils.ts` line 4. -/
def NODE_Y_SPACING : ℚ := 325

/-- The `NODE_WIDTH` constant of `src/utils.ts` line 5. -/
def NODE_WIDTH : ℚ := 300

/-- Generic insertion-ordered association lookup (for rational keys). -/
def qlookup {α : Type} (l : List (ℚ × α)) (k : ℚ) : Option α :=
  (l.find? (fun p => p.1 == k)).map (·.2)

/-- The rank table of `src/utils.ts` (lines 16-71): a map from nodes to
ranks together with a map from ranks to the set of nodes on that rank.
Both maps and each rank set are kept in insertion order, as the source's
`Map` and `Set` are. -/
structure RankTable where
  nodeToRank : List (NodeId × ℚ)
  rankToNodes : List (ℚ × List NodeId)
deriving Repr, DecidableEq

/-- An empty rank table. -/
def RankTable.empty : RankTable := ⟨[], []⟩

/-- Rank of a node. -/
def RankTable.getRank (t : RankTable) (node : NodeId) : Option ℚ :=
  alookup t.nodeToRank node

/-- Set of nodes with a given rank, in insertion order. -/
def RankTable.getNodes (t : RankTable) (rank : ℚ) : Option (List NodeId) :=
  qlookup t.rankToNodes rank

/-- `RankTable.set`: no-op when the node already has exactly this rank;
otherwise the node leaves its old rank set (pruning an emptied set) and
is appended to the new rank's set and to the end of the node map. -/
def RankTable.set (t : RankTable) (node : NodeId) (rank : ℚ) : RankTable :=
  let oldRank? := t.getRank node
  if oldRank? == some rank then t
  else
    let t1 : RankTable :=
      match oldRank? with
      | none => t
      | some old =>
          let newSet := ((qlookup t.rankToNodes old).getD []).filter (· != node)
          { nodeToRank := t.nodeToRank.filter (fun p => p.1 != node)
            rankToNodes :=
              if newSet.isEmpty then t.rankToNodes.filter (fun p => p.1 != old)
              else t.rankToNodes.map (fun p => if p.1 == old then (old, newSet) else p) }
    let r2n :=
      if (qlookup t1.rankToNodes rank).isSome then
        t1.rankToNodes.map (fun p => if p.1 == rank then (p.1, p.2 ++ [node]) else p)
      else t1.rankToNodes ++ [(rank, [node])]
    { nodeToRank := t1.nodeToRank ++ [(node, rank)], rankToNodes := r2n }

/-- `RankTable.delete`. -/
def RankTable.delete (t : RankTable) (node : NodeId) : RankTable :=
  match t.getRank node with
  | none => t
  | some old =>
      let newSet := ((qlookup t.rankToNodes old).getD []).filter (· != node)
      { nodeToRank := t.nodeToRank.filter (fun p => p.1 != node)
        rankToNodes :=
          if newSet.isEmpty then t.rankToNodes.filter (fun p => p.1 != old)
          else t.rankToNodes.map (fun p => if p.1 == old then (old, newSet) else p) }

/-- Smallest rank in the table (`Math.min` over the keys); `none` models
the `Infinity` of an empty table. -/
def RankTable.getMinRankIndex (t : RankTable) : Option ℚ :=
  (t.rankToNodes.map (·.1)).foldl (fun acc r =>
    match acc with
    | none => some r
    | some m => some (min m r)) none

/-- Largest rank in the table (`Math.max` over the keys); `none` models
the `-Infinity` of an empty table. -/
def RankTable.getMaxRankIndex (t : RankTable) : Option ℚ :=
  (t.rankToNodes.map (·.1)).foldl (fun acc r =>
    match acc with
    | none => some r
    | some m => some (max m r)) none

/-- `buildSimpleGraph` of `src/utils.ts` (lines 79-93): a structure-only
copy whose nodes get empty `{}` labels (the copy sets a default node
label function) and whose edges get no labels; parents and the graph
label are not copied. -/
def buildSimpleGraph (g : Graph) : Graph :=
  let simple : Graph := { Graph.new with defaultEmptyNode := true }
  let simple := g.nodeIds.foldl (fun s v => s.setNodeKeep v) simple
  g.edgeKeys.foldl (fun s ek => s.setEdgeKeep ek.1 ek.2) simple

/-- `appendNodeValues` of `src/utils.ts` (lines 102-105), for value
objects that only touch scalar attributes: spread-merge the new values
over the old label (an `undefined` old label spreads to `{}`). -/
def appendNodeValues (g : Graph) (v : NodeId) (f : NodeAttrs → NodeAttrs) : Graph :=
  let old := (g.node? v).getD NodeLabel.empty
  g.setNode v (some (old.modAttrs f))

/-- Merge of the graph-label defaults `GRAPH_DEFAULTS` (line 134) with
the caller's graph label: a present caller field wins.  Note that the
defaults contain no `maxrankingloops` or `maxcrossingloops` entry. -/
def mergeGraphDefaults (l : Option GraphLabel) : GraphLabel :=
  let l := l.getD {}
  { ranksep := l.ranksep <|> some 50
    edgesep := l.edgesep <|> some 20
    nodesep := l.nodesep <|> some 50
    rankdir := l.rankdir <|> some "tb"
    maxrankingloops := l.maxrankingloops
    maxcrossingloops := l.maxcrossingloops
    width := l.width
    height := l.height }

/-- Merge of `NODE_DEFAULTS` (line 135) with a node label. -/
def mergeNodeDefaults (l : Option NodeLabel) : NodeLabel :=
  let l := l.getD NodeLabel.empty
  l.modAttrs (fun a => { a with width := a.width <|> some 0, height := a.height <|> some 0 })

/-- Merge of `EDGE_DEFAULTS` (lines 136-143) with an edge label. -/
def mergeEdgeDefaults (l : Option EdgeLabel) : EdgeLabel :=
  let l := l.getD {}
  { l with
    minlen := l.minlen <|> some 1
    weight := l.weight <|> some 1
    width := l.width <|> some 0
    height := l.height <|> some 0
    labeloffset := l.labeloffset <|> some 10
    labelpos := l.labelpos <|> some "r" }

/-- `buildLayoutGraph` of `src/utils.ts` (lines 197-218): a fresh
directed compound graph carrying the caller's data merged over the
defaults. -/
def buildLayoutGraph (inputGraph : Graph) : Graph :=
  let layout := { Graph.new with glabel := some (mergeGraphDefaults inputGraph.glabel) }
  let layout := inputGraph.nodeIds.foldl (fun lg node =>
    let lg := lg.setNode node (some (mergeNodeDefaults (inputGraph.node? node)))
    lg.setParent node (inputGraph.parent node)) layout
  inputGraph.edgeKeys.foldl (fun lg ek =>
    lg.setEdgeL ek.1 ek.2 (some (mergeEdgeDefaults (inputGraph.edge? ek.1 ek.2)))) layout

/-- Spread-merge of two possibly absent edge labels, `{...a, ...b}`: a
field present in `b` wins. -/
def mergeEdgeLabels (a b : Option EdgeLabel) : EdgeLabel :=
  let a := a.getD {}
  let b := b.getD {}
  { minlen := b.minlen <|> a.minlen
    weight := b.weight <|> a.weight
    width := b.width <|> a.width
    height := b.height <|> a.height
    labeloffset := b.labeloffset <|> a.labeloffset
    labelpos := b.labelpos <|> a.labelpos
    points := b.points <|> a.points
    conflicted := b.conflicted <|> a.conflicted
    cutValue := b.cutValue <|> a.cutValue
    isConjunctEdge := a.isConjunctEdge || b.isConjunctEdge }

/-- JavaScript truthiness of an optional number (`undefined` and `0` are
falsy). -/
def qTruthy : Option ℚ → Bool
  | none => false
  | some q => q != 0

/-- `updateInputGraph` of `src/utils.ts` (lines 151-188).  For every
input node with a label it copies `x` and `y` from the layout graph and
then sets `width` to the constant `300` and `height` to the constant
`100`, except that a node with children gets the layout label's width and
height.  Edge labels receive the layout `points`.  A missing layout node
or edge label makes the source throw (`none` here).  The graph label
gets `layout width + NODE_WIDTH` (`none` models the `NaN` produced when
the layout width was never set).  The per-node body of the node loop: -/
def updateInputNode (layoutGraph : Graph) (g : Graph) (node : NodeId) : Option Graph :=
  match g.node? node with
  | none => some g
  | some _ =>
      match layoutGraph.node? node with
      | none => none
      | some ll =>
          let hasChildren := !(layoutGraph.children node).isEmpty
          some (g.modNode node (·.modAttrs (fun a =>
            { a with
              x := ll.attrs.x
              y := ll.attrs.y
              width := if hasChildren then ll.attrs.width else some 300
              height := if hasChildren then ll.attrs.height else some 100 })))

/-- The per-edge body of `updateInputGraph`'s edge loop. -/
def updateInputEdge (layoutGraph : Graph) (g : Graph) (ek : EdgeKey) : Option Graph :=
  match g.edge? ek.1 ek.2 with
  | none => none
  | some _ =>
      match layoutGraph.edge? ek.1 ek.2 with
      | none => none
      | some ll =>
          some (g.modEdge ek.1 ek.2 (fun l => { l with points := ll.points }))

/-- `updateInputGraph` itself: the node loop, the edge loop, then the
graph-label write. -/
def updateInputGraph (inputGraph layoutGraph : Graph) : Option Graph :=
  (inputGraph.nodeIds.foldlM (updateInputNode layoutGraph) inputGraph).bind (fun g =>
    (g.edgeKeys.foldlM (updateInputEdge layoutGraph) g).map (fun g =>
      match g.glabel with
      | none => g
      | some il =>
          let ll := (layoutGraph.glabel).getD {}
          { g with glabel := some { il with
              width := ll.width.map (· + NODE_WIDTH)
              height := ll.height } }))

end Argumappr

namespace Argumappr

/-! ## Cycle removal (`src/remove-cycles.ts`, first variant, lines 1-175) -/

/-- The inner `while` of `greedilyGetFS` that removes sinks one at a time
(lines 52-58), always taking the first sink in enumeration order.  The
fuel only bounds the recursion; every call below supplies more fuel than
there are nodes, which the loop cannot outlast since each step removes a
node. -/
def drainSinks : Nat → Graph → List NodeId → Graph × List NodeId
  | 0, g, acc => (g, acc)
  | fuel + 1, g, acc =>
      match g.sinks with
      | [] => (g, acc)
      | s :: _ => drainSinks fuel (g.removeNode s) (acc ++ [s])

/-- The inner `while` of `greedilyGetFS` that removes sources one at a
time (lines 60-66). -/
def drainSources : Nat → Graph → List NodeId → Graph × List NodeId
  | 0, g, acc => (g, acc)
  | fuel + 1, g, acc =>
      match g.sources with
      | [] => (g, acc)
      | s :: _ => drainSources fuel (g.removeNode s) (acc ++ [s])

/-- `getMaxNode` (lines 85-99): the first node, in enumeration order,
whose outdegree minus indegree is strictly largest; the empty graph
yields the initial `""`. -/
def getMaxNode (g : Graph) : NodeId :=
  let best := g.nodeIds.foldl (fun best v =>
    let deg : Int := (g.outEdges v).length - (g.inEdges v).length
    match best with
    | none => some (v, deg)
    | some (bv, bd) => if deg > bd then some (v, deg) else some (bv, bd)) none
  (best.map (·.1)).getD ""

/-- The outer `while` of `greedilyGetFS` (lines 51-73): drain sinks into
`nodes1`, drain sources into `nodes0`, then remove one maximum-degree
node into `nodes0`; repeat until the graph is empty. -/
def greedyLoop : Nat → Graph → List NodeId → List NodeId → List NodeId × List NodeId
  | 0, _, n0, n1 => (n0, n1)
  | fuel + 1, g, n0, n1 =>
      if g.nodeCount == 0 then (n0, n1)
      else
        let (g, n1) := drainSinks (g.nodeCount + 1) g n1
        let (g, n0) := drainSources (g.nodeCount + 1) g n0
        if g.nodeCount == 0 then (n0, n1)
        else
          let maxNode := getMaxNode g
          greedyLoop fuel (g.removeNode maxNode) (n0 ++ [maxNode]) n1

/-- `greedilyGetFS` (lines 47-76). -/
def greedilyGetFS (g : Graph) : List NodeId × List NodeId :=
  greedyLoop (g.nodeCount + 1) g [] []

/-- `deleteLoop` (lines 136-146): a self-loop is removed (through the
overridden `removeEdge`) and returned. -/
def deleteLoop (g : Graph) (v w : NodeId) : Option (Graph × Option EdgeRec) :=
  if v == w then
    let lbl := g.edge? v w
    (g.removeEdgeOv v w).map (fun g => (g, some ⟨v, w, none, lbl⟩))
  else some (g, none)

/-- `reverseEdge` (lines 158-175): an edge from `nodes1` to `nodes0` is
removed (through the overridden `removeEdge`) and re-inserted with the
endpoints swapped, keeping its label; the original is returned. -/
def reverseEdge (g : Graph) (n0 n1 : List NodeId) (v w : NodeId) :
    Option (Graph × Option EdgeRec) :=
  if n1.contains v && n0.contains w then
    let lbl := g.edge? v w
    (g.removeEdgeOv v w).map (fun g => (g.setEdgeL w v lbl, some ⟨v, w, none, lbl⟩))
  else some (g, none)

/-- `handleEdges` (lines 110-126): iterate over a snapshot of the edge
list, deleting self-loops and reversing feedback edges, collecting the
originals of both. -/
def handleEdges (g : Graph) (n0 n1 : List NodeId) :
    Option (Graph × List EdgeRec × List EdgeRec) :=
  g.edgeKeys.foldlM (fun acc ek =>
    let (g, loops, revs) := acc
    (deleteLoop g ek.1 ek.2).bind (fun gl =>
      match gl with
      | (g, some rec) => some (g, loops ++ [rec], revs)
      | (g, none) =>
          (reverseEdge g n0 n1 ek.1 ek.2).map (fun gr =>
            match gr with
            | (g, some rec) => (g, loops, revs ++ [rec])
            | (g, none) => (g, loops, revs))))
    (g, ([] : List EdgeRec), ([] : List EdgeRec))

/-- `removeCycles` (lines 24-30): run the greedy pass on a structural
copy, then delete loops and reverse feedback edges on the real graph. -/
def removeCycles (g : Graph) : Option (Graph × List EdgeRec × List EdgeRec) :=
  let copy := buildSimpleGraph g
  let (n0, n1) := greedilyGetFS copy
  handleEdges g n0 n1

/-! ## Edge restoration (`src/lay-out-graph.ts`, lines 57-71) -/

/-- `restoreEdges`: re-add the deleted self-loops, then for every
reversed edge remove the reversed orientation (through the overridden
`removeEdge`) and re-insert the original orientation, spreading the data
of the reversed orientation over the original label. -/
def restoreEdges (g : Graph) (deletedLoops reversedEdges : List EdgeRec) : Option Graph :=
  let g := deletedLoops.foldl (fun g e => g.setEdgeL e.v e.w e.label) g
  reversedEdges.foldlM (fun g e =>
    let edgeData := g.edge? e.w e.v
    (g.removeEdgeOv e.w e.v).map (fun g =>
      g.setEdgeL e.v e.w (some (mergeEdgeLabels e.label edgeData)))) g

/-- Decidable acyclicity by repeated removal of sinks (Kahn): a directed
graph is acyclic exactly when iterated sink removal empties it.  This is
a specification-side helper, not part of the source. -/
def stripSinks : Nat → Graph → Graph
  | 0, g => g
  | fuel + 1, g =>
      match g.sinks with
      | [] => g
      | s :: _ => stripSinks fuel (g.removeNode s)

/-- A graph is acyclic when iterated sink removal reaches the empty
graph. -/
def isAcyclic (g : Graph) : Bool :=
  (stripSinks (g.nodeCount + 1) g).nodeCount == 0

end Argumappr

namespace Argumappr

/-! ## Layering (`src/layer-nodes.ts`)

The tree built by the layering phase shares label objects with the graph
in the source; the model copies label values instead.  The difference is
observable only inside the cut-value bookkeeping of the network-simplex
iteration, whose numeric details no theorem below depends on (the
theorems about that loop concern only its iteration count). -/

/-- JavaScript `<` on possibly-`undefined` numbers: any comparison with
`undefined` is false. -/
def jsLt : Option ℚ → Option ℚ → Bool
  | some a, some b => a < b
  | _, _ => false

/-- JavaScript `<=` on possibly-`undefined` numbers. -/
def jsLe : Option ℚ → Option ℚ → Bool
  | some a, some b => a ≤ b
  | _, _ => false

/-- Inner scan of `setRanks` (lines 229-246) over the in-edges of one
node: track the best `(maxParentRank, edgeLength)` pair; an unranked
parent resets the accumulator and breaks (the node is not assignable this
pass, `some none`); a missing edge label or `minlen` is the NaN/crash
garbage case (`none`). -/
def rankFromInEdges (g : Graph) (ranks : RankTable) :
    List EdgeKey → Option (ℚ × ℚ) → Option (Option ℚ)
  | [], acc => some (acc.map (fun p => p.1 + p.2))
  | ek :: rest, acc =>
      match ranks.getRank ek.1 with
      | none => some none
      | some parentRank =>
          match (g.edge? ek.1 ek.2).bind (·.minlen) with
          | none => none
          | some ml =>
              let doUpdate := match acc with
                | none => true
                | some (m, e) => m + e < parentRank + ml
              rankFromInEdges g ranks rest (if doUpdate then some (parentRank, ml) else acc)

/-- One pass of the `setRanks` relaxation (the `for` loop with `splice`,
lines 220-254): returns the still-pending nodes and the updated table.
Ranks assigned earlier in the same pass are visible to later nodes. -/
def setRanksPass (g : Graph) : List NodeId → RankTable → Option (List NodeId × RankTable)
  | [], ranks => some ([], ranks)
  | node :: rest, ranks =>
      if (g.inEdges node).isEmpty then
        setRanksPass g rest (ranks.set node 0)
      else
        (rankFromInEdges g ranks (g.inEdges node) none).bind (fun r? =>
          match r? with
          | some r => setRanksPass g rest (ranks.set node r)
          | none => (setRanksPass g rest ranks).map (fun pr => (node :: pr.1, pr.2)))

/-- The outer `while` of `setRanks` (line 219): repeat passes until no
node is pending.  A pass that assigns nothing loops forever in the
source; the model returns `none` for that divergence. -/
def setRanksLoop (g : Graph) : Nat → List NodeId → RankTable → Option RankTable
  | 0, pending, ranks => if pending.isEmpty then some ranks else none
  | fuel + 1, pending, ranks =>
      if pending.isEmpty then some ranks
      else
        (setRanksPass g pending ranks).bind (fun pr =>
          if pr.1.length == pending.length then none
          else setRanksLoop g fuel pr.1 pr.2)

/-- `setRanks` (lines 215-258): greedy longest-path ranking by
relaxation, over all nodes or over an explicit node list. -/
def setRanks (g : Graph) (nodeList : Option (List NodeId)) : Option RankTable :=
  let nodes := nodeList.getD g.nodeIds
  setRanksLoop g (nodes.length + 1) nodes RankTable.empty

/-- Worklist of `getTightTree` (lines 276-293): the `for..of` loop over
the growing `edges` array.  An edge whose label is missing crashes the
source (`none`); an edge with an undefined `minlen` or an unranked
endpoint compares as NaN and is simply not tight. -/
def tightTreeLoop (g : Graph) (ranks : RankTable) : Nat → Graph → List EdgeKey → Option Graph
  | 0, _, _ => none
  | _ + 1, tree, [] => some tree
  | fuel + 1, tree, ek :: rest =>
      if tree.hasNode ek.1 && tree.hasNode ek.2 then tightTreeLoop g ranks fuel tree rest
      else
        match g.edge? ek.1 ek.2 with
        | none => none
        | some l =>
            let tight := match l.minlen, ranks.getRank ek.1, ranks.getRank ek.2 with
              | some ml, some rv, some rw => ml == rw - rv
              | _, _, _ => false
            if tight then
              let newNode := if tree.hasNode ek.1 then ek.2 else ek.1
              let newEdges := g.nodeEdges newNode
              let tree := tree.setNode newNode (g.node? newNode)
              let tree := tree.setEdgeL ek.1 ek.2 (g.edge? ek.1 ek.2)
              tightTreeLoop g ranks fuel tree (rest ++ newEdges)
            else tightTreeLoop g ranks fuel tree rest

/-- `getTightTree` (lines 267-296). -/
def getTightTree (g : Graph) (ranks : RankTable) : Option Graph :=
  match g.nodeIds with
  | [] => some Graph.new
  | node :: _ =>
      let tree := Graph.new.setNode node (g.node? node)
      tightTreeLoop g ranks ((g.nodeCount + 1) * (g.edgeCount + 1) + g.edgeCount + 1)
        tree (g.nodeEdges node)

/-- `getMinSlack` (lines 307-328): the connecting edge of smallest slack.
`none` covers both the crash on a missing edge label and the `Infinity`
no-candidate state, in which the source goes on to corrupt every rank
with `-Infinity`; the caller treats both as failure. -/
def getMinSlack (g tree : Graph) (ranks : RankTable) : Option (ℚ × EdgeKey) :=
  let step := fun (best : Option (Option (ℚ × EdgeKey))) (ek : EdgeKey) =>
    best.bind (fun best =>
      if (tree.hasNode ek.1) == (tree.hasNode ek.2) then some best
      else
        match g.edge? ek.1 ek.2 with
        | none => none
        | some l =>
            match l.minlen, ranks.getRank ek.1, ranks.getRank ek.2 with
            | some ml, some rv, some rw =>
                let slack := (rw - rv) - ml
                match best with
                | none => some (some (slack, ek))
                | some (bs, bek) =>
                    if slack < bs then some (some (slack, ek)) else some (some (bs, bek))
            | _, _, _ => some best)
  (g.edgeKeys.foldl step (some none)).bind id

/-- The tree-growing `while` of `getFeasibleTree` (lines 178-200): add
the minimum-slack connecting edge and shift the rank of every node except
the new one by the signed slack. -/
def growTreeLoop (g : Graph) : Nat → Graph → RankTable → Option (Graph × RankTable)
  | 0, _, _ => none
  | fuel + 1, tree, ranks =>
      if tree.nodeCount < g.nodeCount then
        match getMinSlack g tree ranks with
        | none => none
        | some (minSlack, ek) =>
            let rankDelta := if tree.hasNode ek.1 then minSlack else -minSlack
            let newNode := if tree.hasNode ek.1 then ek.2 else ek.1
            let tree := tree.setNode newNode (g.node? newNode)
            let tree := tree.setEdgeL ek.1 ek.2 (g.edge? ek.1 ek.2)
            (g.nodeIds.foldlM (fun (t : RankTable) node =>
                if node == newNode then some t
                else (t.getRank node).map (fun r => t.set node (r + rankDelta))) ranks).bind
              (fun ranks => growTreeLoop g fuel tree ranks)
      else some (tree, ranks)

/-- `postorderNumber` (lines 356-378): a postorder walk that assigns each
node a number; note that the source assigns `minSubtreeNumber` the very
same value as `number` (lines 372-373). -/
def postorderNumber : Nat → Graph → NodeId → List NodeId → ℚ → Option (Graph × ℚ)
  | 0, _, _, _, _ => none
  | fuel + 1, tree, node, stack, number =>
      let stack' := stack ++ [node]
      let step := fun (acc : Option (Graph × ℚ)) (nbr : NodeId) =>
        acc.bind (fun tn =>
          if stack'.contains nbr then some tn
          else postorderNumber fuel tn.1 nbr stack' tn.2)
      ((tree.neighbors node).foldl step (some (tree, number))).bind (fun tn =>
        match tn.1.node? node with
        | none => none
        | some _ =>
            some (tn.1.modNode node (·.modAttrs (fun a =>
              { a with number := some tn.2, minSubtreeNumber := some tn.2 })), tn.2 + 1))

/-- `postorderSetCutValues` (lines 389-455).  Because `postorderNumber`
makes `number` and `minSubtreeNumber` coincide, the `isLeafNode` test is
true at every node, so in practice only the first incident tree edge of
the start node receives a cut value. -/
def postorderSetCutValues : Nat → Graph → Graph → NodeId → List NodeId → Option Graph
  | 0, _, _, _, _ => none
  | fuel + 1, graph, tree, node, stack =>
      match tree.node? node with
      | none => none
      | some l =>
          let isLeaf := l.attrs.number == l.attrs.minSubtreeNumber
          match tree.nodeEdges node with
          | [] => some tree
          | pe :: _ =>
              if isLeaf then
                let parentIsTail := node == pe.2
                let preds := graph.predecessors node
                let succs := graph.successors node
                let cutValue : ℚ :=
                  if parentIsTail then (preds.length : ℚ) - succs.length
                  else (succs.length : ℚ) - preds.length
                match tree.edge? pe.1 pe.2 with
                | none => none
                | some _ =>
                    some (tree.modEdge pe.1 pe.2 (fun el => { el with cutValue := some cutValue }))
              else
                let stack' := stack ++ [node]
                ((tree.neighbors node).foldlM (fun t nbr =>
                    if stack'.contains nbr then some t
                    else postorderSetCutValues fuel graph t nbr stack') tree).bind (fun t =>
                  match (t.nodeEdges node).find?
                      (fun e => ((t.edge? e.1 e.2).bind (·.cutValue)).isNone) with
                  | none => some t
                  | some pe =>
                      let parentTailType := node == pe.2
                      let cutValue := (graph.nodeEdges node).foldl (fun (cv : ℚ) e =>
                        let connectedTailType := node == e.2
                        let ecv := (t.edge? e.1 e.2).bind (·.cutValue)
                        if qTruthy ecv then cv + ecv.getD 0 - 1
                        else if connectedTailType == parentTailType then cv + 1
                        else cv - 1) 0
                      match t.edge? pe.1 pe.2 with
                      | none => none
                      | some _ =>
                          some (t.modEdge pe.1 pe.2
                            (fun el => { el with cutValue := some cutValue })))

/-- `setCutValues` (lines 338-344): number the tree from the graph's
first node, then assign cut values. -/
def setCutValues (graph tree : Graph) : Option Graph :=
  match graph.nodeIds with
  | [] => none
  | root :: _ =>
      (postorderNumber (tree.nodeCount + 1) tree root [] 1).bind (fun tn =>
        postorderSetCutValues (tree.nodeCount + 1) graph tn.1 root [])

/-- `getFeasibleTree` (lines 172-205). -/
def getFeasibleTree (g : Graph) : Option (Graph × RankTable) :=
  (setRanks g none).bind (fun ranks =>
    (getTightTree g ranks).bind (fun tree =>
      if g.edgeCount == 0 then some (tree, ranks)
      else
        (growTreeLoop g (g.nodeCount + 1) tree ranks).bind (fun tr =>
          (setCutValues g tr.1).map (fun tree => (tree, tr.2)))))

end Argumappr

namespace Argumappr

/-- `checkEdge` of `NegativeCutValueEdgeIterator` (lines 479-486): is the
tree edge at `index` returnable (negative cut value, and not the edge
returned last time)?  Reading the cut value of an unlabeled edge crashes
(`none`); an `undefined` cut value compares as false. -/
def iterCheckEdge (tree : Graph) (index : Nat) (lastEdge : Option EdgeKey) : Option Bool :=
  if index == tree.edgeCount then some false
  else
    match tree.edgeKeys[index]? with
    | none => some false
    | some ek =>
        if lastEdge == some ek then some false
        else
          match tree.edge? ek.1 ek.2 with
          | none => none
          | some el =>
              some (match el.cutValue with
                | none => false
                | some cv => cv < 0)

/-- The cyclic scan of `hasNext` (lines 493-504). -/
def iterScan (tree : Graph) (lastEdge : Option EdgeKey) (startIndex : Nat) :
    Nat → Nat → Option (Bool × Nat)
  | 0, index => some (false, index)
  | fuel + 1, index =>
      (iterCheckEdge tree index lastEdge).bind (fun ok =>
        if ok then some (true, index)
        else
          let index' := (index + 1) % tree.edgeCount
          if index' == startIndex then some (false, index')
          else iterScan tree lastEdge startIndex fuel index')

/-- `hasNext` (lines 493-504): search cyclically from the current index;
returns the answer and the updated index. -/
def iterHasNext (tree : Graph) (index : Nat) (lastEdge : Option EdgeKey) :
    Option (Bool × Nat) :=
  if tree.edgeCount == 0 then some (false, index)
  else
    (iterCheckEdge tree index lastEdge).bind (fun ok =>
      if ok then some (true, index)
      else
        let index' := (index + 1) % tree.edgeCount
        if index' == index then some (false, index')
        else iterScan tree lastEdge index (tree.edgeCount + 1) index')

/-- `getNontreeMinSlackEdge` (lines 532-573): among the non-tree edges
whose source leaves the tail component and whose target lies in it, the
one of smallest absolute rank distance.  Note the source measures the
slack as `Math.abs(rank v - rank w)`, not distance minus `minlen`. -/
def getNontreeMinSlackEdge (g tree : Graph) (ranks : RankTable) (cutEdge : EdgeKey) :
    Option (Option EdgeKey) :=
  match tree.node? cutEdge.1, tree.node? cutEdge.2 with
  | some lv, some lw =>
      let vN := lv.attrs.number
      let wN := lw.attrs.number
      let rootInHead := jsLt vN wN
      let lo := if rootInHead then lv.attrs.minSubtreeNumber else lw.attrs.minSubtreeNumber
      let hi := if rootInHead then vN else wN
      let step := fun (best : Option (ℚ × EdgeKey)) (ek : EdgeKey) =>
        if tree.hasEdge ek.1 ek.2 then some best
        else
          match tree.node? ek.1, tree.node? ek.2 with
          | some l1, some l2 =>
              let inTail := fun (l : NodeLabel) =>
                jsLe lo l.attrs.number && jsLe l.attrs.number hi
              let cond := !(inTail l1) && inTail l2
              let slack? := match ranks.getRank ek.1, ranks.getRank ek.2 with
                | some r1, some r2 => some |r1 - r2|
                | _, _ => none
              match slack?, best with
              | some s, none => some (if cond then some (s, ek) else none)
              | some s, some (bs, bek) =>
                  some (if cond && s < bs then some (s, ek) else some (bs, bek))
              | none, _ => some best
          | _, _ => none
      (g.edgeKeys.foldlM step none).map (fun best => best.map (·.2))
  | _, _ => none

/-- Worklist of `getClosestCommonAncestor` (lines 634-643): scan the
growing neighbor list for a node whose number range covers both numbers.
`none` covers the source's `undefined` fall-through and its crash on a
node without a label; the caller crashes on either. -/
def gccaLoop (tree : Graph) (lo hi : ℚ) : Nat → List NodeId → List NodeId → Option NodeId
  | 0, _, _ => none
  | _ + 1, _, [] => none
  | fuel + 1, seen, node :: rest =>
      match tree.node? node with
      | none => none
      | some l =>
          let found := match l.attrs.minSubtreeNumber, l.attrs.number with
            | some mn, some n => mn ≤ hi && lo ≤ n
            | _, _ => false
          if found then some node
          else
            let nbrs := (tree.neighbors node).filter (fun nb => !seen.contains nb)
            gccaLoop tree lo hi fuel (seen ++ nbrs) (rest ++ nbrs)

/-- `getClosestCommonAncestor` (lines 627-644). -/
def getClosestCommonAncestor (tree : Graph) (node0 node1 : NodeId) : Option NodeId :=
  match (tree.node? node0).bind (·.attrs.number), (tree.node? node1).bind (·.attrs.number) with
  | some n0, some n1 =>
      let init := tree.neighbors node0
      gccaLoop tree (min n0 n1) (max n0 n1) (2 * tree.nodeCount + 2) init init
  | _, _ => none

/-- The subtree worklist of `updateRanks` (lines 654-667): neighbors with
strictly smaller numbers, transitively. -/
def subtreeWorklist (tree : Graph) : Nat → List NodeId → List NodeId → Option (List NodeId)
  | 0, _, _ => none
  | _ + 1, acc, [] => some acc
  | fuel + 1, acc, node :: rest =>
      match tree.node? node with
      | none => none
      | some l =>
          let pushes := (tree.neighbors node).filter (fun nb =>
            jsLt ((tree.node? nb).bind (·.attrs.number)) l.attrs.number)
          subtreeWorklist tree fuel (acc ++ pushes) (rest ++ pushes)

/-- `updateRanks` (lines 653-674).  The call `setRanks(tree,
subtreeNodes)` splices the `subtreeNodes` array empty as it assigns
ranks, so the final `forEach` over that array copies nothing back: when
`setRanks` terminates the function leaves `ranks` unchanged, and when it
does not (a subtree node keeps an in-edge from outside the list) the
source loops forever (`none`). -/
def updateRanks (tree : Graph) (ranks : RankTable) (subtreeRoot : NodeId) :
    Option RankTable :=
  match tree.node? subtreeRoot with
  | none => none
  | some l =>
      let initial := (tree.neighbors subtreeRoot).filter (fun nb =>
        jsLt ((tree.node? nb).bind (·.attrs.number)) l.attrs.number)
      (subtreeWorklist tree ((tree.nodeCount + 2) * (tree.nodeCount + 2)) initial initial).bind
        (fun subtreeNodes =>
          (setRanks tree (some subtreeNodes)).map (fun _ => ranks))

/-- `updateTreeValues` (lines 585-616): recompute numbering, cut values
and ranks after an edge swap.  When the closest common ancestor is the
graph's first node the tree is renumbered globally and the ranks are
recomputed from the tree alone; the mutated tree is returned along with
the ranks. -/
def updateTreeValues (g tree : Graph) (ranks : RankTable) (newTreeEdge : EdgeKey) :
    Option (Graph × RankTable) :=
  match g.nodeIds with
  | [] => none
  | rootNode :: _ =>
      match getClosestCommonAncestor tree newTreeEdge.1 newTreeEdge.2 with
      | none => none
      | some commonAncestor =>
          if commonAncestor == rootNode then
            (setCutValues g tree).bind (fun tree =>
              (setRanks tree none).map (fun ranks => (tree, ranks)))
          else
            (updateRanks tree ranks commonAncestor).bind (fun ranks =>
              match tree.node? commonAncestor with
              | none => none
              | some al =>
                  match al.attrs.minSubtreeNumber with
                  | none => none
                  | some msn =>
                      let nodeStack := (tree.neighbors commonAncestor).filter (fun nb =>
                        jsLt al.attrs.number ((tree.node? nb).bind (·.attrs.number)))
                      (postorderNumber (tree.nodeCount + 1) tree commonAncestor nodeStack msn).bind
                        (fun tn =>
                          (postorderSetCutValues (tree.nodeCount + 1) g tn.1 commonAncestor
                            nodeStack).map (fun tree => (tree, ranks))))

/-- The network-simplex `while` of `layerNodes` (lines 31-42), carrying
the iterator state and the loop counter.  The loop guard evaluates
`loopCount < graph.graph().maxrankingloops`; a graph label without that
key makes the comparison false, so an unset cap admits no iteration. -/
def simplexLoop (g : Graph) (cap : Option ℚ) :
    Nat → Graph → RankTable → Nat → Option EdgeKey → Nat → Option (Graph × RankTable × Nat)
  | 0, _, _, _, _, _ => none
  | fuel + 1, tree, ranks, index, lastEdge, count =>
      (iterHasNext tree index lastEdge).bind (fun hn =>
        let capOk := match cap with
          | none => false
          | some c => (count : ℚ) < c
        if !(hn.1 && capOk) then some (tree, ranks, count)
        else
          match tree.edgeKeys[hn.2]? with
          | none => none
          | some treeEdge =>
              (getNontreeMinSlackEdge g tree ranks treeEdge).bind (fun nontree? =>
                match nontree? with
                | none => simplexLoop g cap fuel tree ranks hn.2 (some treeEdge) (count + 1)
                | some nontreeEdge =>
                    (tree.removeEdgeOv treeEdge.1 treeEdge.2).bind (fun tree =>
                      let tree := tree.setEdgeL nontreeEdge.1 nontreeEdge.2
                        (g.edge? nontreeEdge.1 nontreeEdge.2)
                      (updateTreeValues g tree ranks nontreeEdge).bind (fun tr =>
                        simplexLoop g cap fuel tr.1 tr.2 hn.2 (some treeEdge) (count + 1)))))

/-- Fuel that dominates any admissible iteration count of the simplex
loop: one more than the cap rounded up (an unset cap admits none). -/
def simplexFuel (cap : Option ℚ) : Nat :=
  match cap with
  | none => 1
  | some c => c.ceil.toNat + 2

end Argumappr

namespace Argumappr

/-- Filter the node list by a label predicate, crashing (`none`) on a
node whose label is `undefined`, as the source's plain property access
does. -/
def filterByLabel (g : Graph) (p : NodeLabel → Bool) : Option (List NodeId) :=
  g.nodeIds.foldlM (fun acc v =>
    match g.node? v with
    | none => none
    | some l => some (if p l then acc ++ [v] else acc)) []

/-- `mergeConjunctNodes` of `src/layer-nodes.ts` (lines 60-98): for each
conjunct container, redirect every in- and out-edge of its children to
the container, stash the children's labels and the original edges in the
container's label, and delete the children. -/
def mergeConjunctNodes (g : Graph) : Option (Graph × List NodeId) :=
  (filterByLabel g (·.attrs.isConjunctNode)).bind (fun conjunctNodes =>
    (conjunctNodes.foldlM (fun (g : Graph) node =>
      let subnodes := g.children node
      let folded := subnodes.foldl
        (fun (acc : Graph × List EdgeRec × List (NodeId × Option NodeLabel)) subnode =>
          let (g, orig, sdata) := acc
          let inE := g.inEdges subnode
          let outE := g.outEdges subnode
          let (g, orig) := inE.foldl (fun (p : Graph × List EdgeRec) (ek : EdgeKey) =>
              let lbl := p.1.edge? ek.1 ek.2
              (p.1.setEdgeL ek.1 node lbl, p.2 ++ [(⟨ek.1, ek.2, none, lbl⟩ : EdgeRec)])) (g, orig)
          let (g, orig) := outE.foldl (fun (p : Graph × List EdgeRec) (ek : EdgeKey) =>
              let lbl := p.1.edge? ek.1 ek.2
              (p.1.setEdgeL node ek.2 lbl, p.2 ++ [(⟨ek.1, ek.2, none, lbl⟩ : EdgeRec)])) (g, orig)
          let sdata := sdata ++ [(subnode, g.node? subnode)]
          (g.removeNode subnode, orig, sdata)) (g, [], [])
      match folded.1.node? node with
      | none => none
      | some l =>
          some (folded.1.setNode node (some (NodeLabel.mk l.attrs folded.2.2 folded.2.1
            l.conjunctNode l.warrantNodes l.relevanceNodes)))) g).map
      (fun g => (g, conjunctNodes)))

/-- `mergeRelevanceStructures` of `src/layer-nodes.ts` (lines 109-162):
for each node flagged `isRelevanceSink` (note the flag name: the graph
extension `setWarrantEdge` flags its sink `isWarrantSink`, which this
filter does not match), merge the sink, the two nodes named in its id,
and its first predecessor into a fresh `meta` node.  A sink without a
predecessor would push `undefined` ids through the merge in the source;
that garbage path is folded into `none`. -/
def mergeRelevanceStructures (g : Graph) : Option (Graph × List NodeId) :=
  (filterByLabel g (·.attrs.isRelevanceSink)).bind (fun sinks =>
    sinks.foldlM (fun (st : Graph × List NodeId) sink =>
      let (g, metas) := st
      let incidentNodes := sink.splitOn " -> "
      match (g.predecessors sink)[0]? with
      | none => none
      | some relevanceSource =>
          let nodes := [sink] ++ incidentNodes ++ [relevanceSource]
          let meta := "meta " ++ sink
          let g := g.setNode meta (some NodeLabel.empty)
          (nodes.foldlM
            (fun (a : Graph × List EdgeRec × List (NodeId × Option NodeLabel)) node =>
              let (g, orig, sdata) := a
              let inE := g.inEdges node
              let outE := g.outEdges node
              let (g, orig) := inE.foldl (fun (p : Graph × List EdgeRec) (ek : EdgeKey) =>
                  let lbl := p.1.edge? ek.1 ek.2
                  let orig := p.2 ++ [(⟨ek.1, ek.2, none, lbl⟩ : EdgeRec)]
                  if nodes.contains ek.1 then (p.1, orig)
                  else (p.1.setEdgeL ek.1 meta lbl, orig)) (g, orig)
              (outE.foldlM (fun (p : Graph × List EdgeRec) (ek : EdgeKey) =>
                  let lbl := p.1.edge? ek.1 ek.2
                  let orig := p.2 ++ [(⟨ek.1, ek.2, none, lbl⟩ : EdgeRec)]
                  if nodes.contains ek.2 then some (p.1, orig)
                  else if (incidentNodes[1]? == some ek.1) || relevanceSource == ek.1 then
                    match lbl with
                    | none => none
                    | some l0 =>
                        some (p.1.setEdgeL meta ek.2
                          (some { l0 with minlen := l0.minlen.map (· + 1) }), orig)
                  else some (p.1.setEdgeL meta ek.2 lbl, orig)) (g, orig)).map
                (fun (p : Graph × List EdgeRec) =>
                  let sdata :=
                    if sdata.any (·.1 == node) then
                      sdata.map (fun (q : NodeId × Option NodeLabel) => if q.1 == node then (node, p.1.node? node) else q)
                    else sdata ++ [(node, p.1.node? node)]
                  (p.1.removeNode node, p.2, sdata))) (g, [], [])).bind
          (fun (a : Graph × List EdgeRec × List (NodeId × Option NodeLabel)) =>
            match a.1.node? meta with
            | none => none
            | some ml =>
                some (a.1.setNode meta (some (NodeLabel.mk ml.attrs a.2.2 a.2.1
                  ml.conjunctNode ml.warrantNodes ml.relevanceNodes)), metas ++ [meta])))
      (g, []))

/-- `normalizeRanks` (lines 682-690): subtract the smallest rank from
every node's rank unless it is already `0`.  An empty table with a
nonempty node list, or an unranked node, produces NaN ranks in the
source (`none`). -/
def normalizeRanks (g : Graph) (ranks : RankTable) : Option RankTable :=
  match ranks.getMinRankIndex with
  | some s =>
      if s == 0 then some ranks
      else g.nodeIds.foldlM (fun (t : RankTable) node =>
        (t.getRank node).map (fun r => t.set node (r - s))) ranks
  | none => if g.nodeIds.isEmpty then some ranks else none

/-- One step of `Math.max(...list)` over an accumulator that starts
`undefined` (`-Infinity` in the source, below every rank). -/
def maxAcc (a : Option ℚ) (r : ℚ) : Option ℚ :=
  some (match a with | none => r | some m => max m r)

/-- One step of `Math.min(...list)` over an accumulator that starts
`undefined` (`Infinity` in the source, above every rank). -/
def minAcc (a : Option ℚ) (r : ℚ) : Option ℚ :=
  some (match a with | none => r | some m => min m r)

/-- One node of `balanceLayering` (lines 700-738).  A node with unequal
in- and out-degree, or whose neighbor ranks are not all present (the NaN
comparison path), is skipped; looking up an empty viable rank crashes on
`undefined.size` (`none`). -/
def balanceOne (g : Graph) (ranks : RankTable) (node : NodeId) : Option RankTable :=
  if (g.inEdges node).length != (g.outEdges node).length then some ranks
  else
    match (g.predecessors node).mapM ranks.getRank, (g.successors node).mapM ranks.getRank with
    | some parentRanks, some childRanks =>
        let maxParent? := parentRanks.foldl maxAcc none
        let minChild? := childRanks.foldl minAcc none
        let canMove := match minChild?, maxParent? with
          | some c, some p => c - p > 2
          | _, _ => true
        if !canMove then some ranks
        else
          match ranks.getRank node with
          | none => none
          | some nodeRank =>
              match ranks.getNodes nodeRank with
              | none => none
              | some nodeRankSet =>
                  let firstViable := match maxParent? with
                    | some p => p + 1
                    | none => 0
                  let lastViable? : Option ℚ := match minChild? with
                    | some c => some (c - 1)
                    | none => ranks.getMaxRankIndex
                  let steps := match lastViable? with
                    | none => 0
                    | some last => ((last - firstViable).floor + 1).toNat
                  ((List.range steps).foldlM (fun (best : ℚ × Nat) (k : Nat) =>
                      let rankIndex := firstViable + k
                      match ranks.getNodes rankIndex with
                      | none => none
                      | some s =>
                          some (if s.length < best.2 then (rankIndex, s.length) else best))
                    ((nodeRank, nodeRankSet.length) : ℚ × Nat)).map (fun (best : ℚ × Nat) => ranks.set node best.1)
    | _, _ => some ranks

/-- `balanceLayering` (lines 699-739): the per-node balancing pass over
the node list, threading the mutated rank table. -/
def balanceLayering (g : Graph) (ranks : RankTable) : Option RankTable :=
  g.nodeIds.foldlM (fun t node => balanceOne g t node) ranks

/-- `splitConjunctNodes` (lines 747-773): restore the stashed children
and edges of each conjunct container, give the children the container's
rank, and remove every container edge except the one to the conjunct
target (through the overridden `removeEdge`, which deletes the container
itself on the first such removal). -/
def splitConjunctNodes (g : Graph) (ranks : RankTable) (conjunctNodes : List NodeId) :
    Option (Graph × RankTable) :=
  conjunctNodes.foldlM (fun (acc : Graph × RankTable) node =>
    let (g, ranks) := acc
    match g.node? node with
    | none => none
    | some l =>
        (l.subnodeData.foldlM (fun (a : Graph × RankTable) (sn : NodeId × Option NodeLabel) =>
            let g := (a.1.setNode sn.1 sn.2).setParent sn.1 (some node)
            match a.2.getRank node with
            | none => none
            | some r => some (g, a.2.set sn.1 r)) (g, ranks)).bind
        (fun (a : Graph × RankTable) =>
          let g := l.originalEdges.foldl (fun (g : Graph) (e : EdgeRec) => g.setEdgeL e.v e.w e.label) a.1
          let conjunctTarget := node.drop 3
          ((g.nodeEdges node).foldlM (fun (g : Graph) (ek : EdgeKey) =>
              if ek.2 == conjunctTarget then some g
              else g.removeEdgeOv ek.1 ek.2) g).map (fun g => (g, a.2))))
    (g, ranks)

/-- `splitRelevanceStructures` (lines 783-822): restore the stashed
nodes and edges of each meta relevance node, then push the warrant
target one rank down and the warrant source and sink half a rank down.
The trailing half-rank adjustments read the ranks of the ids remembered
in the loop's mutable variables; when those are still the initial empty
strings or unranked the source computes NaN ranks (`none`). -/
def splitRelevanceStructures (g : Graph) (ranks : RankTable) (metas : List NodeId) :
    Option (Graph × RankTable) :=
  if metas.isEmpty then some (g, ranks)
  else
    (metas.foldlM (fun (st : Graph × RankTable × NodeId × NodeId × NodeId) node =>
        let (g, ranks, sink, rSink, rSource) := st
        match g.node? node with
        | none => none
        | some l =>
            (l.subnodeData.foldlM
              (fun (a : Graph × RankTable × NodeId × NodeId) (sn : NodeId × Option NodeLabel) =>
                let (g, ranks, sink, rSink) := a
                let g := g.setNode sn.1 sn.2
                match ranks.getRank node with
                | none => none
                | some r =>
                    let ranks := ranks.set sn.1 r
                    match sn.2 with
                    | none => none
                    | some sl =>
                        if sl.attrs.isRelevanceSink then
                          match (sn.1.splitOn " -> ")[1]? with
                          | none => none
                          | some s => some (g, ranks, s, sn.1)
                        else some (g, ranks, sink, rSink)) (g, ranks, sink, rSink)).bind
            (fun (a : Graph × RankTable × NodeId × NodeId) =>
              let (g, ranks, sink, rSink) := a
              let folded := l.originalEdges.foldl (fun (p : Graph × NodeId) (e : EdgeRec) =>
                  let rSource := if rSink == e.w then e.v else p.2
                  (p.1.setEdgeL e.v e.w e.label, rSource)) (g, rSource)
              some (folded.1.removeNode node, ranks.delete node, sink, rSink, folded.2)))
      (g, ranks, "", "", "")).bind
    (fun (st : Graph × RankTable × NodeId × NodeId × NodeId) =>
      let (g, ranks, sink, rSink, rSource) := st
      (ranks.getRank sink).bind (fun rs =>
        let ranks := ranks.set sink (rs + 1)
        (ranks.getRank rSink).bind (fun rrs =>
          let ranks := ranks.set rSink (rrs + 1/2)
          (ranks.getRank rSource).map (fun rro =>
            (g, ranks.set rSource (rro + 1/2))))))

/-- The per-node body of `setYCoordinates`. -/
def setYNode (ranks : RankTable) (g : Graph) (node : NodeId) : Option Graph :=
  match g.node? node with
  | none => none
  | some _ =>
      some (g.modNode node (·.modAttrs (fun a =>
        { a with y := (ranks.getRank node).map (· * NODE_Y_SPACING) })))

/-- `setYCoordinates` (lines 830-837): `y = rank * NODE_Y_SPACING` for
every node, from the fixed constant; an unranked node would store NaN
(`none` in the stored `y`, modelled as failure of the write). -/
def setYCoordinates (g : Graph) (ranks : RankTable) : Option Graph :=
  g.nodeIds.foldlM (setYNode ranks) g

/-- The front half of `layerNodes` (lines 22-42): conjunct and relevance
merging, the feasible tree, and the network-simplex loop; returns the
mutated graph, both merge lists, the final tree and ranks, and the
number of loop iterations executed. -/
def layerNodesSimplex (g : Graph) :
    Option (Graph × List NodeId × List NodeId × (Graph × RankTable × Nat)) :=
  (mergeConjunctNodes g).bind (fun gc =>
    (mergeRelevanceStructures gc.1).bind (fun gm =>
      (getFeasibleTree gm.1).bind (fun tr =>
        match gm.1.glabel with
        | none => none
        | some gl =>
            (simplexLoop gm.1 gl.maxrankingloops (simplexFuel gl.maxrankingloops)
                tr.1 tr.2 0 none 0).map
              (fun trc => (gm.1, gc.2, gm.2, trc)))))

/-- `layerNodes` (lines 22-51): the layering phase.  Returns the mutated
graph and the rank table. -/
def layerNodes (g : Graph) : Option (Graph × RankTable) :=
  (layerNodesSimplex g).bind (fun st =>
    let g := st.1
    let conjunctNodes := st.2.1
    let metas := st.2.2.1
    let ranks := st.2.2.2.2.1
    (normalizeRanks g ranks).bind (fun ranks =>
      (balanceLayering g ranks).bind (fun ranks =>
        (splitRelevanceStructures g ranks metas).bind (fun gr =>
          (splitConjunctNodes gr.1 gr.2 conjunctNodes).bind (fun gr =>
            (setYCoordinates gr.1 gr.2).map (fun g => (g, gr.2)))))))

/-- Number of network-simplex iterations a `layerNodes` run executes. -/
def layerNodesSimplexCount (g : Graph) : Option Nat :=
  (layerNodesSimplex g).map (fun st => st.2.2.2.2.2)

/-- Whether the cut-value iterator would offer an edge before the first
simplex iteration (a tree edge with negative cut value exists). -/
def layerNodesHasNegativeEdge (g : Graph) : Option Bool :=
  (mergeConjunctNodes g).bind (fun gc =>
    (mergeRelevanceStructures gc.1).bind (fun gm =>
      (getFeasibleTree gm.1).bind (fun tr =>
        (iterHasNext tr.1 0 none).map (·.1))))

end Argumappr

namespace Argumappr

/-! ## Coordinate assignment (`src/straighten-edges.ts`) -/

/-- The inner `while (node1Index <= j)` of `markConflicts` (lines
115-128), marking conflicted the edges whose predecessor index falls
outside the `[predecessor0Index, predecessor1Index]` window. -/
def markConflictsInner (g : Graph) (layer : List NodeId) (p0 p1 : Int) (n1 j : Nat) :
    Graph × Nat :=
  let idxs := List.range' n1 (j + 1 - n1)
  let g := idxs.foldl (fun (g : Graph) jj =>
    match layer[jj]? with
    | none => g
    | some node1 =>
        let preds := g.predecessors node1
        (List.range preds.length).foldl (fun (g : Graph) (k : Nat) =>
          if (k : Int) < p0 || (k : Int) > p1 then
            match preds[k]? with
            | none => g
            | some pred => g.setEdgeL pred node1 (some { conflicted := some true })
          else g) g) g
  (g, j + 1)

/-- `markConflicts` of `src/straighten-edges.ts` (lines 95-134): reset
every edge label to `{conflicted: false}`, then mark type-1 conflicts
between adjacent rank pairs.  A matrix node missing from the graph
crashes on the label access (`none`). -/
def markConflicts (g : Graph) (matrix : List (List NodeId)) : Option Graph :=
  let g := g.edgeKeys.foldl (fun (g : Graph) ek =>
    g.setEdgeL ek.1 ek.2 (some { conflicted := some false })) g
  (List.range matrix.length).foldlM (fun (g : Graph) i =>
    if 1 ≤ i && i + 1 < matrix.length then
      let layer := (matrix[i + 1]?).getD []
      let upper := (matrix[i]?).getD []
      ((List.range layer.length).foldlM
        (fun (st : Graph × Int × Nat) j =>
          let (g, p0, n1) := st
          match layer[j]? with
          | none => none
          | some node0 =>
              match g.node? node0 with
              | none => none
              | some l0 =>
                  if j == layer.length - 1 || l0.attrs.isDummyNode then
                    let p1 : Int :=
                      if l0.attrs.isDummyNode then
                        match (g.predecessors node0)[0]? with
                        | none => -1
                        | some pred => (upper.indexOf pred : Int) -
                            (if upper.contains pred then 0 else upper.length + 1)
                      else (upper.length : Int) - 1
                    let gi := markConflictsInner g layer p0 p1 n1 j
                    some (gi.1, p1, gi.2)
                  else some (g, p0, n1)) (g, (0 : Int), 1)).map
        (fun (st : Graph × Int × Nat) => st.1)
    else some g) g

/-- One candidate neighbor step of `alignVertically` (lines 174-211):
align `node` into the block of its `k`-th neighbor when the node is
still a singleton, the edge is unconflicted, and the alignment keeps the
monotone neighbor-index order. -/
def alignStep (g : Graph) (leftBias topBias : Bool) (node : NodeId) (nbrs : List NodeId)
    (lastIdx : Int) (k : Int) : Option (Graph × Int) :=
  match g.node? node with
  | none => none
  | some nl =>
      match if k < 0 then none else nbrs[k.toNat]? with
      | none => some (g, lastIdx)
      | some neighbor =>
          if nl.attrs.nextBlockNode != some node then some (g, lastIdx)
          else
            let src := if topBias then neighbor else node
            let tgt := if topBias then node else neighbor
            match g.edge? src tgt with
            | none => none
            | some el =>
                let conflicted := el.conflicted.getD false
                let fits := if leftBias then lastIdx < k else lastIdx > k
                if !conflicted && fits then
                  if topBias then
                    match g.node? neighbor with
                    | none => none
                    | some nbl =>
                        let neighborRoot := nbl.attrs.blockRoot
                        let g := appendNodeValues g neighbor (fun a =>
                          { a with nextBlockNode := some node })
                        let g := appendNodeValues g node (fun a =>
                          { a with blockRoot := neighborRoot, nextBlockNode := neighborRoot })
                        some (g, k)
                  else
                    let nodeRoot := nl.attrs.blockRoot
                    let g := appendNodeValues g node (fun a =>
                      { a with nextBlockNode := some neighbor })
                    let g := appendNodeValues g neighbor (fun a =>
                      { a with blockRoot := nodeRoot, nextBlockNode := nodeRoot })
                    some (g, k)
                else some (g, lastIdx)

/-- `alignVertically` (lines 136-215): initialise every node as its own
block, then sweep the rows in the vertical bias direction and the
columns in the horizontal bias direction, linking each node to the
median candidate neighbor in the fixed adjacent row. -/
def alignVertically (g : Graph) (matrix : List (List NodeId)) (leftBias topBias : Bool) :
    Option Graph :=
  let g := g.nodeIds.foldl (fun (g : Graph) v =>
    appendNodeValues g v (fun a => { a with nextBlockNode := some v, blockRoot := some v })) g
  let rowIdxs := if topBias then List.range matrix.length else (List.range matrix.length).reverse
  rowIdxs.foldlM (fun (g : Graph) i =>
    let layer := (matrix[i]?).getD []
    let colIdxs := if leftBias then List.range layer.length else (List.range layer.length).reverse
    ((colIdxs.foldlM (fun (st : Graph × Int) j =>
        let (g, lastIdx) := st
        match layer[j]? with
        | none => none
        | some node =>
            if !(g.hasNode node) then none
            else
              let nbrs := if topBias then g.predecessors node else g.successors node
              if nbrs.isEmpty then some (g, lastIdx)
              else
                let leftN : Int := (nbrs.length : Int) / 2
                let rightN : Int := ((nbrs.length : Int) + 1) / 2
                let ks := if leftBias then [leftN, rightN].dedup
                  else [rightN, leftN].dedup
                ks.foldlM (fun (st : Graph × Int) k =>
                  alignStep st.1 leftBias topBias node nbrs st.2 k) (g, lastIdx))
      (g, if leftBias then (-1 : Int) else (layer.length : Int)))).map
      (fun (st : Graph × Int) => st.1)) g

mutual

/-- `placeBlock` of `src/straighten-edges.ts` (lines 243-292): recursive
longest-path placement of one block root, memoised through the `x`
attribute. -/
def placeBlock (matrix : List (List NodeId)) (delta : ℚ) :
    Nat → Graph → NodeId → Option Graph
  | 0, _, _ => none
  | fuel + 1, g, node =>
      match g.node? node with
      | none => none
      | some nl =>
          if nl.attrs.x.isSome then some g
          else
            let g := appendNodeValues g node (fun a => { a with x := some 0 })
            placeChain matrix delta fuel g node node

/-- The `do..while` chain walk inside `placeBlock` (lines 251-290). -/
def placeChain (matrix : List (List NodeId)) (delta : ℚ) :
    Nat → Graph → NodeId → NodeId → Option Graph
  | 0, _, _, _ => none
  | fuel + 1, g, node, currentNode =>
      match matrix.findIdx? (fun layer => layer.contains currentNode) with
      | none => none
      | some li =>
          let layer := (matrix[li]?).getD []
          let nodeIndex := layer.indexOf currentNode
          (if nodeIndex > 0 then
            match layer[nodeIndex - 1]? with
            | none => none
            | some previousNode =>
                match (g.node? previousNode).bind (·.attrs.blockRoot) with
                | none => none
                | some prevRoot =>
                    (placeBlock matrix delta fuel g prevRoot).bind (fun g =>
                      match g.node? node, g.node? prevRoot with
                      | some nl, some pl =>
                          let g :=
                            if nl.attrs.classSink == some node then
                              appendNodeValues g node (fun a =>
                                { a with classSink := pl.attrs.classSink })
                            else g
                          match (g.node? node).bind (·.attrs.x),
                              (g.node? prevRoot).bind (·.attrs.x) with
                          | some nodeX, some previousNodeX =>
                              let nodeSink := (g.node? node).bind (·.attrs.classSink)
                              let prevSink := (g.node? prevRoot).bind (·.attrs.classSink)
                              if nodeSink != prevSink then
                                match prevSink with
                                | none => none
                                | some previousNodeSink =>
                                    match g.node? previousNodeSink with
                                    | none => none
                                    | some sl =>
                                        let candidate := nodeX - previousNodeX - delta
                                        let shift := match sl.attrs.shift with
                                          | none => candidate
                                          | some s => min s candidate
                                        some (appendNodeValues g previousNodeSink (fun a =>
                                          { a with shift := some shift }))
                              else
                                some (g.modNode node (·.modAttrs (fun a =>
                                  { a with x := some (max nodeX (previousNodeX + delta)) })))
                          | _, _ => none
                      | _, _ => none)
          else some g).bind (fun g =>
            match (g.node? currentNode).bind (·.attrs.nextBlockNode) with
            | none => none
            | some nxt =>
                if nxt == node then some g
                else placeChain matrix delta fuel g node nxt)

end

/-- `compactHorizontally` (lines 217-241): place every block root, then
give every node its root's `x` plus the root's class shift when that
shift is finite. -/
def compactHorizontally (g : Graph) (matrix : List (List NodeId)) (delta : ℚ) :
    Option Graph :=
  let g := g.nodeIds.foldl (fun (g : Graph) v =>
    appendNodeValues g v (fun a => { a with classSink := some v, shift := none })) g
  (g.nodeIds.foldlM (fun (g : Graph) v =>
      match g.node? v with
      | none => none
      | some l =>
          if l.attrs.blockRoot == some v then
            placeBlock matrix delta ((g.nodeCount + 2) * (g.nodeCount + 2)) g v
          else some g) g).bind (fun g =>
    g.nodeIds.foldlM (fun (g : Graph) v =>
      match (g.node? v).bind (·.attrs.blockRoot) with
      | none => none
      | some vRoot =>
          match g.node? vRoot with
          | none => none
          | some rl =>
              match rl.attrs.classSink with
              | none => none
              | some vRootSink =>
                  match g.node? vRootSink with
                  | none => none
                  | some sl =>
                      let baseX := rl.attrs.x
                      let newX := match sl.attrs.shift with
                        | none => baseX
                        | some s => baseX.map (· + s)
                      some (g.modNode v (·.modAttrs (fun a => { a with x := newX })))) g)

/-- Smallest and largest finite `x` over a graph's nodes (lines 37-52);
`undefined` coordinates are skipped by the JavaScript comparisons. -/
def graphXRange (g : Graph) : Option (ℚ × ℚ) :=
  g.nodeIds.foldl (fun (acc : Option (ℚ × ℚ)) v =>
    match (g.node? v).bind (·.attrs.x) with
    | none => acc
    | some x =>
        match acc with
        | none => some (x, x)
        | some (sm, lg) => some (min sm x, max lg x)) none

/-- Shift every node's `x` by a constant (lines 58-81). -/
def shiftAllX (g : Graph) (d : ℚ) : Graph :=
  g.nodeIds.foldl (fun (g : Graph) v =>
    g.modNode v (·.modAttrs (fun a => { a with x := a.x.map (· + d) }))) g

/-- The final per-node write of `straightenEdges`: the median of the four
biased x-coordinates (writing onto an input node whose label is missing
throws in the source). -/
def medianXWrite (leftTop rightTop leftBottom rightBottom : Graph)
    (g : Graph) (v : NodeId) : Option Graph :=
  match (leftTop.node? v).bind (·.attrs.x),
      (rightTop.node? v).bind (·.attrs.x),
      (leftBottom.node? v).bind (·.attrs.x),
      (rightBottom.node? v).bind (·.attrs.x) with
  | some x0, some x1, some x2, some x3 =>
      let s := List.mergeSort [x0, x1, x2, x3] (· ≤ ·)
      match s[1]?, s[2]?, g.node? v with
      | some a, some b, some _ =>
          some (g.modNode v (·.modAttrs (fun at0 =>
            { at0 with x := some ((a + b) / 2) })))
      | _, _, _ => none
  | _, _, _, _ => none

/-- `straightenEdges` of `src/straighten-edges.ts` (lines 10-93):
Brandes-Koepf with four bias directions.  The horizontal compaction is
invoked with the literal constant `5` as the separation delta (lines
26-29).  The post-alignment shifts reproduce the source's index use
exactly: the two left-biased graphs take the x-objects at positions 0
and 1 of the array `[leftTop, rightTop, leftBottom, rightBottom]`, and
the two right-biased graphs take positions 2 and 3. -/
def straightenEdges (g : Graph) (matrix : List (List NodeId)) : Option Graph :=
  let mk := fun (leftBias topBias : Bool) =>
    (markConflicts (buildSimpleGraph g) matrix).bind (fun bg =>
      (alignVertically bg matrix leftBias topBias).bind (fun bg =>
        compactHorizontally bg matrix 5))
  (mk true true).bind (fun leftTop =>
    (mk false true).bind (fun rightTop =>
      (mk true false).bind (fun leftBottom =>
        (mk false false).bind (fun rightBottom =>
          match graphXRange leftTop, graphXRange rightTop,
              graphXRange leftBottom, graphXRange rightBottom with
          | some r0, some r1, some r2, some r3 =>
              let w0 := r0.2 - r0.1
              let w1 := r1.2 - r1.1
              let w2 := r2.2 - r2.1
              let w3 := r3.2 - r3.1
              let smallestWidth := min (min w0 w1) (min w2 w3)
              let best :=
                if w0 == smallestWidth then r0
                else if w1 == smallestWidth then r1
                else if w2 == smallestWidth then r2
                else r3
              let leftTop := shiftAllX leftTop (best.1 - r0.1)
              let leftBottom := shiftAllX leftBottom (best.1 - r1.1)
              let rightTop := shiftAllX rightTop (best.2 - r2.2)
              let rightBottom := shiftAllX rightBottom (best.2 - r3.2)
              g.nodeIds.foldlM (medianXWrite leftTop rightTop leftBottom rightBottom) g
          | _, _, _, _ =>
              if g.nodeIds.isEmpty then some g else none))))

end Argumappr

namespace Argumappr

/-! ## Routing (`drawBezierCurves` and `src/lay-out-graph.ts`) -/

/-- Quadratic-Bezier midpoint of the two-segment control polygon, one
coordinate at a time (`connectingLine(0.5)`); an `undefined` input
coordinate yields NaN (`none`). -/
def bezierMid (a b c : Option ℚ) : Option ℚ :=
  match a, b, c with
  | some a, some b, some c => some (a / 4 + b / 2 + c / 4)
  | _, _, _ => none

/-- `drawBezierCurves` (the routing routine): every edge receives a
three-point control sequence whose endpoints are the centers of its two
vertices; the bend sits at `(x v, y w)` when the source has more than
one incident edge and at `(x w, y v)` otherwise.  A vertex without a
label crashes the source (`none`). -/
def drawBezierEdge (g : Graph) (ek : EdgeKey) : Option Graph :=
  match g.node? ek.1, g.node? ek.2 with
  | some lv, some lw =>
      let manyVEdges := (g.nodeEdges ek.1).length > 1
      let cp0 : Point := (lv.attrs.x, lv.attrs.y)
      let cp1 : Point :=
        (if manyVEdges then lw.attrs.x else lv.attrs.x,
         if manyVEdges then lv.attrs.y else lw.attrs.y)
      let cp2 : Point := (lw.attrs.x, lw.attrs.y)
      let mid : Point := (bezierMid cp0.1 cp1.1 cp2.1, bezierMid cp0.2 cp1.2 cp2.2)
      let points := [cp0, mid, cp2]
      match g.edge? ek.1 ek.2 with
      | some _ => some (g.modEdge ek.1 ek.2 (fun l => { l with points := some points }))
      | none => some (g.setEdgeL ek.1 ek.2 (some { points := some points }))
  | _, _ => none

/-- The whole routing pass: the per-edge body over every edge key. -/
def drawBezierCurves (g : Graph) : Option Graph :=
  g.edgeKeys.foldlM drawBezierEdge g

/-- `finaliseWarrantPositions` of `src/lay-out-graph.ts` (lines
102-116): for every node flagged `isWarrantDummySource` (a flag nothing
in the current sources sets), restore the stored warrant source and sink
with their final x positions. -/
def finaliseWarrantPositions (g : Graph) : Option Graph :=
  (filterByLabel g (·.attrs.isWarrantDummySource)).bind (fun dummySources =>
    dummySources.foldlM (fun (g : Graph) node =>
      match g.node? node with
      | none => none
      | some nl =>
          match nl.warrantNodes with
          | none => none
          | some (source, sink) =>
              match (sink.1.splitOn " -> ")[0]? with
              | none => none
              | some targetSource =>
                  match g.node? targetSource with
                  | none => none
                  | some tl =>
                      let g := g.setNode source.1 (some ((source.2.getD .empty).modAttrs
                        (fun a => { a with x := nl.attrs.x })))
                      some (g.setNode sink.1 (some ((sink.2.getD .empty).modAttrs
                        (fun a => { a with x := tl.attrs.x })))))
      g)

/-- The per-dummy body of `removeDummyNodes`: collapse one dummy into a
single edge whose control points are the first and last points of the
entering sub-edge and the last point of the leaving sub-edge. -/
def removeDummyNode (g : Graph) (node : NodeId) : Option Graph :=
  match (g.predecessors node)[0]?, (g.successors node)[0]? with
  | some parent, some child =>
      match g.node? node with
      | none => none
      | some nl =>
          let edgeData := nl.attrs.edgeData
          match (g.edge? parent node).bind (·.points),
              (g.edge? node child).bind (·.points) with
          | some inPts, some outPts =>
              match inPts[0]?, inPts[2]?, outPts[2]? with
              | some p0, some p1, some p2 =>
                  let g := g.removeNode node
                  some (g.setEdgeL parent child
                    (some { edgeData.getD {} with points := some [p0, p1, p2] }))
              | _, _, _ => none
          | _, _ => none
  | _, _ => none

/-- `removeDummyNodes` of `src/lay-out-graph.ts` (lines 79-94): the
per-dummy collapse over every node flagged `isDummyNode`. -/
def removeDummyNodes (g : Graph) : Option Graph :=
  let dummyNodes := g.nodeIds.filter (fun v =>
    ((g.node? v).map (·.attrs.isDummyNode)).getD false)
  dummyNodes.foldlM removeDummyNode g

end Argumappr

namespace Argumappr

/-! ## Crossing minimisation (`src/minimise-crossings.ts`) -/

/-- JavaScript `Array.indexOf`: the index, or `-1` when absent. -/
def jsIndexOf (l : List NodeId) (x : NodeId) : Int :=
  if l.contains x then (l.indexOf x : Int) else -1

/-- `splitLongEdges` (lines 79-110): insert a chain of dummy nodes for
every edge spanning more than one rank.  An absent endpoint rank makes
the loop bounds NaN and the edge is left alone; a missing source label
or graph label crashes (`none`). -/
def splitLongEdges (g : Graph) (ranks : RankTable) : Option (Graph × RankTable) :=
  g.edgeKeys.foldlM (fun (st : Graph × RankTable) (ek : EdgeKey) =>
    let (g, ranks) := st
    match g.node? ek.1 with
    | none => none
    | some lv =>
        match g.glabel with
        | none => none
        | some gl =>
            let edgeData := g.edge? ek.1 ek.2
            let steps : Nat := match ranks.getRank ek.1, ranks.getRank ek.2 with
              | some rv, some rw => (((rw - rv).ceil - 1).toNat)
              | _, _ => 0
            let folded : Graph × RankTable × NodeId := (List.range steps).foldl
              (fun (a : Graph × RankTable × NodeId) (i : Nat) =>
                let (g, ranks, prev) := a
                let dummyId := ek.1 ++ "-" ++ ek.2 ++ "-" ++ toString i
                let dummyY := match lv.attrs.y, gl.ranksep with
                  | some vy, some rs => some (vy + ((i : ℚ) + 1) * rs)
                  | _, _ => none
                let rankIndex := match ranks.getRank ek.1 with
                  | some rv => rv + (i : ℚ) + 1
                  | none => 0
                let g := g.setNode dummyId (some (NodeLabel.empty.modAttrs (fun a =>
                  { a with isDummyNode := true, y := dummyY, edgeData := edgeData })))
                let g := g.setEdgeKeep prev dummyId
                (g, ranks.set dummyId rankIndex, dummyId)) (g, ranks, ek.1)
            if steps > 0 then
              let g := folded.1.setEdgeKeep folded.2.2 ek.2
              (g.removeEdgeOv ek.1 ek.2).map (fun g => (g, folded.2.1))
            else some (g, ranks)) (g, ranks)

/-- `handleConjunctNodes` (lines 120-168): replace each conjunct
container by start and end sentinels at its rank, reconnect the children
straight to the conjunct target, and record the ordering constraints. -/
def handleConjunctNodes (g : Graph) (ranks : RankTable) (cg : Graph) :
    Option (Graph × RankTable × Graph) :=
  (filterByLabel g (·.attrs.isConjunctNode)).bind (fun conjunctNodes =>
    conjunctNodes.foldlM (fun (st : Graph × RankTable × Graph) node =>
      let (g, ranks, cg) := st
      match g.node? node with
      | none => none
      | some nodeLabel =>
          let startId := "start-" ++ node
          let endId := "end-" ++ node
          match ranks.getRank node with
          | none => none
          | some rankNumber =>
              let startAttrs : NodeAttrs := { isConjunctDummyNode := true }
              let g := g.setNode startId (some (NodeLabel.mk startAttrs [] []
                (some (node, some nodeLabel)) none none))
              let g := g.setNode endId (some (NodeLabel.empty.modAttrs (fun a =>
                { a with isConjunctDummyNode := true })))
              let ranks := (ranks.set startId rankNumber).set endId rankNumber
              match (g.outEdges node)[0]? with
              | none => none
              | some conjunctEdge =>
                  let conjunctTarget := conjunctEdge.2
                  let conjunctEdgeLabel := g.edge? conjunctEdge.1 conjunctEdge.2
                  let children := g.children node
                  let (g, cg) := children.foldl (fun (p : Graph × Graph) child =>
                    let g := p.1.setEdgeL child conjunctTarget
                      (some { conjunctEdgeLabel.getD {} with isConjunctEdge := true })
                    let cg := (p.2.setEdgeKeep startId child).setEdgeKeep child endId
                    (g, cg)) (g, cg)
                  (if cg.hasNode node then
                    match (cg.successors node)[0]? with
                    | none => none
                    | some relevanceDummySource =>
                        some ((cg.setEdgeKeep endId relevanceDummySource).removeNode node)
                  else some cg).map (fun cg => (g.removeNode node, ranks, cg)))
      (g, ranks, cg))

/-- `handleRelevanceStructures` (lines 178-229): replace each relevance
source by start and end dummies on the two adjacent ranks and record the
column constraints. -/
def handleRelevanceStructures (g : Graph) (ranks : RankTable) (cg : Graph) :
    Option (Graph × RankTable × Graph) :=
  (filterByLabel g (·.attrs.isRelevanceSink)).bind (fun sinks =>
    sinks.foldlM (fun (st : Graph × RankTable × Graph) sink =>
      let (g, ranks, cg) := st
      match (g.predecessors sink)[0]? with
      | none => none
      | some relevanceSource =>
          match g.node? relevanceSource with
          | none => none
          | some sourceLabel =>
              let dummySource := "start " ++ relevanceSource
              let dummySink := "end " ++ relevanceSource
              let parts := sink.splitOn " -> "
              match parts[0]?, parts[1]? with
              | some simpleSource, some simpleSink =>
                  match g.node? simpleSource, g.node? simpleSink with
                  | some ssl, some skl =>
                      match ranks.getRank simpleSource with
                      | none => none
                      | some rankNumber =>
                          let srcAttrs : NodeAttrs :=
                            { isRelevanceDummySource := true, y := ssl.attrs.y,
                              width := sourceLabel.attrs.width }
                          let g := g.setNode dummySource (some (NodeLabel.mk srcAttrs
                            [] [] none none
                            (some ((relevanceSource, some sourceLabel),
                              (sink, g.node? sink)))))
                          let sinkAttrs : NodeAttrs :=
                            { isRelevanceDummySink := true, y := skl.attrs.y,
                              width := sourceLabel.attrs.width }
                          let g := g.setNode dummySink (some (NodeLabel.mk sinkAttrs
                            [] [] none none none))
                          let ranks := (ranks.set dummySource rankNumber).set dummySink
                            (rankNumber + 1)
                          let cg := (cg.setEdgeKeep simpleSource dummySource).setEdgeKeep
                            simpleSink dummySink
                          let g := (g.inEdges relevanceSource).foldl
                            (fun (g : Graph) iek =>
                              g.setEdgeL iek.1 dummySource (g.edge? iek.1 iek.2)) g
                          let g := (g.outEdges relevanceSource).foldl
                            (fun (g : Graph) oek =>
                              if oek.2 == sink then g
                              else g.setEdgeL dummySink oek.2 (g.edge? oek.1 oek.2)) g
                          some (g.removeNode relevanceSource, ranks, cg)
                  | _, _ => none
              | _, _ => none)
      (g, ranks, cg))

/-- `preprocessDataStructures` (lines 61-69). -/
def preprocessDataStructures (g : Graph) (ranks : RankTable) :
    Option (Graph × RankTable × Graph) :=
  (handleRelevanceStructures g ranks Graph.new).bind (fun st =>
    (handleConjunctNodes st.1 st.2.1 st.2.2).bind (fun st =>
      (splitLongEdges st.1 st.2.1).map (fun gr => (gr.1, gr.2, st.2.2))))

/-- `readRankTable` (lines 237-254): the layer matrix, reading integer
ranks upward from `0` until a gap. -/
def readRankTableLoop (ranks : RankTable) : Nat → Nat → List (List NodeId) → List (List NodeId)
  | 0, _, acc => acc
  | fuel + 1, rankNumber, acc =>
      match ranks.getNodes (rankNumber : ℚ) with
      | none => acc
      | some layer => readRankTableLoop ranks fuel (rankNumber + 1) (acc ++ [layer])

/-- `readRankTable` entry point. -/
def readRankTable (ranks : RankTable) : List (List NodeId) :=
  readRankTableLoop ranks (ranks.rankToNodes.length + 2) 0 []

/-- The accumulation-tree ascent of `countCrossings` (lines 333-337). -/
def treeAscend : Nat → List Nat → Nat → Nat → List Nat × Nat
  | 0, tr, _, cc => (tr, cc)
  | fuel + 1, tr, index, cc =>
      if index > 0 then
        let cc := if index % 2 == 1 then cc + tr.getD (index + 1) 0 else cc
        let index := (index - 1) / 2
        let tr := tr.set index (tr.getD index 0 + 1)
        treeAscend fuel tr index cc
      else (tr, cc)

/-- The doubling loop computing the first power of two at or above the
small layer's size (lines 308-310). -/
def firstIndexLoop : Nat → Nat → Nat → Nat
  | 0, fi, _ => fi
  | fuel + 1, fi, len => if fi < len then firstIndexLoop fuel (fi * 2) len else fi

/-- `countCrossings` (lines 292-341): Barth-Mutzel-Juenger bilayer cross
counting by accumulation tree. -/
def countCrossings (g : Graph) (northLayer southLayer : List NodeId) : Nat :=
  let (layer0, layer1) :=
    if northLayer.length ≥ southLayer.length then (northLayer, southLayer)
    else (southLayer, northLayer)
  let fi0 := firstIndexLoop (layer1.length + 2) 1 layer1.length
  let treesize := 2 * fi0 - 1
  let firstindex := fi0 - 1
  let edges := layer0.foldl (fun (acc : List EdgeKey) node0 =>
    layer1.foldl (fun acc node1 =>
      if g.hasEdge node0 node1 || g.hasEdge node1 node0 then acc ++ [(node0, node1)]
      else acc) acc) []
  (edges.foldl (fun (st : List Nat × Nat) e =>
    let headIndex := layer1.indexOf e.2
    let index := headIndex + firstindex
    let tr := st.1.set index (st.1.getD index 0 + 1)
    treeAscend (treesize + 2) tr index st.2) (List.replicate treesize 0, 0)).2

/-- `countTotalCrossings` (lines 263-273). -/
def countTotalCrossings (g : Graph) (matrix : List (List NodeId)) : Nat :=
  (List.range matrix.length).foldl (fun cc i =>
    if i ≥ 1 then
      cc + countCrossings g ((matrix[i-1]?).getD []) ((matrix[i]?).getD [])
    else cc) 0

/-- The Kahn-style scan of `getViolatedConstraint` (lines 539-573):
stack-based topological walk returning the first violated constraint
reachable without completing a cycle. -/
def gvcLoop (layer : List NodeId) (cg : Graph) :
    Nat → List (NodeId × List EdgeKey) → List NodeId → Option (Option EdgeKey)
  | 0, _, _ => none
  | fuel + 1, incoming, stack =>
      match stack.getLast? with
      | none => some none
      | some node =>
          let stack := stack.dropLast
          let inc := (alookup incoming node).getD []
          match inc.find? (fun c => jsIndexOf layer c.1 ≥ jsIndexOf layer node) with
          | some c => some (some c)
          | none =>
              ((cg.outEdges node).foldlM
                (fun (st : List (NodeId × List EdgeKey) × List NodeId) (c : EdgeKey) =>
                  let (incoming, stack) := st
                  match alookup incoming c.2 with
                  | none => none
                  | some lst =>
                      let lst := lst ++ [c]
                      let incoming := incoming.map
                        (fun (p : NodeId × List EdgeKey) =>
                          if p.1 == c.2 then (c.2, lst) else p)
                      let stack :=
                        if lst.length == (cg.inEdges c.2).length then stack ++ [c.2]
                        else stack
                      some (incoming, stack)) (incoming, stack)).bind
                (fun st => gvcLoop layer cg fuel st.1 st.2)

/-- `getViolatedConstraint` (lines 539-573). -/
def getViolatedConstraint (layer : List NodeId) (cg : Graph) : Option (Option EdgeKey) :=
  let constrainedNodes := layer.filter (fun n => !(cg.nodeEdges n).isEmpty)
  let incoming := constrainedNodes.map (fun n => (n, ([] : List EdgeKey)))
  let stack := constrainedNodes.filter (fun n => (cg.inEdges n).isEmpty)
  gvcLoop layer cg ((cg.edgeCount + layer.length + 2) * (cg.edgeCount + layer.length + 2))
    incoming stack

/-- `unpackSubnodes` (lines 583-590). -/
def unpackSubnodes (cg : Graph) : Nat → NodeId → Option (List NodeId)
  | 0, _ => none
  | fuel + 1, node =>
      match cg.node? node with
      | none => none
      | some l =>
          let sub := l.attrs.subnodes
          if sub.length > 1 then
            sub.foldlM (fun acc sn => (unpackSubnodes cg fuel sn).map (acc ++ ·)) []
          else some sub

/-- The constraint-resolution `while` of `sweepLayer` (lines 444-507):
merge the endpoints of each violated constraint into a meta node until
no violation remains.  The barycenters consulted for the sub-node order
are read from the main graph, as the source does. -/
def sweepMergeLoop (g : Graph) (southLayer fixedLayer : List NodeId) (down : Bool) :
    Nat → Graph → List NodeId → Option EdgeKey → Option (Graph × List NodeId)
  | 0, _, _, _ => none
  | fuel + 1, mcg, unconstrained, violated? =>
      match violated? with
      | none => some (mcg, unconstrained)
      | some c =>
          let (v, w) := c
          let vN := if down then g.predecessors v else g.successors v
          let wN := if down then g.predecessors w else g.successors w
          let vSum := vN.foldl (fun (s : Int) nb => s + jsIndexOf fixedLayer nb) 0
          let wSum := wN.foldl (fun (s : Int) nb => s + jsIndexOf fixedLayer nb) 0
          match g.node? v, g.node? w with
          | some vl, some wl =>
              let vB := vl.attrs.barycenter
              let wB := wl.attrs.barycenter
              let metaId := v ++ "-" ++ w
              let metaBary : Option ℚ :=
                if vN.length + wN.length == 0 then none
                else some (((vSum + wSum : Int) : ℚ) / ((vN.length + wN.length : Nat) : ℚ))
              let subnodes := if jsLt vB wB then [v, w] else [w, v]
              let mcg := mcg.setNode metaId (some (NodeLabel.empty.modAttrs (fun a =>
                { a with barycenter := metaBary, subnodes := subnodes })))
              let incomingC := mcg.inEdges v ++ mcg.inEdges w
              let outgoingC := mcg.outEdges v ++ mcg.outEdges w
              (if incomingC.length + outgoingC.length > 0 then
                ((incomingC.foldlM (fun (mcg : Graph) (c : EdgeKey) =>
                    (mcg.removeEdgeOv c.1 c.2).map (fun mcg =>
                      if c.1 != metaId then mcg.setEdgeKeep c.1 metaId else mcg)) mcg).bind
                  (fun mcg =>
                    outgoingC.foldlM (fun (mcg : Graph) (c : EdgeKey) =>
                      (mcg.removeEdgeOv c.1 c.2).map (fun mcg =>
                        if c.2 != metaId then mcg.setEdgeKeep metaId c.2 else mcg)) mcg)).map
                  (fun mcg => (mcg, unconstrained))
              else some (mcg, unconstrained ++ [metaId])).bind
                (fun st =>
                  (getViolatedConstraint southLayer st.1).bind (fun violated? =>
                    sweepMergeLoop g southLayer fixedLayer down fuel st.1 st.2 violated?))
          | _, _ => none

/-- Stable comparison used for the barycenter sort (line 513-517): a
NaN comparator result leaves the pair in place in V8, which a stable
merge sort with a reflexive order reproduces. -/
def baryLe (a b : Option ℚ) : Bool :=
  match a, b with
  | some x, some y => x ≤ y
  | _, _ => true

/-- `sweepLayer` (lines 400-529). -/
def sweepLayer (g cg : Graph) (northLayer southLayer : List NodeId) (down : Bool) :
    Option (List NodeId) :=
  let mcg := buildSimpleGraph cg
  let target := if down then southLayer else northLayer
  let fixed := if down then northLayer else southLayer
  let mcg := target.foldl (fun (mcg : Graph) node =>
    let nbrs := if down then g.predecessors node else g.successors node
    let sum := nbrs.foldl (fun (s : Int) nb => s + jsIndexOf fixed nb) 0
    let bary : Option ℚ :=
      if nbrs.isEmpty then none else some ((sum : ℚ) / (nbrs.length : ℚ))
    appendNodeValues mcg node (fun a =>
      { a with barycenter := bary, subnodes := [node] })) mcg
  let unconstrained := target.filter (fun n => (mcg.nodeEdges n).isEmpty)
  (getViolatedConstraint target mcg).bind (fun violated? =>
    (sweepMergeLoop g southLayer fixed down (cg.nodeCount + cg.edgeCount + target.length + 2)
        mcg unconstrained violated?).bind (fun st =>
      let (mcg, unconstrained) := st
      let constrained := southLayer.filter (fun n => !(mcg.nodeEdges n).isEmpty)
      let sortingList := unconstrained ++ constrained
      (sortingList.mapM (fun n => (mcg.node? n).map (fun l => (n, l.attrs.barycenter)))).bind
        (fun keyed =>
          let sorted := (List.mergeSort keyed (fun a b => baryLe a.2 b.2)).map (·.1)
          (sorted.foldlM (fun acc n =>
              (unpackSubnodes mcg (mcg.nodeCount + 2) n).map (acc ++ ·)) []).map
            (fun sortedLayer =>
              if countCrossings g fixed sortedLayer <
                  countCrossings g northLayer southLayer then sortedLayer
              else target))))

/-- `sortLayers` (lines 353-383): a down sweep followed by an up sweep,
updating the matrix rows in place. -/
def sortLayers (g cg : Graph) (matrix : List (List NodeId)) : Option (List (List NodeId)) :=
  ((List.range matrix.length).foldlM (fun (m : List (List NodeId)) i =>
      if i ≥ 1 then
        (sweepLayer g cg ((m[i-1]?).getD []) ((m[i]?).getD []) true).map
          (fun layer => m.set i layer)
      else some m) matrix).bind (fun m =>
    ((List.range matrix.length).reverse.foldlM (fun (m : List (List NodeId)) i =>
      if i + 1 < m.length then
        (sweepLayer g cg ((m[i]?).getD []) ((m[i+1]?).getD []) false).map
          (fun layer => m.set i layer)
      else some m) m))

/-- The improvement `while` of `minimiseCrossings` (lines 40-48). -/
def crossingsLoop (g cg : Graph) (cap : Option ℚ) :
    Nat → List (List NodeId) → Nat → Nat → Option (List (List NodeId))
  | 0, _, _, _ => none
  | fuel + 1, matrix, crossingCount, loopCount =>
      let capOk := match cap with
        | none => false
        | some c => (loopCount : ℚ) < c
      if !(crossingCount > 0 && capOk) then some matrix
      else
        (sortLayers g cg matrix).bind (fun matrix =>
          let ncc := countTotalCrossings g matrix
          if ncc ≥ crossingCount then some matrix
          else crossingsLoop g cg cap fuel matrix ncc (loopCount + 1))

/-- `minimiseCrossings` (lines 34-51): preprocessing, the layer matrix,
and the capped barycenter iteration.  The cap `maxcrossingloops` has no
default, so an unset cap admits no iteration. -/
def minimiseCrossings (g : Graph) (ranks : RankTable) :
    Option (Graph × RankTable × List (List NodeId)) :=
  (preprocessDataStructures g ranks).bind (fun st =>
    let (g, ranks, cg) := st
    let matrix := readRankTable ranks
    match g.glabel with
    | none => none
    | some gl =>
        (crossingsLoop g cg gl.maxcrossingloops
            (simplexFuel gl.maxcrossingloops) matrix
            (countTotalCrossings g matrix) 0).map (fun matrix => (g, ranks, matrix)))

/-! ## The pipeline driver (`src/lay-out-graph.ts`, lines 29-48) -/

/-- `layOutGraph`: copy the input into a layout graph with defaults, run
the four phases, restore edges, draw the curves, drop the dummy nodes,
and write the results back onto the input graph.  All modelled input
graphs are directed, so the `isDirected` guard never throws here. -/
def layOutGraph (graph : Graph) : Option Graph :=
  let layoutGraph := buildLayoutGraph graph
  (removeCycles layoutGraph).bind (fun rc =>
    let (layoutGraph, originalLoops, originalReversed) := rc
    (layerNodes layoutGraph).bind (fun lr =>
      (minimiseCrossings lr.1 lr.2).bind (fun mc =>
        let (layoutGraph, _ranks, graphMatrix) := mc
        (straightenEdges layoutGraph graphMatrix).bind (fun layoutGraph =>
          (restoreEdges layoutGraph originalLoops originalReversed).bind (fun layoutGraph =>
            (finaliseWarrantPositions layoutGraph).bind (fun layoutGraph =>
              (drawBezierCurves layoutGraph).bind (fun layoutGraph =>
                (removeDummyNodes layoutGraph).bind (fun layoutGraph =>
                  updateInputGraph graph layoutGraph))))))))

end Argumappr

set_option maxRecDepth 100000

namespace Argumappr

/-! ## Concrete example graphs used by the claim theorems -/

/-- Build a graph from node ids (empty labels) and labelled edges with a
given `minlen`, in the given insertion orders, under a given graph
label. -/
def mkExample (gl : GraphLabel) (ns : List NodeId) (es : List (NodeId × NodeId × ℚ)) :
    Graph :=
  let g := { Graph.new with glabel := some gl }
  let g := ns.foldl (fun (g : Graph) v => g.setNode v (some NodeLabel.empty)) g
  es.foldl (fun (g : Graph) e =>
    g.setEdgeL e.1 e.2.1 (some { minlen := some e.2.2, weight := some 1 })) g

/-- The C1 example: a directed graph in which the greedy pass puts
`p`, `m`, `q`, `z` into `nodes0` (in that order) and `t` into `nodes1`,
so the edge `q -> p` is backward in the order `sigma` yet connects two
`nodes0` vertices. -/
def cycleExample : Graph := mkExample {} ["p", "m", "q", "z", "t"]
  [("p", "m", 1), ("p", "z", 1), ("m", "q", 1), ("q", "p", 1), ("q", "z", 1),
   ("z", "t", 1), ("t", "z", 1)]

/-- The C7 example: a two-vertex cycle, as the layout pipeline would see
it after `buildLayoutGraph`. -/
def twoCycleExample : Graph :=
  buildLayoutGraph (mkExample {} ["a", "c"] [("a", "c", 1), ("c", "a", 1)])

/-- The C2 example: a DAG with `minlen`-2 edges `a -> b -> c` plus the
filler structure that steers the balance pass into moving `b`. -/
def minlenExample : Graph := mkExample {} ["a", "b", "c", "d", "f1", "f3"]
  [("a", "b", 2), ("b", "c", 2), ("a", "d", 2), ("a", "f1", 1), ("f1", "f3", 2)]

/-- The C5 example: a two-vertex chain whose caller explicitly configures
`ranksep := 225`, passed through `buildLayoutGraph`. -/
def ranksepExample : Graph :=
  buildLayoutGraph
    (mkExample { ranksep := some 225 } ["a", "b"] [("a", "b", 1)])

/-- The C3 example: the concrete warrant scenario of the specification,
built through the public `setWarrantEdge` API and `buildLayoutGraph`: an
edge `a -> c`, and a warrant on it with source `b`. -/
def warrantExample : Graph :=
  let g := Graph.new
  let g := (g.setNode "a" (some NodeLabel.empty)).setNode "c" (some NodeLabel.empty)
  let g := g.setNode "b" (some NodeLabel.empty)
  let g := g.setEdgeL "a" "c" (some {})
  buildLayoutGraph (g.setWarrantEdge "b" "a" "c")

/-- The C9 example: a graph whose initial feasible tree carries a
negative cut value on the first tree edge of the root, with no
`maxrankingloops` configured. -/
def negCutExample : Graph := mkExample {} ["r", "a", "b", "c"]
  [("a", "r", 1), ("r", "b", 1), ("r", "c", 1)]

/-- The C9 example with an explicit `maxrankingloops := 100`. -/
def negCutExampleCapped : Graph := mkExample { maxrankingloops := some 100 }
  ["r", "a", "b", "c"] [("a", "r", 1), ("r", "b", 1), ("r", "c", 1)]

/-- The C4 example: the caller supplies `width = 50` and `height = 60`. -/
def dimensionExample : Graph :=
  Graph.new.setNode "a" (some (NodeLabel.empty.modAttrs (fun a =>
    { a with width := some 50, height := some 60 })))

/-- A one-node input graph for exercising `updateInputGraph` directly. -/
def plainInputExample : Graph := Graph.new.setNode "a" (some NodeLabel.empty)

/-- A layout-side counterpart of `plainInputExample` with coordinates and
dimensions already assigned. -/
def plainLayoutExample : Graph :=
  Graph.new.setNode "a" (some (NodeLabel.empty.modAttrs (fun a =>
    { a with x := some 7, y := some 9, width := some 11, height := some 13 })))

/-- The graph `updateInputGraph` writes back for the plain pair. -/
def plainUpdateResult : Graph :=
  (updateInputGraph plainInputExample plainLayoutExample).getD Graph.new

/-- The C6 example: two vertices of width `300` on one layer under an
explicitly configured `nodesep := 100`. -/
def separationExample : Graph :=
  let base : Graph := { Graph.new with glabel := some { nodesep := some 100 } }
  (base.setNode "a" (some (NodeLabel.empty.modAttrs (fun a =>
    { a with width := some 300 })))).setNode "b" (some (NodeLabel.empty.modAttrs (fun a =>
    { a with width := some 300 })))

/-- A one-edge graph whose ranks are one apart. -/
def unitGapExample : Graph := mkExample {} ["a", "b"] [("a", "b", 1)]

/-- A literal rank table for `unitGapExample`: `a` at rank `0`, `b` at
rank `1`. -/
def unitGapTable : RankTable := ⟨[("a", 0), ("b", 1)], [(0, ["a"]), (1, ["b"])]⟩

/-- The table the balance pass returns for the unit-gap pair. -/
def unitGapBalanced : RankTable :=
  (balanceLayering unitGapExample unitGapTable).getD RankTable.empty

/-- A one-node graph and a literal rank table placing it at rank `2`. -/
def ySpacingExample : Graph := Graph.new.setNode "a" (some NodeLabel.empty)

/-- The rank table for `ySpacingExample`. -/
def ySpacingTable : RankTable := ⟨[("a", 2)], [(2, ["a"])]⟩

/-- The graph `setYCoordinates` produces for the pair above. -/
def ySpacingResult : Graph :=
  (setYCoordinates ySpacingExample ySpacingTable).getD Graph.new

/-- The property the routing contract states, as a decidable check: every
non-loop edge carries exactly three control points, the first at the
source vertex center and the last at the target vertex center. -/
def bezierPointsOk (g : Graph) : Bool :=
  g.edgeKeys.all (fun ek =>
    ek.1 == ek.2 ||
    match g.edge? ek.1 ek.2, g.node? ek.1, g.node? ek.2 with
    | some l, some lv, some lw =>
        match l.points with
        | some pts =>
            pts.length == 3 && pts[0]? == some (lv.attrs.x, lv.attrs.y) &&
              pts.getLast? == some (lw.attrs.x, lw.attrs.y)
        | none => false
    | _, _, _ => false)

/-- The C8 example: a concrete post-coordinate graph with a long-edge
dummy chain, holding the direct edges `a -> b -> c` and the split form
of `a -> c` through the dummy vertex `d` (flag, stored edge data and
centred coordinates as the crossing phase leaves them). -/
def dummyChainExample : Graph :=
  let la := NodeLabel.empty.modAttrs (fun a => { a with x := some 0, y := some 0 })
  let lb := NodeLabel.empty.modAttrs (fun a => { a with x := some 5, y := some 325 })
  let lc := NodeLabel.empty.modAttrs (fun a => { a with x := some 0, y := some 650 })
  let ld := NodeLabel.empty.modAttrs (fun a =>
    { a with isDummyNode := true, x := some 2, y := some 325, edgeData := some {} })
  let g := (((Graph.new.setNode "a" (some la)).setNode "b" (some lb)).setNode "c"
    (some lc)).setNode "d" (some ld)
  (((g.setEdgeL "a" "b" (some {})).setEdgeL "b" "c" (some {})).setEdgeL "a" "d"
    (some {})).setEdgeL "d" "c" (some {})

/-- The source-vertex label of `routeExample`. -/
def routeLabelA : NodeLabel :=
  NodeLabel.empty.modAttrs (fun a => { a with x := some 1, y := some 2 })

/-- The target-vertex label of `routeExample`. -/
def routeLabelB : NodeLabel :=
  NodeLabel.empty.modAttrs (fun a => { a with x := some 3, y := some 4 })

/-- A two-vertex graph with coordinates already assigned, for running the
routing routine directly. -/
def routeExample : Graph :=
  ((Graph.new.setNode "a" (some routeLabelA)).setNode "b"
    (some routeLabelB)).setEdgeL "a" "b" (some {})

/-- The graph the routing routine returns for `routeExample`. -/
def routeResult : Graph := (drawBezierCurves routeExample).getD Graph.new

/-- The C10 example, built through `mkExample`. -/
def determinismLeft : Graph := mkExample {} ["a", "b"] [("a", "b", 1)]

/-- The same graph as `determinismLeft`, built through a different
sequence of construction calls. -/
def determinismRight : Graph :=
  { ((Graph.new.setNode "a" (some NodeLabel.empty)).setNode "b"
      (some NodeLabel.empty)).setEdgeL "a" "b"
      (some { minlen := some 1, weight := some 1 }) with
    glabel := some {} }

/-- The simplex-loop state returned for an empty graph under cap `100`. -/
def simplexCapOut : Graph × RankTable × Nat :=
  (simplexLoop Graph.new (some ((100 : Nat) : ℚ)) 2 Graph.new RankTable.empty 0 none 0).getD
    (Graph.new, RankTable.empty, 0)

/-- The edge-gap invariant of the layering contract, restricted to the
separations the balance pass actually maintains: along every edge whose
two endpoints are ranked, the head sits at least one rank below the
tail. -/
def minGapOK (g : Graph) (t : RankTable) : Prop :=
  ∀ ek ∈ g.edgeKeys, ∀ a b : ℚ,
    t.getRank ek.1 = some a → t.getRank ek.2 = some b → a + 1 ≤ b

/-- The routing contract as a predicate on a whole graph: every stored
edge label carries a three-point control sequence anchored at the
centers of its two (present) endpoint labels. -/
def edgesAnchored (g : Graph) : Prop :=
  ∀ v w : NodeId, ∀ lab : EdgeLabel, g.edge? v w = some lab →
    ∃ lv lw : NodeLabel, ∃ m : Point, g.node? v = some lv ∧ g.node? w = some lw ∧
      lab.points = some [(lv.attrs.x, lv.attrs.y), m, (lw.attrs.x, lw.attrs.y)]

/-- A strict order witnessing that every edge touching a dummy vertex
points downwards: the shape the long-edge splitter leaves behind (its
dummies sit on the strictly increasing ranks between the endpoints). -/
def dummyOrder (rho : NodeId → ℚ) (g : Graph) : Prop :=
  ∀ ek ∈ g.edgeKeys,
    (((g.node? ek.1).map (·.attrs.isDummyNode)).getD false = true ∨
     ((g.node? ek.2).map (·.attrs.isDummyNode)).getD false = true) →
    rho ek.1 < rho ek.2

/-! ## Fold, lookup and table lemmas shared by the claim theorems -/

/-- An invariant carried through a monadic fold over `Option`. -/
theorem foldlM_opt_inv {α β : Type} (f : β → α → Option β) (P : β → Prop) :
    ∀ (l : List α) (b : β), P b →
      (∀ (b' : β) (a : α), a ∈ l → P b' → ∀ b'', f b' a = some b'' → P b'') →
      ∀ res, l.foldlM f b = some res → P res := by
  intro l
  induction l with
  | nil =>
      intro b hb _ res hres
      simp only [List.foldlM_nil] at hres
      cases hres
      exact hb
  | cons a l ih =>
      intro b hb hstep res hres
      rw [List.foldlM_cons] at hres
      cases hfa : f b a with
      | none => rw [hfa] at hres; simp at hres
      | some b1 =>
          rw [hfa] at hres
          simp only [Option.bind_eq_bind, Option.some_bind] at hres
          exact ih b1 (hstep b a (List.mem_cons_self a l) hb b1 hfa)
            (fun b' a' ha' => hstep b' a' (List.mem_cons_of_mem a ha')) res hres

/-- A property established at one loop element and preserved afterwards,
under a side invariant `Q` that holds from the start. -/
theorem foldlM_opt_establish {α β : Type} (f : β → α → Option β) (Q P : β → Prop) (a0 : α) :
    ∀ (l : List α) (b : β), a0 ∈ l → Q b →
      (∀ (b' : β) (a : α), a ∈ l → Q b' → ∀ b'', f b' a = some b'' → Q b'') →
      (∀ b', Q b' → ∀ b'', f b' a0 = some b'' → P b'') →
      (∀ (b' : β) (a : α), a ∈ l → Q b' → P b' → ∀ b'', f b' a = some b'' → P b'') →
      ∀ res, l.foldlM f b = some res → P res := by
  intro l
  induction l with
  | nil => intro b h0; cases h0
  | cons a l ih =>
      intro b h0 hQ hQstep hest hPstep res hres
      rw [List.foldlM_cons] at hres
      cases hfa : f b a with
      | none => rw [hfa] at hres; simp at hres
      | some b1 =>
          rw [hfa] at hres
          simp only [Option.bind_eq_bind, Option.some_bind] at hres
          have hQ1 : Q b1 := hQstep b a (List.mem_cons_self a l) hQ b1 hfa
          rcases List.mem_cons.mp h0 with h0a | h0l
          · have hP1 : P b1 := hest b hQ b1 (by rw [← h0a] at hfa; exact hfa)
            have := foldlM_opt_inv f (fun x => Q x ∧ P x) l b1 ⟨hQ1, hP1⟩
              (fun b' a' ha' hqp b'' hb'' =>
                ⟨hQstep b' a' (List.mem_cons_of_mem a ha') hqp.1 b'' hb'',
                 hPstep b' a' (List.mem_cons_of_mem a ha') hqp.1 hqp.2 b'' hb''⟩)
              res hres
            exact this.2
          · exact ih b1 h0l hQ1
              (fun b' a' ha' => hQstep b' a' (List.mem_cons_of_mem a ha'))
              hest
              (fun b' a' ha' => hPstep b' a' (List.mem_cons_of_mem a ha'))
              res hres

/-- Association lookup over an appended list. -/
theorem alookup_append {α : Type} (l1 l2 : List (NodeId × α)) (k : NodeId) :
    alookup (l1 ++ l2) k = (alookup l1 k).or (alookup l2 k) := by
  unfold alookup
  rw [List.find?_append]
  cases List.find? (fun p => p.1 == k) l1 <;> simp [Option.or]

/-- Lookup skips a leading pair under a different key. -/
theorem alookup_cons_ne {α : Type} (p : NodeId × α) (l : List (NodeId × α)) (u : NodeId)
    (h : (p.1 == u) = false) : alookup (p :: l) u = alookup l u := by
  unfold alookup
  rw [List.find?_cons]
  exact h ▸ rfl

/-- Lookup stops at a leading pair under the same key. -/
theorem alookup_cons_self {α : Type} (p : NodeId × α) (l : List (NodeId × α)) (u : NodeId)
    (h : (p.1 == u) = true) : alookup (p :: l) u = some p.2 := by
  unfold alookup
  rw [List.find?_cons]
  exact h ▸ rfl

/-- Filtering out another key leaves a lookup unchanged. -/
theorem alookup_filter_ne {α : Type} (l : List (NodeId × α)) (v u : NodeId) (h : u ≠ v) :
    alookup (l.filter (fun p => p.1 != v)) u = alookup l u := by
  induction l with
  | nil => rfl
  | cons p l ih =>
      rw [List.filter_cons]
      by_cases hp : p.1 = v
      · have hf : ((p.1 != v) = true) = False := by simp [hp]
        rw [if_neg (hf ▸ id)]
        have hpu : (p.1 == u) = false := by
          refine beq_eq_false_iff_ne.mpr ?_
          rw [hp]
          exact fun e => h e.symm
        rw [ih, alookup_cons_ne p l u hpu]
      · have hf : (p.1 != v) = true := by simp [hp]
        rw [if_pos hf]
        cases hq : (p.1 == u) with
        | true => rw [alookup_cons_self p _ u hq, alookup_cons_self p l u hq]
        | false => rw [alookup_cons_ne p _ u hq, alookup_cons_ne p l u hq, ih]

/-- Filtering out a key removes it from lookups. -/
theorem alookup_filter_self {α : Type} (l : List (NodeId × α)) (v : NodeId) :
    alookup (l.filter (fun p => p.1 != v)) v = none := by
  induction l with
  | nil => rfl
  | cons p l ih =>
      rw [List.filter_cons]
      by_cases hp : p.1 = v
      · have hf : ((p.1 != v) = true) = False := by simp [hp]
        rw [if_neg (hf ▸ id)]
        exact ih
      · have hf : (p.1 != v) = true := by simp [hp]
        rw [if_pos hf]
        have hpe : (p.1 == v) = false := beq_eq_false_iff_ne.mpr hp
        rw [alookup_cons_ne p _ v hpe]
        exact ih

/-- Lookup in a singleton association list. -/
theorem alookup_single {α : Type} (v : NodeId) (x : α) (u : NodeId) :
    alookup [(v, x)] u = if u = v then some x else none := by
  by_cases h : u = v
  · rw [if_pos h, alookup_cons_self (v, x) [] u (by rw [h]; exact beq_self_eq_true v)]
  · rw [if_neg h,
      alookup_cons_ne (v, x) [] u (beq_eq_false_iff_ne.mpr (fun e => h (e.symm)))]
    rfl

/-- An in-place label update under a fixed key leaves other lookups
unchanged. -/
theorem alookup_map_ite_ne {α : Type} (l : List (NodeId × α)) (w : NodeId) (m : α → α)
    (v : NodeId) (h : v ≠ w) :
    alookup (l.map (fun p => if p.1 == w then (p.1, m p.2) else p)) v = alookup l v := by
  induction l with
  | nil => rfl
  | cons p l ih =>
      rw [List.map_cons]
      by_cases hp : p.1 = w
      · have hb : ((p.1 == w) = true) := beq_iff_eq.mpr hp
        rw [if_pos hb]
        have hpu : (p.1 == v) = false := by
          refine beq_eq_false_iff_ne.mpr ?_
          rw [hp]
          exact fun e => h e.symm
        rw [alookup_cons_ne (p.1, m p.2) _ v hpu, ih, alookup_cons_ne p l v hpu]
      · have hb : ((p.1 == w) = true) = False := by simp [hp]
        rw [if_neg (hb ▸ id)]
        cases hq : (p.1 == v) with
        | true => rw [alookup_cons_self p _ v hq, alookup_cons_self p l v hq]
        | false => rw [alookup_cons_ne p _ v hq, alookup_cons_ne p l v hq, ih]

/-- An in-place label update under a fixed key maps that key's lookup. -/
theorem alookup_map_ite_self {α : Type} (l : List (NodeId × α)) (w : NodeId) (m : α → α) :
    alookup (l.map (fun p => if p.1 == w then (p.1, m p.2) else p)) w =
      (alookup l w).map m := by
  induction l with
  | nil => rfl
  | cons p l ih =>
      rw [List.map_cons]
      by_cases hp : p.1 = w
      · have hb : ((p.1 == w) = true) := beq_iff_eq.mpr hp
        rw [if_pos hb]
        rw [alookup_cons_self (p.1, m p.2) _ w (by exact hb), alookup_cons_self p l w hb]
        rfl
      · have hb : ((p.1 == w) = true) = False := by simp [hp]
        rw [if_neg (hb ▸ id)]
        have hq : (p.1 == w) = false := beq_eq_false_iff_ne.mpr hp
        rw [alookup_cons_ne p _ w hq, alookup_cons_ne p l w hq, ih]

/-- `modNode` under another key leaves a node lookup unchanged. -/
theorem node?_modNode_ne (g : Graph) (w : NodeId) (f : NodeLabel → NodeLabel)
    (v : NodeId) (h : v ≠ w) :
    (g.modNode w f).node? v = g.node? v := by
  unfold Graph.node? Graph.modNode
  rw [alookup_map_ite_ne g.nodes w (Option.map f) v h]

/-- `modNode` maps the touched node's label. -/
theorem node?_modNode_self (g : Graph) (v : NodeId) (f : NodeLabel → NodeLabel) :
    (g.modNode v f).node? v = (g.node? v).map f := by
  unfold Graph.node? Graph.modNode
  rw [alookup_map_ite_self g.nodes v (Option.map f)]
  cases alookup g.nodes v with
  | none => rfl
  | some o => cases o <;> rfl

/-- `modNode` never creates or deletes a node. -/
theorem isSome_node?_modNode (g : Graph) (w : NodeId) (f : NodeLabel → NodeLabel)
    (v : NodeId) :
    ((g.modNode w f).node? v).isSome = (g.node? v).isSome := by
  by_cases h : v = w
  · subst h; rw [node?_modNode_self]; cases g.node? v <;> rfl
  · rw [node?_modNode_ne g w f v h]

/-- A present node label means the node exists. -/
theorem hasNode_of_node?_some (g : Graph) (v : NodeId) (l : NodeLabel)
    (h : g.node? v = some l) : g.hasNode v = true := by
  unfold Graph.node? alookup at h
  cases hf : List.find? (fun p => p.1 == v) g.nodes with
  | none => rw [hf] at h; cases h
  | some p =>
      unfold Graph.hasNode
      rw [List.any_eq_true]
      exact ⟨p, @List.mem_of_find?_eq_some _ (fun p => p.1 == v) p g.nodes hf,
        @List.find?_some _ (fun p => p.1 == v) p g.nodes hf⟩

/-- `setEdgeL` between existing nodes leaves the node list unchanged. -/
theorem nodes_setEdgeL (g : Graph) (v w : NodeId) (l : Option EdgeLabel)
    (hv : g.hasNode v = true) (hw : g.hasNode w = true) :
    (g.setEdgeL v w l).nodes = g.nodes := by
  unfold Graph.setEdgeL Graph.setNodeKeep
  rw [if_pos hv, if_pos hw]
  by_cases he : g.hasEdge v w = true
  · rw [if_pos he]
  · rw [if_neg he]

/-- An edge find stops at a leading pair matching the endpoint keys. -/
theorem edgeFind_cons_pos (q : EdgeKey × Option EdgeLabel) (l : List (EdgeKey × Option EdgeLabel))
    (v w : NodeId) (h : (q.1.1 == v && q.1.2 == w) = true) :
    List.find? (fun p => p.1.1 == v && p.1.2 == w) (q :: l) = some q :=
  List.find?_cons_of_pos l h

/-- An edge find skips a leading pair missing the endpoint keys. -/
theorem edgeFind_cons_neg (q : EdgeKey × Option EdgeLabel) (l : List (EdgeKey × Option EdgeLabel))
    (v w : NodeId) (h : ¬((q.1.1 == v && q.1.2 == w) = true)) :
    List.find? (fun p => p.1.1 == v && p.1.2 == w) (q :: l) =
      List.find? (fun p => p.1.1 == v && p.1.2 == w) l :=
  List.find?_cons_of_neg l h

/-- An edge-list find over labels rewritten in place under a fixed key. -/
theorem edgeFind_map_ite_self (l : List (EdgeKey × Option EdgeLabel)) (v w : NodeId)
    (x : Option EdgeLabel) :
    List.find? (fun p => p.1.1 == v && p.1.2 == w)
        (l.map (fun p => if p.1.1 == v && p.1.2 == w then (p.1, x) else p)) =
      (List.find? (fun p => p.1.1 == v && p.1.2 == w) l).map (fun p => (p.1, x)) := by
  induction l with
  | nil => rfl
  | cons p l ih =>
      rw [List.map_cons]
      by_cases hp : (p.1.1 == v && p.1.2 == w) = true
      · rw [if_pos hp, edgeFind_cons_pos (p.1, x) _ v w hp, edgeFind_cons_pos p l v w hp]
        rfl
      · rw [if_neg hp, edgeFind_cons_neg p _ v w hp, edgeFind_cons_neg p l v w hp]
        exact ih

/-- The same rewrite mapped with a label function instead of a constant. -/
theorem edgeFind_map_mod_self (l : List (EdgeKey × Option EdgeLabel)) (v w : NodeId)
    (f : EdgeLabel → EdgeLabel) :
    List.find? (fun p => p.1.1 == v && p.1.2 == w)
        (l.map (fun p => if p.1.1 == v && p.1.2 == w then (p.1, p.2.map f) else p)) =
      (List.find? (fun p => p.1.1 == v && p.1.2 == w) l).map (fun p => (p.1, p.2.map f)) := by
  induction l with
  | nil => rfl
  | cons p l ih =>
      rw [List.map_cons]
      by_cases hp : (p.1.1 == v && p.1.2 == w) = true
      · rw [if_pos hp, edgeFind_cons_pos (p.1, p.2.map f) _ v w hp,
          edgeFind_cons_pos p l v w hp]
        rfl
      · rw [if_neg hp, edgeFind_cons_neg p _ v w hp, edgeFind_cons_neg p l v w hp]
        exact ih

/-- Keys matching one endpoint pair never match a different pair. -/
theorem edgeKey_pred_disjoint (p : EdgeKey × Option EdgeLabel) (v w v' w' : NodeId)
    (h : ¬(v' = v ∧ w' = w)) (h' : (p.1.1 == v' && p.1.2 == w') = true) :
    (p.1.1 == v && p.1.2 == w) = false := by
  rw [Bool.and_eq_true] at h'
  rcases h' with ⟨h1, h2⟩
  have e1 : p.1.1 = v' := beq_iff_eq.mp h1
  have e2 : p.1.2 = w' := beq_iff_eq.mp h2
  cases hb : (p.1.1 == v && p.1.2 == w) with
  | false => rfl
  | true =>
      rw [Bool.and_eq_true] at hb
      rcases hb with ⟨hb1, hb2⟩
      exact absurd (⟨e1 ▸ beq_iff_eq.mp hb1, e2 ▸ beq_iff_eq.mp hb2⟩ : v' = v ∧ w' = w) h

/-- A find for one endpoint pair ignores in-place rewrites under another. -/
theorem edgeFind_map_ite_ne (l : List (EdgeKey × Option EdgeLabel)) (v w : NodeId)
    (m : Option EdgeLabel → Option EdgeLabel) (v' w' : NodeId) (h : ¬(v' = v ∧ w' = w)) :
    List.find? (fun p => p.1.1 == v' && p.1.2 == w')
        (l.map (fun p => if p.1.1 == v && p.1.2 == w then (p.1, m p.2) else p)) =
      List.find? (fun p => p.1.1 == v' && p.1.2 == w') l := by
  induction l with
  | nil => rfl
  | cons p l ih =>
      rw [List.map_cons]
      by_cases hp : (p.1.1 == v && p.1.2 == w) = true
      · rw [if_pos hp]
        have hq : ¬((p.1.1 == v' && p.1.2 == w') = true) := by
          intro hq'
          rw [edgeKey_pred_disjoint p v w v' w' h hq'] at hp
          cases hp
        rw [edgeFind_cons_neg (p.1, m p.2) _ v' w' hq, edgeFind_cons_neg p l v' w' hq]
        exact ih
      · rw [if_neg hp]
        by_cases hq : (p.1.1 == v' && p.1.2 == w') = true
        · rw [edgeFind_cons_pos p _ v' w' hq, edgeFind_cons_pos p l v' w' hq]
        · rw [edgeFind_cons_neg p _ v' w' hq, edgeFind_cons_neg p l v' w' hq]
          exact ih

/-- `modEdge` maps the touched edge's label. -/
theorem edge?_modEdge_self (g : Graph) (v w : NodeId) (f : EdgeLabel → EdgeLabel) :
    (g.modEdge v w f).edge? v w = (g.edge? v w).map f := by
  unfold Graph.edge? Graph.modEdge
  rw [edgeFind_map_mod_self g.edges v w f]
  cases List.find? (fun p => p.1.1 == v && p.1.2 == w) g.edges with
  | none => rfl
  | some p => cases hp : p.2 <;> rfl

/-- `modEdge` under another key pair leaves an edge lookup unchanged. -/
theorem edge?_modEdge_ne (g : Graph) (v w : NodeId) (f : EdgeLabel → EdgeLabel)
    (v' w' : NodeId) (h : ¬(v' = v ∧ w' = w)) :
    (g.modEdge v w f).edge? v' w' = g.edge? v' w' := by
  unfold Graph.edge? Graph.modEdge
  rw [edgeFind_map_ite_ne g.edges v w (fun o => o.map f) v' w' h]

/-- An edge's presence is the success of the endpoint-pair find. -/
theorem find?_isSome_of_hasEdge (g : Graph) (v w : NodeId) (h : g.hasEdge v w = true) :
    (List.find? (fun p => p.1.1 == v && p.1.2 == w) g.edges).isSome = true := by
  unfold Graph.hasEdge at h
  rw [List.any_eq_true] at h
  rcases h with ⟨p, hmem, hp⟩
  rw [List.find?_isSome]
  exact ⟨p, hmem, hp⟩

/-- An absent edge means the endpoint-pair find fails. -/
theorem find?_eq_none_of_not_hasEdge (g : Graph) (v w : NodeId) (h : g.hasEdge v w = false) :
    List.find? (fun p => p.1.1 == v && p.1.2 == w) g.edges = none := by
  rw [List.find?_eq_none]
  intro p hmem hp
  unfold Graph.hasEdge at h
  have : g.edges.any (fun p => p.1.1 == v && p.1.2 == w) = true :=
    List.any_eq_true.mpr ⟨p, hmem, hp⟩
  rw [h] at this
  cases this

/-- `setEdgeL` stores exactly the supplied label under its key pair. -/
theorem edge?_setEdgeL_self (g : Graph) (v w : NodeId) (l : Option EdgeLabel) :
    (g.setEdgeL v w l).edge? v w = l := by
  unfold Graph.setEdgeL
  have hkey : ((((v, w) : EdgeKey), l).1.1 == v && (((v, w) : EdgeKey), l).1.2 == w) = true := by
    simp
  by_cases he : ((g.setNodeKeep v).setNodeKeep w).hasEdge v w = true
  · rw [if_pos he]
    unfold Graph.edge?
    rw [edgeFind_map_ite_self]
    cases hf : List.find? (fun p => p.1.1 == v && p.1.2 == w)
        ((g.setNodeKeep v).setNodeKeep w).edges with
    | none =>
        have := find?_isSome_of_hasEdge _ v w he
        rw [hf] at this
        cases this
    | some p => cases l <;> rfl
  · rw [if_neg he]
    unfold Graph.edge?
    rw [List.find?_append,
      find?_eq_none_of_not_hasEdge _ v w (Bool.eq_false_iff.mpr he)]
    simp [List.find?_cons, hkey, Option.or]

/-- `setEdgeL` under another key pair leaves an edge lookup unchanged. -/
theorem edge?_setEdgeL_ne (g : Graph) (v w : NodeId) (l : Option EdgeLabel)
    (v' w' : NodeId) (h : ¬(v' = v ∧ w' = w)) :
    (g.setEdgeL v w l).edge? v' w' = g.edge? v' w' := by
  have hbase : ∀ g0 : Graph, g0.edges = g.edges → Graph.edge? g0 v' w' = g.edge? v' w' := by
    intro g0 hg0; unfold Graph.edge?; rw [hg0]
  unfold Graph.setEdgeL
  have hedges : ((g.setNodeKeep v).setNodeKeep w).edges = g.edges := by
    unfold Graph.setNodeKeep
    by_cases h1 : g.hasNode v = true
    · rw [if_pos h1]
      by_cases h2 : g.hasNode w = true
      · rw [if_pos h2]
      · rw [if_neg h2]
    · rw [if_neg h1]
      by_cases h2 : ({ g with nodes := g.nodes ++ [(v, if g.defaultEmptyNode then some .empty else none)] } : Graph).hasNode w = true
      · rw [if_pos h2]
      · rw [if_neg h2]
  by_cases he : ((g.setNodeKeep v).setNodeKeep w).hasEdge v w = true
  · rw [if_pos he]
    unfold Graph.edge?
    rw [edgeFind_map_ite_ne _ v w (fun _ => l) v' w' h, hedges]
  · rw [if_neg he]
    unfold Graph.edge?
    rw [List.find?_append, hedges]
    have hkey : ((((v, w) : EdgeKey), l).1.1 == v' && (((v, w) : EdgeKey), l).1.2 == w') = false := by
      cases hq : ((((v, w) : EdgeKey), l).1.1 == v' && (((v, w) : EdgeKey), l).1.2 == w') with
      | false => rfl
      | true =>
          rw [Bool.and_eq_true] at hq
          rcases hq with ⟨h1, h2⟩
          exact absurd (⟨(beq_iff_eq.mp h1).symm, (beq_iff_eq.mp h2).symm⟩ : v' = v ∧ w' = w) h
    simp [List.find?_cons, hkey]

/-- Two graphs with the same node list agree on every node lookup. -/
theorem node?_congr_nodes (g1 g2 : Graph) (h : g1.nodes = g2.nodes) (v : NodeId) :
    g1.node? v = g2.node? v := by
  unfold Graph.node?
  rw [h]

/-- `RankTable.set` updates exactly the touched node's rank. -/
theorem getRank_set (t : RankTable) (v : NodeId) (r : ℚ) (u : NodeId) :
    (t.set v r).getRank u = if u = v then some r else t.getRank u := by
  unfold RankTable.set
  by_cases h0 : t.getRank v = some r
  · have hbeq : (t.getRank v == some r) = true := by simp [h0]
    rw [if_pos hbeq]
    by_cases huv : u = v
    · subst huv; rw [if_pos rfl, h0]
    · rw [if_neg huv]
  · have hbeq : (t.getRank v == some r) = false := by
      cases hq : (t.getRank v == some r) with
      | false => rfl
      | true => exact absurd (beq_iff_eq.mp hq) h0
    rw [if_neg (by simp [hbeq])]
    cases hold : t.getRank v with
    | none =>
        show RankTable.getRank ⟨t.nodeToRank ++ [(v, r)], _⟩ u = _
        unfold RankTable.getRank at hold ⊢
        rw [alookup_append]
        by_cases huv : u = v
        · subst huv
          rw [hold, alookup_single]
          simp
        · rw [alookup_single, if_neg huv, if_neg huv]
          cases alookup t.nodeToRank u <;> simp [Option.or]
    | some old =>
        show RankTable.getRank ⟨t.nodeToRank.filter (fun p => p.1 != v) ++ [(v, r)], _⟩ u = _
        unfold RankTable.getRank
        rw [alookup_append]
        by_cases huv : u = v
        · subst huv
          rw [alookup_filter_self, alookup_single]
          simp
        · rw [alookup_filter_ne t.nodeToRank v u huv, alookup_single, if_neg huv, if_neg huv]
          cases alookup t.nodeToRank u <;> simp [Option.or]

/-- Re-assigning a node its current rank is a no-op. -/
theorem set_rank_no_op (t : RankTable) (v : NodeId) (r : ℚ) (h : t.getRank v = some r) :
    t.set v r = t := by
  unfold RankTable.set
  rw [if_pos (by simp [h])]

/-- The tail of every edge is a predecessor of its head. -/
theorem mem_predecessors_of_edgeKey (g : Graph) (ek : EdgeKey) (h : ek ∈ g.edgeKeys) :
    ek.1 ∈ g.predecessors ek.2 := by
  unfold Graph.edgeKeys at h
  rcases List.mem_map.mp h with ⟨p, hp, hpe⟩
  unfold Graph.predecessors Graph.inEdges
  refine List.mem_map.mpr ⟨ek, List.mem_map.mpr ⟨p, ?_, hpe⟩, rfl⟩
  exact List.mem_filter.mpr ⟨hp, by rw [hpe]; simp⟩

/-- The head of every edge is a successor of its tail. -/
theorem mem_successors_of_edgeKey (g : Graph) (ek : EdgeKey) (h : ek ∈ g.edgeKeys) :
    ek.2 ∈ g.successors ek.1 := by
  unfold Graph.edgeKeys at h
  rcases List.mem_map.mp h with ⟨p, hp, hpe⟩
  unfold Graph.successors Graph.outEdges
  refine List.mem_map.mpr ⟨ek, List.mem_map.mpr ⟨p, ?_, hpe⟩, rfl⟩
  exact List.mem_filter.mpr ⟨hp, by rw [hpe]; simp⟩

/-- Every element a successful `mapM` maps lands in the result. -/
theorem mapM_opt_mem {α β : Type} (f : α → Option β) :
    ∀ (l : List α) (rs : List β), l.mapM f = some rs →
      ∀ x ∈ l, ∃ y, f x = some y ∧ y ∈ rs := by
  intro l
  induction l with
  | nil => intro rs _ x hx; cases hx
  | cons a l ih =>
      intro rs h x hx
      rw [List.mapM_cons] at h
      cases hfa : f a with
      | none => rw [hfa] at h; simp at h
      | some y =>
          rw [hfa] at h
          cases hml : l.mapM f with
          | none => rw [hml] at h; simp at h
          | some ys =>
              rw [hml] at h
              simp only [Option.bind_eq_bind, Option.some_bind, Option.pure_def,
                Option.some.injEq] at h
              rcases List.mem_cons.mp hx with hxa | hxl
              · exact ⟨y, hxa ▸ hfa, h ▸ List.mem_cons_self y ys⟩
              · rcases ih ys hml x hxl with ⟨y', hy', hmem⟩
                exact ⟨y', hy', h ▸ List.mem_cons_of_mem y hmem⟩

/-- A `mapM` that returns the empty list consumed the empty list. -/
theorem mapM_opt_eq_nil {α β : Type} (f : α → Option β) (l : List α)
    (h : l.mapM f = some []) : l = [] := by
  cases l with
  | nil => rfl
  | cons a l =>
      rw [List.mapM_cons] at h
      cases hfa : f a with
      | none => rw [hfa] at h; simp at h
      | some y =>
          rw [hfa] at h
          cases hml : l.mapM f with
          | none => rw [hml] at h; simp at h
          | some ys => rw [hml] at h; simp at h

/-- A max fold that starts from a present accumulator stays present. -/
theorem foldl_maxAcc_some : ∀ (l : List ℚ) (a : ℚ), ∃ m, l.foldl maxAcc (some a) = some m := by
  intro l
  induction l with
  | nil => intro a; exact ⟨a, rfl⟩
  | cons r l ih => intro a; exact ih (max a r)

/-- A min fold that starts from a present accumulator stays present. -/
theorem foldl_minAcc_some : ∀ (l : List ℚ) (a : ℚ), ∃ m, l.foldl minAcc (some a) = some m := by
  intro l
  induction l with
  | nil => intro a; exact ⟨a, rfl⟩
  | cons r l ih => intro a; exact ih (min a r)

/-- The max fold bounds its accumulator and every list element. -/
theorem foldl_maxAcc_le : ∀ (l : List ℚ) (acc : Option ℚ) (m : ℚ),
    l.foldl maxAcc acc = some m →
    (∀ a, acc = some a → a ≤ m) ∧ (∀ y ∈ l, y ≤ m) := by
  intro l
  induction l with
  | nil =>
      intro acc m h
      refine ⟨fun a ha => ?_, fun y hy => absurd hy (List.not_mem_nil y)⟩
      rw [ha] at h
      cases h
      rfl
  | cons r l ih =>
      intro acc m h
      rw [List.foldl_cons] at h
      obtain ⟨hacc, hmem⟩ := ih (maxAcc acc r) m h
      cases acc with
      | none =>
          have hvm : r ≤ m := hacc r rfl
          refine ⟨fun a ha => Option.noConfusion ha, fun y hy => ?_⟩
          rcases List.mem_cons.mp hy with hyr | hyl
          · exact hyr ▸ hvm
          · exact hmem y hyl
      | some a0 =>
          have hvm : max a0 r ≤ m := hacc (max a0 r) rfl
          refine ⟨fun a ha => ?_, fun y hy => ?_⟩
          · injection ha with ha'
            exact ha' ▸ le_trans (le_max_left a0 r) hvm
          · rcases List.mem_cons.mp hy with hyr | hyl
            · exact hyr ▸ le_trans (le_max_right a0 r) hvm
            · exact hmem y hyl

/-- The min fold bounds its accumulator and every list element below. -/
theorem foldl_minAcc_le : ∀ (l : List ℚ) (acc : Option ℚ) (m : ℚ),
    l.foldl minAcc acc = some m →
    (∀ a, acc = some a → m ≤ a) ∧ (∀ y ∈ l, m ≤ y) := by
  intro l
  induction l with
  | nil =>
      intro acc m h
      refine ⟨fun a ha => ?_, fun y hy => absurd hy (List.not_mem_nil y)⟩
      rw [ha] at h
      cases h
      rfl
  | cons r l ih =>
      intro acc m h
      rw [List.foldl_cons] at h
      obtain ⟨hacc, hmem⟩ := ih (minAcc acc r) m h
      cases acc with
      | none =>
          have hvm : m ≤ r := hacc r rfl
          refine ⟨fun a ha => Option.noConfusion ha, fun y hy => ?_⟩
          rcases List.mem_cons.mp hy with hyr | hyl
          · exact hyr ▸ hvm
          · exact hmem y hyl
      | some a0 =>
          have hvm : m ≤ min a0 r := hacc (min a0 r) rfl
          refine ⟨fun a ha => ?_, fun y hy => ?_⟩
          · injection ha with ha'
            exact ha' ▸ le_trans hvm (min_le_left a0 r)
          · rcases List.mem_cons.mp hy with hyr | hyl
            · exact hyr ▸ le_trans hvm (min_le_right a0 r)
            · exact hmem y hyl

/-- A max fold that ends `undefined` consumed the empty list from an
`undefined` accumulator. -/
theorem foldl_maxAcc_none (l : List ℚ) (acc : Option ℚ)
    (h : l.foldl maxAcc acc = none) : l = [] ∧ acc = none := by
  cases l with
  | nil => exact ⟨rfl, h⟩
  | cons r l =>
      rw [List.foldl_cons] at h
      have : ∃ m, l.foldl maxAcc (maxAcc acc r) = some m := by
        cases acc with
        | none => exact foldl_maxAcc_some l r
        | some a => exact foldl_maxAcc_some l (max a r)
      rcases this with ⟨m, hm⟩
      rw [hm] at h
      cases h

/-- A min fold that ends `undefined` consumed the empty list from an
`undefined` accumulator. -/
theorem foldl_minAcc_none (l : List ℚ) (acc : Option ℚ)
    (h : l.foldl minAcc acc = none) : l = [] ∧ acc = none := by
  cases l with
  | nil => exact ⟨rfl, h⟩
  | cons r l =>
      rw [List.foldl_cons] at h
      have : ∃ m, l.foldl minAcc (minAcc acc r) = some m := by
        cases acc with
        | none => exact foldl_minAcc_some l r
        | some a => exact foldl_minAcc_some l (min a r)
      rcases this with ⟨m, hm⟩
      rw [hm] at h
      cases h

/-- Where a successful run of the viable-rank fold of `balanceOne` can
leave its accumulator: untouched, or at one of the candidate ranks
`firstViable + k` with `k` below the step count. -/
theorem balanceOne_fold_shape (ranks : RankTable) (fv : ℚ) (steps : ℕ) (nodeRank : ℚ)
    (len : ℕ) (best : ℚ × ℕ)
    (h : (List.range steps).foldlM (fun (best : ℚ × ℕ) (k : ℕ) =>
        match ranks.getNodes (fv + (k : ℚ)) with
        | none => none
        | some s => some (if s.length < best.2 then (fv + (k : ℚ), s.length) else best))
      (nodeRank, len) = some best) :
    best.1 = nodeRank ∨ ∃ k : ℕ, k < steps ∧ best.1 = fv + (k : ℚ) := by
  refine foldlM_opt_inv _
    (fun (b : ℚ × ℕ) => b.1 = nodeRank ∨ ∃ k : ℕ, k < steps ∧ b.1 = fv + (k : ℚ))
    (List.range steps) (nodeRank, len) (Or.inl rfl) ?_ best h
  intro b k hk hb b' hb'
  cases hg : ranks.getNodes (fv + (k : ℚ)) with
  | none => rw [hg] at hb'; cases hb'
  | some s =>
      rw [hg] at hb'
      injection hb' with hb''
      by_cases hlen : s.length < b.2
      · rw [if_pos hlen] at hb''
        exact hb'' ▸ Or.inr ⟨k, List.mem_range.mp hk, rfl⟩
      · rw [if_neg hlen] at hb''
        exact hb'' ▸ hb

/-- What `balanceOne` can do: leave the table alone, or move its node to
a rank strictly above every ranked predecessor and strictly below every
ranked successor (by at least one). -/
theorem balanceOne_moves (g : Graph) (ranks : RankTable) (node : NodeId) (t' : RankTable)
    (h : balanceOne g ranks node = some t') :
    t' = ranks ∨
    ∃ r nr : ℚ, t' = ranks.set node r ∧ ranks.getRank node = some nr ∧
      (∀ p ∈ g.predecessors node, ∀ a : ℚ, ranks.getRank p = some a → a + 1 ≤ r) ∧
      (∀ c ∈ g.successors node, ∀ b : ℚ, ranks.getRank c = some b → r + 1 ≤ b) := by
  unfold balanceOne at h
  split at h
  · exact Or.inl (Option.some.inj h).symm
  · split at h
    · rename_i parentRanks childRanks hpan hcan
      split at h
      · dsimp only at h
        split at h
        · exact Or.inl (Option.some.inj h).symm
        · cases h
      · rename_i nodeRank hnr
        dsimp only at h
        split at h
        · exact Or.inl (Option.some.inj h).symm
        · split at h
          · cases h
          · rename_i nodeRankSet hns
            have hk0 : ∀ k : ℕ, (0 : ℚ) ≤ (k : ℚ) := fun k => Nat.cast_nonneg k
            cases hmp : List.foldl maxAcc none parentRanks with
            | some mp =>
                rw [hmp] at h
                dsimp only at h
                cases hmc : List.foldl minAcc none childRanks with
                | some mc =>
                    rw [hmc] at h
                    dsimp only at h
                    rcases Option.map_eq_some'.mp h with ⟨best, hfold, hbest⟩
                    rcases balanceOne_fold_shape ranks (mp + 1)
                        ((mc - 1 - (mp + 1)).floor + 1).toNat nodeRank
                        nodeRankSet.length best hfold with heq | ⟨k, hk, hkeq⟩
                    · exact Or.inl (by rw [← hbest, heq, set_rank_no_op ranks node nodeRank hnr])
                    · refine Or.inr ⟨mp + 1 + (k : ℚ), nodeRank, by rw [← hbest, hkeq], hnr, ?_, ?_⟩
                      · intro p hp a ha
                        rcases mapM_opt_mem ranks.getRank (g.predecessors node) parentRanks
                            hpan p hp with ⟨y, hy, hymem⟩
                        have hay : a = y := Option.some.inj (ha ▸ hy)
                        have hbound := (foldl_maxAcc_le parentRanks none mp hmp).2 y hymem
                        have := hk0 k
                        linarith [hay ▸ hbound]
                      · intro c hc b hb
                        rcases mapM_opt_mem ranks.getRank (g.successors node) childRanks
                            hcan c hc with ⟨y, hy, hymem⟩
                        have hby : b = y := Option.some.inj (hb ▸ hy)
                        have hmcb := (foldl_minAcc_le childRanks none mc hmc).2 y hymem
                        have h1 : (k : ℤ) < (mc - 1 - (mp + 1)).floor + 1 := Int.lt_toNat.mp hk
                        have h2 : (k : ℤ) ≤ (mc - 1 - (mp + 1)).floor := by omega
                        have h3 : ((k : ℤ) : ℚ) ≤ mc - 1 - (mp + 1) := Rat.le_floor.mp h2
                        have h4 : ((k : ℕ) : ℚ) ≤ mc - 1 - (mp + 1) := by
                          push_cast at h3 ⊢
                          exact h3
                        linarith [hby ▸ hmcb]
                | none =>
                    have hcnil := (foldl_minAcc_none childRanks none hmc).1
                    subst hcnil
                    rw [hmc] at h
                    dsimp only at h
                    rcases Option.map_eq_some'.mp h with ⟨best, hfold, hbest⟩
                    rcases balanceOne_fold_shape ranks (mp + 1)
                        (match ranks.getMaxRankIndex with
                          | none => 0
                          | some last => ((last - (mp + 1)).floor + 1).toNat) nodeRank
                        nodeRankSet.length best hfold with heq | ⟨k, hk, hkeq⟩
                    · exact Or.inl (by rw [← hbest, heq, set_rank_no_op ranks node nodeRank hnr])
                    · refine Or.inr ⟨mp + 1 + (k : ℚ), nodeRank, by rw [← hbest, hkeq], hnr, ?_, ?_⟩
                      · intro p hp a ha
                        rcases mapM_opt_mem ranks.getRank (g.predecessors node) parentRanks
                            hpan p hp with ⟨y, hy, hymem⟩
                        have hay : a = y := Option.some.inj (ha ▸ hy)
                        have hbound := (foldl_maxAcc_le parentRanks none mp hmp).2 y hymem
                        have := hk0 k
                        linarith [hay ▸ hbound]
                      · intro c hc b hb
                        rcases mapM_opt_mem ranks.getRank (g.successors node) [] hcan c
                            hc with ⟨y, hy, hymem⟩
                        exact absurd hymem (List.not_mem_nil y)
            | none =>
                have hpnil := (foldl_maxAcc_none parentRanks none hmp).1
                subst hpnil
                rw [hmp] at h
                dsimp only at h
                cases hmc : List.foldl minAcc none childRanks with
                | some mc =>
                    rw [hmc] at h
                    dsimp only at h
                    rcases Option.map_eq_some'.mp h with ⟨best, hfold, hbest⟩
                    rcases balanceOne_fold_shape ranks 0
                        ((mc - 1 - 0).floor + 1).toNat nodeRank
                        nodeRankSet.length best hfold with heq | ⟨k, hk, hkeq⟩
                    · exact Or.inl (by rw [← hbest, heq, set_rank_no_op ranks node nodeRank hnr])
                    · refine Or.inr ⟨0 + (k : ℚ), nodeRank, by rw [← hbest, hkeq], hnr, ?_, ?_⟩
                      · intro p hp a ha
                        rcases mapM_opt_mem ranks.getRank (g.predecessors node) [] hpan p
                            hp with ⟨y, hy, hymem⟩
                        exact absurd hymem (List.not_mem_nil y)
                      · intro c hc b hb
                        rcases mapM_opt_mem ranks.getRank (g.successors node) childRanks
                            hcan c hc with ⟨y, hy, hymem⟩
                        have hby : b = y := Option.some.inj (hb ▸ hy)
                        have hmcb := (foldl_minAcc_le childRanks none mc hmc).2 y hymem
                        have h1 : (k : ℤ) < (mc - 1 - 0).floor + 1 := Int.lt_toNat.mp hk
                        have h2 : (k : ℤ) ≤ (mc - 1 - 0).floor := by omega
                        have h3 : ((k : ℤ) : ℚ) ≤ mc - 1 - 0 := Rat.le_floor.mp h2
                        have h4 : ((k : ℕ) : ℚ) ≤ mc - 1 - 0 := by
                          push_cast at h3 ⊢
                          exact h3
                        linarith [hby ▸ hmcb]
                | none =>
                    have hcnil := (foldl_minAcc_none childRanks none hmc).1
                    subst hcnil
                    rw [hmc] at h
                    dsimp only at h
                    rcases Option.map_eq_some'.mp h with ⟨best, hfold, hbest⟩
                    rcases balanceOne_fold_shape ranks 0
                        (match ranks.getMaxRankIndex with
                          | none => 0
                          | some last => ((last - 0).floor + 1).toNat) nodeRank
                        nodeRankSet.length best hfold with heq | ⟨k, hk, hkeq⟩
                    · exact Or.inl (by rw [← hbest, heq, set_rank_no_op ranks node nodeRank hnr])
                    · refine Or.inr ⟨0 + (k : ℚ), nodeRank, by rw [← hbest, hkeq], hnr, ?_, ?_⟩
                      · intro p hp a ha
                        rcases mapM_opt_mem ranks.getRank (g.predecessors node) [] hpan p
                            hp with ⟨y, hy, hymem⟩
                        exact absurd hymem (List.not_mem_nil y)
                      · intro c hc b hb
                        rcases mapM_opt_mem ranks.getRank (g.successors node) [] hcan c
                            hc with ⟨y, hy, hymem⟩
                        exact absurd hymem (List.not_mem_nil y)
    · exact Or.inl (Option.some.inj h).symm

/-- A `balanceOne` step keeps the one-rank edge separations. -/
theorem balanceOne_keeps_minGap (g : Graph) (t : RankTable) (node : NodeId) (t' : RankTable)
    (hg : minGapOK g t) (h : balanceOne g t node = some t') : minGapOK g t' := by
  rcases balanceOne_moves g t node t' h with rfl | ⟨r, nr, rfl, hnr, hpred, hsucc⟩
  · exact hg
  · intro ek hek a b ha hb
    rw [getRank_set] at ha hb
    by_cases h1 : ek.1 = node
    · rw [if_pos h1] at ha
      have har : a = r := (Option.some.inj ha).symm
      by_cases h2 : ek.2 = node
      · rw [if_pos h2] at hb
        have := hg ek hek nr nr (by rw [h1]; exact hnr) (by rw [h2]; exact hnr)
        linarith
      · rw [if_neg h2] at hb
        have hcs : ek.2 ∈ g.successors node := by
          have hm := mem_successors_of_edgeKey g ek hek
          rw [h1] at hm
          exact hm
        have := hsucc ek.2 hcs b hb
        linarith
    · rw [if_neg h1] at ha
      by_cases h2 : ek.2 = node
      · rw [if_pos h2] at hb
        have hbr : b = r := (Option.some.inj hb).symm
        have hcp : ek.1 ∈ g.predecessors node := by
          have hm := mem_predecessors_of_edgeKey g ek hek
          rw [h2] at hm
          exact hm
        have := hpred ek.1 hcp a ha
        linarith
      · rw [if_neg h2] at hb
        exact hg ek hek a b ha hb

/-- C1.  Against the claim that `removeCycles` leaves an acyclic graph
and removes or reverses every edge that is backward in the greedy order
`sigma = nodes0 ++ reverse nodes1`: on `cycleExample`, the greedy pass
produces `nodes0 = [p, m, q, z]`, `nodes1 = [t]`; the edge `q -> p` is
backward in `sigma` but, having both ends in `nodes0`, is neither
removed nor reversed (only `t -> z` is reversed), and the resulting
graph still contains the directed cycle `p -> m -> q -> p`. -/
theorem removeCycles_leaves_backward_edge_and_cycle :
    greedilyGetFS (buildSimpleGraph cycleExample) = (["p", "m", "q", "z"], ["t"]) ∧
    (removeCycles cycleExample).map (fun r =>
      (r.1.hasEdge "q" "p", r.1.hasEdge "p" "m", r.1.hasEdge "m" "q",
       isAcyclic r.1, r.2.1.map (fun e => (e.v, e.w)), r.2.2.map (fun e => (e.v, e.w)))) =
      some (true, true, true, false, [], [("t", "z")]) := by
  constructor
  · rfl
  · rfl

/-- C7.  Against the claim that restoring the recorded original edges
after `removeCycles` yields exactly the original edge set: on the
two-vertex cycle `a -> c`, `c -> a`, reversing `c -> a` overwrites the
existing edge `a -> c`, and the restoration then removes that merged
edge and re-adds only `c -> a`; the edge `a -> c` is lost. -/
theorem restoreEdges_loses_overwritten_edge :
    twoCycleExample.edgeKeys = [("a", "c"), ("c", "a")] ∧
    ((removeCycles twoCycleExample).bind (fun r =>
      restoreEdges r.1 r.2.1 r.2.2)).map (·.edgeKeys) = some [("c", "a")] := by
  constructor
  · rfl
  · rfl

/-- C3.  Against the claim that after layering the warrant sink
`"a -> c"` has rank `0.5` and the warrant source `b` has rank `0.5`:
`setWarrantEdge` flags the sink `isWarrantSink`, but the layering phase
merges (and later half-ranks) only nodes flagged `isRelevanceSink`, so
no relevance structure is found; the initial ranking gives the sink the
integer rank `1` and `b` the rank `0`, and `layerNodes` then fails to
terminate on the scenario graph, whose warrant component is disconnected
from `a -> c` without the merge. -/
theorem warrant_sink_never_half_ranked :
    ((warrantExample.node? "a -> c").map (fun l =>
      (l.attrs.isWarrantSink, l.attrs.isRelevanceSink))) = some (true, false) ∧
    (mergeRelevanceStructures warrantExample).map (fun r => r.2) = some [] ∧
    (setRanks warrantExample none).map (fun t => t.getRank "a") = some (some 0) ∧
    (setRanks warrantExample none).map (fun t => t.getRank "b") = some (some 0) ∧
    (setRanks warrantExample none).map (fun t => t.getRank "c") = some (some 1) ∧
    (setRanks warrantExample none).map (fun t => t.getRank "a -> c") = some (some 1) ∧
    layerNodes warrantExample = none := by
  refine ⟨rfl, rfl, by with_unfolding_all rfl, by with_unfolding_all rfl,
    by with_unfolding_all rfl, by with_unfolding_all rfl, by with_unfolding_all rfl⟩

/-- C2, counterexample.  On `minlenExample` the balance pass moves `b`
to rank `1` although the edge `a -> b` carries `minlen = 2`: after
`layerNodes` the edge has `rank b - rank a = 1 < 2`. -/
theorem balance_violates_minlen_constraint :
    (minlenExample.edge? "a" "b").bind (·.minlen) = some 2 ∧
    (layerNodes minlenExample).map (fun r => r.2.getRank "a") = some (some 0) ∧
    (layerNodes minlenExample).map (fun r => r.2.getRank "b") = some (some 1) ∧
    ¬ ((1 : ℚ) - 0 ≥ 2) := by
  refine ⟨by with_unfolding_all rfl, by with_unfolding_all rfl,
    by with_unfolding_all rfl, by norm_num⟩

/-- C5, counterexample.  The defaults give `ranksep = 50` (not `225`),
and `ranksepExample` explicitly configures `ranksep := 225`, yet the
vertex `b` of rank `1` receives `y = 325`: the y-coordinate is
`rank * NODE_Y_SPACING` with the fixed constant `325`, and the
configurable `ranksep` is never consulted. -/
theorem y_ignores_ranksep_setting :
    (mergeGraphDefaults none).ranksep = some 50 ∧
    (ranksepExample.glabel.bind (·.ranksep)) = some 225 ∧
    (layerNodes ranksepExample).map (fun r => r.2.getRank "b") = some (some 1) ∧
    (layerNodes ranksepExample).map (fun r => (r.1.node? "b").bind (·.attrs.y)) =
      some (some 325) ∧
    (325 : ℚ) ≠ 1 * 225 := by
  refine ⟨rfl, by with_unfolding_all rfl, by with_unfolding_all rfl,
    by with_unfolding_all rfl, by norm_num⟩

/-- C2.  The amended guarantee the balance pass actually provides: it
preserves the one-rank separation `rank(tail) + 1 <= rank(head)` along
every edge whose endpoints are ranked, but not the per-edge `minlen`
(the counterexample shows a `minlen = 2` edge squeezed to gap `1`). -/
theorem balance_preserves_unit_separation :
    ∀ (g : Graph) (t t' : RankTable), minGapOK g t →
      balanceLayering g t = some t' → minGapOK g t' := by
  intro g t t' hg h
  unfold balanceLayering at h
  exact foldlM_opt_inv (fun tt node => balanceOne g tt node) (minGapOK g) g.nodeIds t hg
    (fun t1 node _ h1 t2 h2 => balanceOne_keeps_minGap g t1 node t2 h1 h2) t' h

/-- The balance-pass guarantee at a concrete input: the unit-gap chain
keeps its separations. -/
theorem balance_preserves_unit_separation_witness :
    minGapOK unitGapExample unitGapBalanced := by
  refine balance_preserves_unit_separation unitGapExample unitGapTable unitGapBalanced ?_
    (by with_unfolding_all rfl)
  intro ek hek a b ha hb
  have hks : unitGapExample.edgeKeys = [("a", "b")] := by with_unfolding_all rfl
  rw [hks] at hek
  have hek' : ek = ("a", "b") := by simpa using hek
  subst hek'
  have ha' : unitGapTable.getRank "a" = some 0 := by with_unfolding_all rfl
  have hb' : unitGapTable.getRank "b" = some 1 := by with_unfolding_all rfl
  have haa : a = 0 := Option.some.inj (ha.symm.trans ha')
  have hbb : b = 1 := Option.some.inj (hb.symm.trans hb')
  rw [haa, hbb]
  norm_num

/-- C5, amended.  The layering phase assigns `y = rank * NODE_Y_SPACING`
to every node, where `NODE_Y_SPACING` is the fixed constant `325`; the
configurable `ranksep` plays no part (the counterexample shows a
caller-set `ranksep = 225` being ignored). -/
theorem y_equals_rank_times_spacing :
    NODE_Y_SPACING = 325 ∧
    ∀ (g : Graph) (ranks : RankTable) (g' : Graph), setYCoordinates g ranks = some g' →
      ∀ v ∈ g.nodeIds,
      (g'.node? v).map (fun l => l.attrs.y) =
        some ((ranks.getRank v).map (· * NODE_Y_SPACING)) := by
  refine ⟨rfl, ?_⟩
  intro g ranks g' h v hv
  unfold setYCoordinates at h
  refine foldlM_opt_establish (setYNode ranks) (fun _ => True)
    (fun gg => (gg.node? v).map (fun l => l.attrs.y) =
      some ((ranks.getRank v).map (· * NODE_Y_SPACING)))
    v g.nodeIds g hv trivial (fun _ _ _ _ _ _ => trivial) ?_ ?_ g' h
  · intro g1 _ g2 hstep
    unfold setYNode at hstep
    cases hn : g1.node? v with
    | none => rw [hn] at hstep; cases hstep
    | some l =>
        rw [hn] at hstep
        have hg2 := Option.some.inj hstep
        rw [← hg2, node?_modNode_self, hn]
        rfl
  · intro g1 a ha _ hp g2 hstep
    unfold setYNode at hstep
    cases hn : g1.node? a with
    | none => rw [hn] at hstep; cases hstep
    | some l =>
        rw [hn] at hstep
        have hg2 := Option.some.inj hstep
        by_cases hva : v = a
        · subst hva
          rw [← hg2, node?_modNode_self, hn]
          rfl
        · rw [← hg2, node?_modNode_ne g1 a _ v hva]
          exact hp

/-- The y-assignment law at a concrete input: rank `2` lands at
`y = 650`. -/
theorem y_equals_rank_times_spacing_witness :
    (ySpacingResult.node? "a").map (fun l => l.attrs.y) =
      some ((ySpacingTable.getRank "a").map (· * NODE_Y_SPACING)) :=
  y_equals_rank_times_spacing.2 ySpacingExample ySpacingTable ySpacingResult
    (by with_unfolding_all rfl) "a"
    (by rw [show ySpacingExample.nodeIds = ["a"] from rfl]
        exact List.mem_cons_self "a" [])

/-- C4, amended.  `updateInputGraph` copies `x` and `y` from the layout
graph but overwrites every childless node's `width` with the constant
`300` and its `height` with the constant `100`; the caller's dimensions
are not preserved (the counterexample shows `50`/`60` coming back as
`300`/`100`). -/
theorem update_forces_node_dimensions :
    ∀ (ig lg r : Graph), updateInputGraph ig lg = some r →
      ∀ v, v ∈ ig.nodeIds → (ig.node? v).isSome = true →
      (lg.children v).isEmpty = true →
      (r.node? v).map (fun l => (l.attrs.width, l.attrs.height)) =
        some (some 300, some 100) := by
  intro ig lg r h v hv hsome hchild
  unfold updateInputGraph at h
  cases h1 : ig.nodeIds.foldlM (updateInputNode lg) ig with
  | none => rw [h1] at h; cases h
  | some g1 =>
      rw [h1] at h
      simp only [Option.bind_eq_bind, Option.some_bind] at h
      cases h2 : g1.edgeKeys.foldlM (updateInputEdge lg) g1 with
      | none => rw [h2] at h; cases h
      | some g2 =>
          rw [h2] at h
          simp only [Option.map_some'] at h
          have hch : (!(lg.children v).isEmpty) = false := by rw [hchild]; rfl
          have hP1 : (g1.node? v).map (fun l => (l.attrs.width, l.attrs.height)) =
              some (some 300, some 100) := by
            refine foldlM_opt_establish (updateInputNode lg)
              (fun gg => (gg.node? v).isSome = true)
              (fun gg => (gg.node? v).map (fun l => (l.attrs.width, l.attrs.height)) =
                some (some 300, some 100))
              v ig.nodeIds ig hv hsome ?_ ?_ ?_ g1 h1
            · intro g' a ha hq g'' hstep
              unfold updateInputNode at hstep
              cases hga : g'.node? a with
              | none => rw [hga] at hstep; exact (Option.some.inj hstep) ▸ hq
              | some la =>
                  rw [hga] at hstep
                  cases hla : lg.node? a with
                  | none => rw [hla] at hstep; cases hstep
                  | some ll =>
                      rw [hla] at hstep
                      dsimp only at hstep
                      have hg'' := Option.some.inj hstep
                      rw [← hg'', isSome_node?_modNode]
                      exact hq
            · intro g' hq g'' hstep
              unfold updateInputNode at hstep
              cases hga : g'.node? v with
              | none => rw [hga] at hq; simp at hq
              | some la =>
                  rw [hga] at hstep
                  cases hla : lg.node? v with
                  | none => rw [hla] at hstep; cases hstep
                  | some ll =>
                      rw [hla] at hstep
                      dsimp only at hstep
                      have hg'' := Option.some.inj hstep
                      rw [← hg'', node?_modNode_self, hga]
                      simp [NodeLabel.modAttrs, NodeLabel.withAttrs, NodeLabel.attrs, hch]
            · intro g' a ha hq hp g'' hstep
              unfold updateInputNode at hstep
              cases hga : g'.node? a with
              | none => rw [hga] at hstep; exact (Option.some.inj hstep) ▸ hp
              | some la =>
                  rw [hga] at hstep
                  cases hla : lg.node? a with
                  | none => rw [hla] at hstep; cases hstep
                  | some ll =>
                      rw [hla] at hstep
                      dsimp only at hstep
                      have hg'' := Option.some.inj hstep
                      by_cases hva : v = a
                      · subst hva
                        rw [← hg'', node?_modNode_self, hga]
                        simp [NodeLabel.modAttrs, NodeLabel.withAttrs, NodeLabel.attrs, hch]
                      · rw [← hg'', node?_modNode_ne g' a _ v hva]
                        exact hp
          have hP2 : g2.node? v = g1.node? v := by
            refine foldlM_opt_inv (updateInputEdge lg) (fun gg => gg.node? v = g1.node? v)
              g1.edgeKeys g1 rfl ?_ g2 h2
            intro g' ek hek hq g'' hstep
            unfold updateInputEdge at hstep
            cases hge : g'.edge? ek.1 ek.2 with
            | none => rw [hge] at hstep; cases hstep
            | some le =>
                rw [hge] at hstep
                cases hle : lg.edge? ek.1 ek.2 with
                | none => rw [hle] at hstep; cases hstep
                | some ll =>
                    rw [hle] at hstep
                    have hg'' := Option.some.inj hstep
                    rw [← hg'']
                    exact hq
          have hrn : r.node? v = g2.node? v := by
            cases hgl : g2.glabel with
            | none =>
                rw [hgl] at h
                have hx := congrArg (fun gg => Graph.node? gg v) (Option.some.inj h).symm
                exact hx
            | some il =>
                rw [hgl] at h
                have hx := congrArg (fun gg => Graph.node? gg v) (Option.some.inj h).symm
                exact hx
          rw [hrn, hP2, hP1]

/-- The dimension overwrite at a concrete input. -/
theorem update_forces_node_dimensions_witness :
    (plainUpdateResult.node? "a").map (fun l => (l.attrs.width, l.attrs.height)) =
      some (some 300, some 100) :=
  update_forces_node_dimensions plainInputExample plainLayoutExample plainUpdateResult
    (by with_unfolding_all rfl) "a"
    (by rw [show plainInputExample.nodeIds = ["a"] from rfl]
        exact List.mem_cons_self "a" [])
    (by rfl) (by rfl)

/-- C9, amended.  The network-simplex loop guard compares the iteration
count against `maxrankingloops` with no default: when the caller leaves
it unset the comparison `loopCount < undefined` is false and the loop
body never runs (the returned count is the incoming one), and when it is
set to a natural number `m` the final count never exceeds `max count m`.
There is no default of `100`. -/
theorem simplex_caps_iterations_only_when_configured :
    (∀ (g tree : Graph) (ranks : RankTable) (index : Nat) (lastEdge : Option EdgeKey)
        (count fuel : Nat),
        (simplexLoop g none (fuel + 1) tree ranks index lastEdge count).map
            (fun s => s.2.2) =
          (iterHasNext tree index lastEdge).map (fun _ => count)) ∧
    (∀ (m : Nat) (g : Graph) (fuel : Nat) (tree : Graph) (ranks : RankTable)
        (index : Nat) (lastEdge : Option EdgeKey) (count : Nat)
        (out : Graph × RankTable × Nat),
        simplexLoop g (some ((m : Nat) : ℚ)) fuel tree ranks index lastEdge count =
          some out →
        out.2.2 ≤ max count m) := by
  constructor
  · intro g tree ranks index lastEdge count fuel
    conv_lhs => rw [simplexLoop]
    cases hn : iterHasNext tree index lastEdge with
    | none => rfl
    | some hnv =>
        simp only [Option.bind_eq_bind, Option.some_bind, Option.map_some']
        rw [if_pos (by rw [Bool.and_false]; rfl)]
        rfl
  · intro m g fuel
    induction fuel with
    | zero =>
        intro tree ranks index lastEdge count out h
        rw [simplexLoop] at h
        cases h
    | succ fuel ih =>
        intro tree ranks index lastEdge count out h
        rw [simplexLoop] at h
        cases hn : iterHasNext tree index lastEdge with
        | none => rw [hn] at h; cases h
        | some hnv =>
            rw [hn] at h
            simp only [Option.bind_eq_bind, Option.some_bind] at h
            by_cases hguard : (!(hnv.1 && decide ((count : ℚ) < ((m : Nat) : ℚ)))) = true
            · rw [if_pos hguard] at h
              have := Option.some.inj h
              rw [← this]
              exact le_max_left count m
            · rw [if_neg hguard] at h
              have hand : (hnv.1 && decide ((count : ℚ) < ((m : Nat) : ℚ))) = true := by
                cases hb : (hnv.1 && decide ((count : ℚ) < ((m : Nat) : ℚ))) with
                | true => rfl
                | false => exact absurd (by rw [hb]; rfl) hguard
              have hcm : count < m := by
                rw [Bool.and_eq_true] at hand
                exact_mod_cast of_decide_eq_true hand.2
              cases hek : tree.edgeKeys[hnv.2]? with
              | none => rw [hek] at h; cases h
              | some treeEdge =>
                  rw [hek] at h
                  dsimp only at h
                  cases hnt : getNontreeMinSlackEdge g tree ranks treeEdge with
                  | none => rw [hnt] at h; cases h
                  | some nt? =>
                      rw [hnt] at h
                      simp only [Option.bind_eq_bind, Option.some_bind] at h
                      cases nt? with
                      | none =>
                          have hrec := ih tree ranks hnv.2 (some treeEdge) (count + 1) out h
                          have : max (count + 1) m = m := max_eq_right hcm
                          omega
                      | some nontreeEdge =>
                          cases hrm : tree.removeEdgeOv treeEdge.1 treeEdge.2 with
                          | none => rw [hrm] at h; cases h
                          | some tree2 =>
                              rw [hrm] at h
                              simp only [Option.bind_eq_bind, Option.some_bind] at h
                              cases hut : updateTreeValues g
                                  (tree2.setEdgeL nontreeEdge.1 nontreeEdge.2
                                    (g.edge? nontreeEdge.1 nontreeEdge.2)) ranks nontreeEdge with
                              | none => rw [hut] at h; cases h
                              | some tr =>
                                  rw [hut] at h
                                  simp only [Option.bind_eq_bind, Option.some_bind] at h
                                  have hrec := ih tr.1 tr.2 hnv.2 (some treeEdge) (count + 1) out h
                                  have : max (count + 1) m = m := max_eq_right hcm
                                  omega



/-- The iteration-cap law at concrete inputs: an empty tree exits with
count `0` under both an unset cap and a cap of `100`. -/
theorem simplex_caps_iterations_only_when_configured_witness :
    (simplexLoop Graph.new none 1 Graph.new RankTable.empty 0 none 0).map
        (fun s => s.2.2) = (iterHasNext Graph.new 0 none).map (fun _ => 0) ∧
    simplexCapOut.2.2 ≤ max 0 100 :=
  ⟨simplex_caps_iterations_only_when_configured.1 Graph.new Graph.new RankTable.empty
      0 none 0 0,
   simplex_caps_iterations_only_when_configured.2 100 Graph.new 2 Graph.new
      RankTable.empty 0 none 0 simplexCapOut (by with_unfolding_all rfl)⟩



/-- C9, counterexample to the claimed default of `100`: the negative
cut-value example carries no `maxrankingloops`, its initial tree offers
an improvement edge, yet zero simplex iterations run; the explicitly
capped twin runs one. -/
theorem unset_cap_runs_zero_iterations :
    (negCutExample.glabel.bind (·.maxrankingloops)) = none ∧
    layerNodesHasNegativeEdge negCutExample = some true ∧
    layerNodesSimplexCount negCutExample = some 0 ∧
    (negCutExampleCapped.glabel.bind (·.maxrankingloops)) = some 100 ∧
    layerNodesSimplexCount negCutExampleCapped = some 1 := by
  refine ⟨rfl, by with_unfolding_all rfl, by with_unfolding_all rfl, rfl,
    by with_unfolding_all rfl⟩

set_option maxHeartbeats 4000000 in
/-- C4, counterexample.  The caller supplies `width = 50` and
`height = 60`; after `layOutGraph` the node carries `width = 300` and
`height = 100`. -/
theorem layout_overwrites_node_dimensions :
    ((dimensionExample.node? "a").map (fun l => (l.attrs.width, l.attrs.height))) =
      some (some 50, some 60) ∧
    (layOutGraph dimensionExample).map (fun g => (g.node? "a").map (fun l =>
      (l.attrs.width, l.attrs.height))) = some (some (some 300, some 100)) ∧
    ¬((300 : ℚ) = 50 ∧ (100 : ℚ) = 60) := by
  refine ⟨rfl, by with_unfolding_all rfl, by norm_num⟩

set_option maxHeartbeats 2000000 in
/-- C6, counterexample.  Defaults give `nodesep = 50` (not `100`); and
with `nodesep := 100` configured and two width-`300` vertices on one
layer, the assigned x-gap is `5`, far below
`nodesep + (width(u) + width(v)) / 2 = 400`. -/
theorem gap_below_configured_separation :
    (mergeGraphDefaults none).nodesep = some 50 ∧
    (separationExample.glabel.bind (·.nodesep)) = some 100 ∧
    (straightenEdges separationExample [["a", "b"]]).map (fun g =>
      ((g.node? "a").bind (·.attrs.x), (g.node? "b").bind (·.attrs.x))) =
      some (some 0, some 5) ∧
    ¬((5 : ℚ) - 0 ≥ 100 + (300 + 300) / 2) := by
  refine ⟨rfl, rfl, by with_unfolding_all rfl, by norm_num⟩

/-- C10.  The layout pipeline is deterministic: two input graphs with
the same node, edge and parent lists, the same graph label and the same
default-label mode receive identical layouts (the embedding is a pure
function of these five components, with every tie broken by
insertion-order enumeration). -/
theorem layout_depends_only_on_graph_content :
    ∀ g1 g2 : Graph, g1.nodes = g2.nodes → g1.edges = g2.edges →
      g1.parents = g2.parents → g1.glabel = g2.glabel →
      g1.defaultEmptyNode = g2.defaultEmptyNode →
      layOutGraph g1 = layOutGraph g2 := by
  intro g1 g2 h1 h2 h3 h4 h5
  have he : g1 = g2 := by
    cases g1
    cases g2
    simp_all
  rw [he]

/-- Determinism at concrete inputs: the same graph built through two
different construction sequences lays out identically. -/
theorem layout_depends_only_on_graph_content_witness :
    layOutGraph determinismLeft = layOutGraph determinismRight :=
  layout_depends_only_on_graph_content determinismLeft determinismRight
    (by with_unfolding_all rfl) (by with_unfolding_all rfl) (by with_unfolding_all rfl)
    (by with_unfolding_all rfl) (by with_unfolding_all rfl)



/-- The final x-write of `straightenEdges` never reads the graph label. -/
theorem medianXWrite_glabel (lt rt lb rb h : Graph) (gl : Option GraphLabel) (v : NodeId) :
    medianXWrite lt rt lb rb { h with glabel := gl } v =
      (medianXWrite lt rt lb rb h v).map (fun r => { r with glabel := gl }) := by
  unfold medianXWrite
  rw [show Graph.node? { h with glabel := gl } v = h.node? v from rfl]
  cases (lt.node? v).bind (fun l0 => l0.attrs.x) <;>
    cases (rt.node? v).bind (fun l0 => l0.attrs.x) <;>
      cases (lb.node? v).bind (fun l0 => l0.attrs.x) <;>
        cases (rb.node? v).bind (fun l0 => l0.attrs.x) <;>
          try rfl
  rename_i x0 x1 x2 x3
  dsimp only
  cases (List.mergeSort [x0, x1, x2, x3] (· ≤ ·))[1]? <;>
    cases (List.mergeSort [x0, x1, x2, x3] (· ≤ ·))[2]? <;>
      cases h.node? v <;> rfl

/-- The x-write fold carries a changed graph label through untouched. -/
theorem medianXWrite_fold_glabel (lt rt lb rb : Graph) :
    ∀ (l : List NodeId) (h : Graph) (gl : Option GraphLabel),
      l.foldlM (medianXWrite lt rt lb rb) { h with glabel := gl } =
        (l.foldlM (medianXWrite lt rt lb rb) h).map (fun r => { r with glabel := gl }) := by
  intro l
  induction l with
  | nil => intro h gl; rfl
  | cons v l ih =>
      intro h gl
      rw [List.foldlM_cons, List.foldlM_cons, medianXWrite_glabel]
      cases medianXWrite lt rt lb rb h v with
      | none => rfl
      | some h' =>
          simp only [Option.map_some', Option.bind_eq_bind, Option.some_bind]
          exact ih h' gl

/-- `straightenEdges` never consults the graph label (in particular not
`nodesep`): replacing the label changes nothing but the label carried
into the result. -/
theorem straightenEdges_ignores_glabel :
    ∀ (g : Graph) (matrix : List (List NodeId)) (gl : Option GraphLabel),
      straightenEdges { g with glabel := gl } matrix =
        (straightenEdges g matrix).map (fun r => { r with glabel := gl }) := by
  intro g matrix gl
  unfold straightenEdges
  dsimp only
  rw [show buildSimpleGraph { g with glabel := gl } = buildSimpleGraph g from rfl]
  rw [show Graph.nodeIds { g with glabel := gl } = g.nodeIds from rfl]
  cases hA : (markConflicts (buildSimpleGraph g) matrix).bind (fun bg =>
      (alignVertically bg matrix true true).bind (fun bg =>
        compactHorizontally bg matrix 5)) with
  | none => rfl
  | some lt =>
      cases hB : (markConflicts (buildSimpleGraph g) matrix).bind (fun bg =>
          (alignVertically bg matrix false true).bind (fun bg =>
            compactHorizontally bg matrix 5)) with
      | none => rfl
      | some rt =>
          cases hC : (markConflicts (buildSimpleGraph g) matrix).bind (fun bg =>
              (alignVertically bg matrix true false).bind (fun bg =>
                compactHorizontally bg matrix 5)) with
          | none => rfl
          | some lb =>
              cases hD : (markConflicts (buildSimpleGraph g) matrix).bind (fun bg =>
                  (alignVertically bg matrix false false).bind (fun bg =>
                    compactHorizontally bg matrix 5)) with
              | none => rfl
              | some rb =>
                  dsimp only [Option.bind]
                  cases hr0 : graphXRange lt with
                  | none =>
                      by_cases hni : g.nodeIds.isEmpty = true
                      · rw [if_pos hni, if_pos hni]
                        rfl
                      · rw [if_neg hni, if_neg hni]
                        rfl
                  | some r0 =>
                      cases hr1 : graphXRange rt with
                      | none =>
                          by_cases hni : g.nodeIds.isEmpty = true
                          · rw [if_pos hni, if_pos hni]
                            rfl
                          · rw [if_neg hni, if_neg hni]
                            rfl
                      | some r1 =>
                          cases hr2 : graphXRange lb with
                          | none =>
                              by_cases hni : g.nodeIds.isEmpty = true
                              · rw [if_pos hni, if_pos hni]
                                rfl
                              · rw [if_neg hni, if_neg hni]
                                rfl
                          | some r2 =>
                              cases hr3 : graphXRange rb with
                              | none =>
                                  by_cases hni : g.nodeIds.isEmpty = true
                                  · rw [if_pos hni, if_pos hni]
                                    rfl
                                  · rw [if_neg hni, if_neg hni]
                                    rfl
                              | some r3 =>
                                  exact medianXWrite_fold_glabel _ _ _ _ g.nodeIds g gl


set_option maxHeartbeats 2000000 in
/-- C6, amended.  The horizontal compaction runs with the hardcoded
separation constant `5`: the configured graph label (and so `nodesep`)
is never consulted by `straightenEdges`, and on the two-vertex layer of
the counterexample the assigned coordinates are exactly `0` and `5`. -/
theorem straighten_uses_constant_delta :
    (∀ (g : Graph) (matrix : List (List NodeId)) (gl : Option GraphLabel),
        straightenEdges { g with glabel := gl } matrix =
          (straightenEdges g matrix).map (fun r => { r with glabel := gl })) ∧
    (straightenEdges separationExample [["a", "b"]]).map (fun g =>
      ((g.node? "a").bind (·.attrs.x), (g.node? "b").bind (·.attrs.x))) =
      some (some 0, some 5) :=
  ⟨straightenEdges_ignores_glabel, by with_unfolding_all rfl⟩

end Argumappr

namespace Argumappr

/-- A find is unchanged by a filter that keeps everything it could
return. -/
theorem find?_filter_of_imp {α : Type} (q keep : α → Bool) :
    ∀ (l : List α), (∀ p, q p = true → keep p = true) →
      List.find? q (l.filter keep) = List.find? q l := by
  intro l
  induction l with
  | nil => intro _; rfl
  | cons p l ih =>
      intro h
      rw [List.filter_cons]
      by_cases hq : q p = true
      · rw [if_pos (h p hq), List.find?_cons_of_pos _ hq, List.find?_cons_of_pos l hq]
      · by_cases hk : keep p = true
        · rw [if_pos hk, List.find?_cons_of_neg _ hq, List.find?_cons_of_neg l hq]
          exact ih h
        · rw [if_neg hk, List.find?_cons_of_neg l hq]
          exact ih h

/-- `removeNode` leaves other nodes' lookups unchanged. -/
theorem node?_removeNode_ne (g : Graph) (x u : NodeId) (h : u ≠ x) :
    (g.removeNode x).node? u = g.node? u := by
  unfold Graph.node? Graph.removeNode
  rw [alookup_filter_ne g.nodes x u h]

/-- `removeNode` deletes its node's lookup. -/
theorem node?_removeNode_self (g : Graph) (x : NodeId) :
    (g.removeNode x).node? x = none := by
  unfold Graph.node? Graph.removeNode
  rw [alookup_filter_self g.nodes x]
  rfl

/-- An edge surviving `removeNode` was present before, and away from the
removed node. -/
theorem edge?_removeNode_some (g : Graph) (x v w : NodeId) (lab : EdgeLabel)
    (h : (g.removeNode x).edge? v w = some lab) :
    g.edge? v w = some lab ∧ v ≠ x ∧ w ≠ x := by
  unfold Graph.edge? Graph.removeNode at h
  cases hf : List.find? (fun p => p.1.1 == v && p.1.2 == w)
      (g.edges.filter (fun p => p.1.1 != x && p.1.2 != x)) with
  | none => rw [hf] at h; cases h
  | some p =>
      rw [hf] at h
      have hmem := @List.mem_of_find?_eq_some _ (fun p => p.1.1 == v && p.1.2 == w) p _ hf
      have hkeep := (List.mem_filter.mp hmem).2
      have hq := @List.find?_some _ (fun p => p.1.1 == v && p.1.2 == w) p _ hf
      rw [Bool.and_eq_true] at hq hkeep
      have hv : p.1.1 = v := beq_iff_eq.mp hq.1
      have hw : p.1.2 = w := beq_iff_eq.mp hq.2
      have hvx : v ≠ x := by
        intro e
        have := hkeep.1
        rw [hv, e] at this
        simp at this
      have hwx : w ≠ x := by
        intro e
        have := hkeep.2
        rw [hw, e] at this
        simp at this
      refine ⟨?_, hvx, hwx⟩
      unfold Graph.edge?
      rw [← find?_filter_of_imp (fun p => p.1.1 == v && p.1.2 == w)
        (fun p => p.1.1 != x && p.1.2 != x) g.edges ?_, hf]
      · exact h
      · intro p hp
        rw [Bool.and_eq_true] at hp
        have e1 : p.1.1 = v := beq_iff_eq.mp hp.1
        have e2 : p.1.2 = w := beq_iff_eq.mp hp.2
        rw [Bool.and_eq_true]
        constructor
        · rw [e1]; simp [hvx]
        · rw [e2]; simp [hwx]

/-- `removeNode` leaves edges between other nodes unchanged. -/
theorem edge?_removeNode_ne (g : Graph) (x v w : NodeId) (hv : v ≠ x) (hw : w ≠ x) :
    (g.removeNode x).edge? v w = g.edge? v w := by
  unfold Graph.edge? Graph.removeNode
  rw [find?_filter_of_imp (fun p => p.1.1 == v && p.1.2 == w)
    (fun p => p.1.1 != x && p.1.2 != x) g.edges ?_]
  intro p hp
  rw [Bool.and_eq_true] at hp
  have e1 : p.1.1 = v := beq_iff_eq.mp hp.1
  have e2 : p.1.2 = w := beq_iff_eq.mp hp.2
  rw [Bool.and_eq_true]
  constructor
  · rw [e1]; simp [hv]
  · rw [e2]; simp [hw]

/-- An edge with a present label is listed among the edge keys. -/
theorem edge?_some_mem_edgeKeys (g : Graph) (v w : NodeId) (lab : EdgeLabel)
    (h : g.edge? v w = some lab) : (v, w) ∈ g.edgeKeys := by
  unfold Graph.edge? at h
  cases hf : List.find? (fun p => p.1.1 == v && p.1.2 == w) g.edges with
  | none => rw [hf] at h; cases h
  | some p =>
      have hmem := @List.mem_of_find?_eq_some _ (fun p => p.1.1 == v && p.1.2 == w) p _ hf
      have hq := @List.find?_some _ (fun p => p.1.1 == v && p.1.2 == w) p _ hf
      rw [Bool.and_eq_true] at hq
      have hkey : p.1 = (v, w) :=
        Prod.ext_iff.mpr ⟨beq_iff_eq.mp hq.1, beq_iff_eq.mp hq.2⟩
      exact List.mem_map.mpr ⟨p, hmem, hkey⟩

/-- A listed edge key answers the membership test. -/
theorem hasEdge_of_mem_edgeKeys (g : Graph) (ek : EdgeKey) (h : ek ∈ g.edgeKeys) :
    g.hasEdge ek.1 ek.2 = true := by
  unfold Graph.edgeKeys at h
  rcases List.mem_map.mp h with ⟨p, hp, hpe⟩
  unfold Graph.hasEdge
  rw [List.any_eq_true]
  exact ⟨p, hp, by rw [hpe]; simp⟩

/-- Rewriting labels under a fixed key pair keeps the key column. -/
theorem keys_map_ite_mod (v w : NodeId) (f : EdgeLabel → EdgeLabel) :
    ∀ (l : List (EdgeKey × Option EdgeLabel)),
      ((l.map (fun p => if p.1.1 == v && p.1.2 == w then (p.1, p.2.map f) else p)).map
        (fun p => p.1)) = l.map (fun p => p.1) := by
  intro l
  induction l with
  | nil => rfl
  | cons p l ih =>
      rw [List.map_cons, List.map_cons, List.map_cons]
      by_cases hp : (p.1.1 == v && p.1.2 == w) = true
      · rw [if_pos hp]
        exact congrArg _ ih
      · rw [if_neg hp]
        exact congrArg _ ih

/-- Storing a constant label under a fixed key pair keeps the key
column. -/
theorem keys_map_ite_const (v w : NodeId) (x : Option EdgeLabel) :
    ∀ (l : List (EdgeKey × Option EdgeLabel)),
      ((l.map (fun p => if p.1.1 == v && p.1.2 == w then (p.1, x) else p)).map
        (fun p => p.1)) = l.map (fun p => p.1) := by
  intro l
  induction l with
  | nil => rfl
  | cons p l ih =>
      rw [List.map_cons, List.map_cons, List.map_cons]
      by_cases hp : (p.1.1 == v && p.1.2 == w) = true
      · rw [if_pos hp]
        exact congrArg _ ih
      · rw [if_neg hp]
        exact congrArg _ ih

/-- The label rewrite of `modEdge` keeps every edge key. -/
theorem edgeKeys_modEdge (g : Graph) (v w : NodeId) (f : EdgeLabel → EdgeLabel) :
    (g.modEdge v w f).edgeKeys = g.edgeKeys :=
  keys_map_ite_mod v w f g.edges

/-- `setEdgeL` over an existing edge between existing nodes keeps every
edge key. -/
theorem edgeKeys_setEdgeL_of_hasEdge (g : Graph) (v w : NodeId) (l : Option EdgeLabel)
    (hv : g.hasNode v = true) (hw : g.hasNode w = true) (he : g.hasEdge v w = true) :
    (g.setEdgeL v w l).edgeKeys = g.edgeKeys := by
  unfold Graph.setEdgeL Graph.setNodeKeep
  rw [if_pos hv, if_pos hw, if_pos he]
  exact keys_map_ite_const v w l g.edges

/-- Every key of a `setEdgeL` result is the written key or an old key. -/
theorem edgeKeys_setEdgeL_mem (g : Graph) (v w : NodeId) (l : Option EdgeLabel)
    (ek : EdgeKey) (h : ek ∈ (g.setEdgeL v w l).edgeKeys) :
    ek = (v, w) ∨ ek ∈ g.edgeKeys := by
  unfold Graph.setEdgeL at h
  by_cases he : ((g.setNodeKeep v).setNodeKeep w).hasEdge v w = true
  · rw [if_pos he] at h
    unfold Graph.edgeKeys at h ⊢
    rcases List.mem_map.mp h with ⟨p, hp, hpe⟩
    rcases List.mem_map.mp hp with ⟨p0, hp0, hp0e⟩
    right
    refine List.mem_map.mpr ⟨p0, ?_, ?_⟩
    · show p0 ∈ g.edges
      have : ((g.setNodeKeep v).setNodeKeep w).edges = g.edges := by
        unfold Graph.setNodeKeep
        by_cases h1 : g.hasNode v = true
        · rw [if_pos h1]
          by_cases h2 : g.hasNode w = true
          · rw [if_pos h2]
          · rw [if_neg h2]
        · rw [if_neg h1]
          by_cases h2 : ({ g with nodes := g.nodes ++ [(v, if g.defaultEmptyNode then some .empty else none)] } : Graph).hasNode w = true
          · rw [if_pos h2]
          · rw [if_neg h2]
      rw [← this]
      exact hp0
    · rw [← hpe, ← hp0e]
      by_cases hq : (p0.1.1 == v && p0.1.2 == w) = true
      · rw [if_pos hq]
      · rw [if_neg hq]
  · rw [if_neg he] at h
    unfold Graph.edgeKeys at h ⊢
    rw [List.map_append] at h
    rcases List.mem_append.mp h with h0 | h1
    · rcases List.mem_map.mp h0 with ⟨p0, hp0, hp0e⟩
      right
      refine List.mem_map.mpr ⟨p0, ?_, hp0e⟩
      have : ((g.setNodeKeep v).setNodeKeep w).edges = g.edges := by
        unfold Graph.setNodeKeep
        by_cases h1 : g.hasNode v = true
        · rw [if_pos h1]
          by_cases h2 : g.hasNode w = true
          · rw [if_pos h2]
          · rw [if_neg h2]
        · rw [if_neg h1]
          by_cases h2 : ({ g with nodes := g.nodes ++ [(v, if g.defaultEmptyNode then some .empty else none)] } : Graph).hasNode w = true
          · rw [if_pos h2]
          · rw [if_neg h2]
      rw [← this]
      exact hp0
    · left
      simpa using h1

/-- Every key surviving `removeNode` is an old key away from the node. -/
theorem edgeKeys_removeNode_mem (g : Graph) (x : NodeId) (ek : EdgeKey)
    (h : ek ∈ (g.removeNode x).edgeKeys) :
    ek ∈ g.edgeKeys ∧ ¬ek.1 = x ∧ ¬ek.2 = x := by
  unfold Graph.edgeKeys Graph.removeNode at h
  rcases List.mem_map.mp h with ⟨p, hp, hpe⟩
  have hmem := (List.mem_filter.mp hp).1
  have hkeep := (List.mem_filter.mp hp).2
  rw [Bool.and_eq_true] at hkeep
  refine ⟨List.mem_map.mpr ⟨p, hmem, hpe⟩, ?_, ?_⟩
  · rw [← hpe]
    intro e
    rw [e] at hkeep
    simp at hkeep
  · rw [← hpe]
    intro e
    rw [e] at hkeep
    simp at hkeep

/-- The head of a node's predecessor list names an incoming edge. -/
theorem pred_mem_edgeKeys (g : Graph) (w parent : NodeId)
    (h : parent ∈ g.predecessors w) : (parent, w) ∈ g.edgeKeys := by
  unfold Graph.predecessors Graph.inEdges at h
  rcases List.mem_map.mp h with ⟨ek, hek, heke⟩
  rcases List.mem_map.mp hek with ⟨p, hp, hpe⟩
  have hmem := (List.mem_filter.mp hp).1
  have hpred := (List.mem_filter.mp hp).2
  have h2 : p.1.2 = w := beq_iff_eq.mp hpred
  have hkey : p.1 = (parent, w) := by
    have h1 : p.1.1 = parent := by rw [hpe]; exact heke
    exact Prod.ext_iff.mpr ⟨h1, h2⟩
  exact List.mem_map.mpr ⟨p, hmem, hkey⟩

/-- The head of a node's successor list names an outgoing edge. -/
theorem succ_mem_edgeKeys (g : Graph) (v child : NodeId)
    (h : child ∈ g.successors v) : (v, child) ∈ g.edgeKeys := by
  unfold Graph.successors Graph.outEdges at h
  rcases List.mem_map.mp h with ⟨ek, hek, heke⟩
  rcases List.mem_map.mp hek with ⟨p, hp, hpe⟩
  have hmem := (List.mem_filter.mp hp).1
  have hpred := (List.mem_filter.mp hp).2
  have h1 : p.1.1 = v := beq_iff_eq.mp hpred
  have hkey : p.1 = (v, child) := by
    have h2 : p.1.2 = child := by rw [hpe]; exact heke
    exact Prod.ext_iff.mpr ⟨h1, h2⟩
  exact List.mem_map.mpr ⟨p, hmem, hkey⟩


/-- The per-edge routing body keeps the node list. -/
theorem drawBezierEdge_nodes (g g1 : Graph) (ek : EdgeKey) (hq : g1.nodes = g.nodes) :
    ∀ g2, drawBezierEdge g1 ek = some g2 → g2.nodes = g.nodes := by
  intro g2 hstep
  unfold drawBezierEdge at hstep
  cases hv : g1.node? ek.1 with
  | none => rw [hv] at hstep; dsimp only at hstep; cases hstep
  | some lv =>
      rw [hv] at hstep
      cases hw : g1.node? ek.2 with
      | none => rw [hw] at hstep; dsimp only at hstep; cases hstep
      | some lw =>
          rw [hw] at hstep
          dsimp only at hstep
          cases he : g1.edge? ek.1 ek.2 with
          | some le =>
              rw [he] at hstep
              have hg2 := Option.some.inj hstep
              rw [← hg2]
              exact hq
          | none =>
              rw [he] at hstep
              have hg2 := Option.some.inj hstep
              rw [← hg2]
              rw [nodes_setEdgeL g1 ek.1 ek.2 _ (hasNode_of_node?_some g1 ek.1 lv hv)
                (hasNode_of_node?_some g1 ek.2 lw hw)]
              exact hq

/-- The per-edge routing body keeps the edge keys, provided the processed
key was already present. -/
theorem drawBezierEdge_keys (g g1 : Graph) (ek : EdgeKey)
    (hq : g1.edgeKeys = g.edgeKeys) (hek : ek ∈ g.edgeKeys) :
    ∀ g2, drawBezierEdge g1 ek = some g2 → g2.edgeKeys = g.edgeKeys := by
  intro g2 hstep
  unfold drawBezierEdge at hstep
  cases hv : g1.node? ek.1 with
  | none => rw [hv] at hstep; dsimp only at hstep; cases hstep
  | some lv =>
      rw [hv] at hstep
      cases hw : g1.node? ek.2 with
      | none => rw [hw] at hstep; dsimp only at hstep; cases hstep
      | some lw =>
          rw [hw] at hstep
          dsimp only at hstep
          cases he : g1.edge? ek.1 ek.2 with
          | some le =>
              rw [he] at hstep
              have hg2 := Option.some.inj hstep
              rw [← hg2, edgeKeys_modEdge g1 ek.1 ek.2 _]
              exact hq
          | none =>
              rw [he] at hstep
              have hg2 := Option.some.inj hstep
              have hhe : g1.hasEdge ek.1 ek.2 = true := by
                apply hasEdge_of_mem_edgeKeys g1 ek
                rw [hq]
                exact hek
              rw [← hg2, edgeKeys_setEdgeL_of_hasEdge g1 ek.1 ek.2 _
                (hasNode_of_node?_some g1 ek.1 lv hv)
                (hasNode_of_node?_some g1 ek.2 lw hw) hhe]
              exact hq

/-- Every loop element of a successful `Option` fold was processed
successfully from a state satisfying the carried invariant. -/
theorem foldlM_opt_steps {α β : Type} (f : β → α → Option β) (P : β → Prop) :
    ∀ (l : List α) (b : β), P b →
      (∀ (b' : β) (a : α), a ∈ l → P b' → ∀ b'', f b' a = some b'' → P b'') →
      ∀ res, l.foldlM f b = some res →
      ∀ a ∈ l, ∃ b1 b2, P b1 ∧ f b1 a = some b2 := by
  intro l
  induction l with
  | nil => intro b _ _ res _ a ha; cases ha
  | cons a0 l ih =>
      intro b hb hstep res hres a ha
      rw [List.foldlM_cons] at hres
      cases hfa : f b a0 with
      | none => rw [hfa] at hres; simp at hres
      | some b1 =>
          rw [hfa] at hres
          simp only [Option.bind_eq_bind, Option.some_bind] at hres
          rcases List.mem_cons.mp ha with h0 | h0
          · exact ⟨b, b1, hb, by rw [h0]; exact hfa⟩
          · exact ih b1 (hstep b a0 (List.mem_cons_self a0 l) hb b1 hfa)
              (fun b' a' ha' => hstep b' a' (List.mem_cons_of_mem a0 ha'))
              res hres a h0

/-- A successful routing run had both endpoints of every input edge key
present. -/
theorem drawBezier_endpoints_present (g g1 : Graph) (h : drawBezierCurves g = some g1) :
    ∀ ek ∈ g.edgeKeys, (g.node? ek.1).isSome = true ∧ (g.node? ek.2).isSome = true := by
  intro ek hek
  unfold drawBezierCurves at h
  obtain ⟨b1, b2, hP, hf⟩ := foldlM_opt_steps drawBezierEdge (fun gg => gg.nodes = g.nodes)
    g.edgeKeys g rfl (fun g' a _ => drawBezierEdge_nodes g g' a) g1 h ek hek
  unfold drawBezierEdge at hf
  cases hv : b1.node? ek.1 with
  | none => rw [hv] at hf; dsimp only at hf; cases hf
  | some lv =>
      cases hw : b1.node? ek.2 with
      | none => rw [hv, hw] at hf; dsimp only at hf; cases hf
      | some lw =>
          constructor
          · rw [← node?_congr_nodes b1 g hP ek.1, hv]; rfl
          · rw [← node?_congr_nodes b1 g hP ek.2, hw]; rfl

/-- One dummy-collapse step preserves anchoring, the downward dummy
order, and the stability of every surviving node label against the
pre-pass graph. -/
theorem removeDummyNode_keeps (g0 : Graph) (rho : NodeId → ℚ) (gg : Graph)
    (hA : edgesAnchored gg) (hO : dummyOrder rho gg)
    (hS : ∀ u : NodeId, (gg.node? u).isSome = true → gg.node? u = g0.node? u)
    (node : NodeId)
    (hdum : ((g0.node? node).map (·.attrs.isDummyNode)).getD false = true)
    (g2 : Graph) (hstep : removeDummyNode gg node = some g2) :
    edgesAnchored g2 ∧ dummyOrder rho g2 ∧
      ∀ u : NodeId, (g2.node? u).isSome = true → g2.node? u = g0.node? u := by
  unfold removeDummyNode at hstep
  cases hp : (gg.predecessors node)[0]? with
  | none => rw [hp] at hstep; dsimp only at hstep; cases hstep
  | some parent =>
  rw [hp] at hstep
  cases hc : (gg.successors node)[0]? with
  | none => rw [hc] at hstep; dsimp only at hstep; cases hstep
  | some child =>
  rw [hc] at hstep
  dsimp only at hstep
  cases hn : gg.node? node with
  | none => rw [hn] at hstep; dsimp only at hstep; cases hstep
  | some nl =>
  rw [hn] at hstep
  dsimp only at hstep
  cases hin : gg.edge? parent node with
  | none => rw [hin] at hstep; simp only [Option.none_bind] at hstep; cases hstep
  | some labIn =>
  obtain ⟨lp, ln1, m1, hlp, hln1, hptsIn⟩ := hA parent node labIn hin
  have hln1n : ln1 = nl := by rw [hn] at hln1; exact (Option.some.inj hln1).symm
  rw [hln1n] at hptsIn
  rw [hin] at hstep
  simp only [Option.some_bind] at hstep
  rw [hptsIn] at hstep
  cases hout : gg.edge? node child with
  | none => rw [hout] at hstep; simp only [Option.none_bind] at hstep; cases hstep
  | some labOut =>
  obtain ⟨ln2, lc, m2, hln2, hlc, hptsOut⟩ := hA node child labOut hout
  have hln2n : ln2 = nl := by rw [hn] at hln2; exact (Option.some.inj hln2).symm
  rw [hln2n] at hptsOut
  rw [hout] at hstep
  simp only [Option.some_bind] at hstep
  rw [hptsOut] at hstep
  simp only [List.getElem?_cons_zero, List.getElem?_cons_succ] at hstep
  have hg2 := Option.some.inj hstep
  have hnode_g0 : g0.node? node = some nl := by
    have hs := hS node (by rw [hn]; rfl)
    rw [hn] at hs
    exact hs.symm
  have hdumnl : nl.attrs.isDummyNode = true := by
    rw [hnode_g0] at hdum
    simpa using hdum
  have hkIn : (parent, node) ∈ gg.edgeKeys := edge?_some_mem_edgeKeys gg parent node labIn hin
  have hkOut : (node, child) ∈ gg.edgeKeys := edge?_some_mem_edgeKeys gg node child labOut hout
  have hr1 : rho parent < rho node := by
    refine hO (parent, node) hkIn (Or.inr ?_)
    rw [hn]
    simpa using hdumnl
  have hr2 : rho node < rho child := by
    refine hO (node, child) hkOut (Or.inl ?_)
    rw [hn]
    simpa using hdumnl
  have hpn : parent ≠ node := by
    intro h
    rw [h] at hr1
    exact lt_irrefl _ hr1
  have hcn : child ≠ node := by
    intro h
    rw [h] at hr2
    exact lt_irrefl _ hr2
  have hlp' : (gg.removeNode node).node? parent = some lp := by
    rw [node?_removeNode_ne gg node parent hpn]
    exact hlp
  have hlc' : (gg.removeNode node).node? child = some lc := by
    rw [node?_removeNode_ne gg node child hcn]
    exact hlc
  have hnodes2 : g2.nodes = (gg.removeNode node).nodes := by
    rw [← hg2]
    exact nodes_setEdgeL (gg.removeNode node) parent child _
      (hasNode_of_node?_some _ _ _ hlp') (hasNode_of_node?_some _ _ _ hlc')
  refine ⟨?_, ?_, ?_⟩
  · intro v w lab hlab
    by_cases hvw : v = parent ∧ w = child
    · have hlab' : g2.edge? v w = some { (nl.attrs.edgeData.getD {}) with points := some [(lp.attrs.x, lp.attrs.y), (nl.attrs.x, nl.attrs.y), (lc.attrs.x, lc.attrs.y)] } := by
        rw [hvw.1, hvw.2, ← hg2]
        exact edge?_setEdgeL_self (gg.removeNode node) parent child _
      rw [hlab'] at hlab
      have hlabeq := Option.some.inj hlab
      refine ⟨lp, lc, (nl.attrs.x, nl.attrs.y), ?_, ?_, ?_⟩
      · rw [hvw.1, node?_congr_nodes g2 (gg.removeNode node) hnodes2 parent]
        exact hlp'
      · rw [hvw.2, node?_congr_nodes g2 (gg.removeNode node) hnodes2 child]
        exact hlc'
      · rw [← hlabeq]
    · have h1 : (gg.removeNode node).edge? v w = some lab := by
        rw [← hg2] at hlab
        rw [edge?_setEdgeL_ne (gg.removeNode node) parent child _ v w hvw] at hlab
        exact hlab
      obtain ⟨h2, hvn, hwn⟩ := edge?_removeNode_some gg node v w lab h1
      obtain ⟨lv, lw, m, hlv, hlw, hpts⟩ := hA v w lab h2
      refine ⟨lv, lw, m, ?_, ?_, hpts⟩
      · rw [node?_congr_nodes g2 (gg.removeNode node) hnodes2 v,
          node?_removeNode_ne gg node v hvn]
        exact hlv
      · rw [node?_congr_nodes g2 (gg.removeNode node) hnodes2 w,
          node?_removeNode_ne gg node w hwn]
        exact hlw
  · intro ek hek hd
    rw [← hg2] at hek
    rcases edgeKeys_setEdgeL_mem (gg.removeNode node) parent child _ ek hek with hnew | hold
    · subst hnew
      exact lt_trans hr1 hr2
    · obtain ⟨hmem, h1n, h2n⟩ := edgeKeys_removeNode_mem gg node ek hold
      refine hO ek hmem ?_
      rw [node?_congr_nodes g2 (gg.removeNode node) hnodes2 ek.1,
        node?_removeNode_ne gg node ek.1 h1n,
        node?_congr_nodes g2 (gg.removeNode node) hnodes2 ek.2,
        node?_removeNode_ne gg node ek.2 h2n] at hd
      exact hd
  · intro u hu
    rw [node?_congr_nodes g2 (gg.removeNode node) hnodes2 u] at hu ⊢
    by_cases hun : u = node
    · rw [hun, node?_removeNode_self] at hu
      simp at hu
    · rw [node?_removeNode_ne gg node u hun] at hu ⊢
      exact hS u hu

/-- The dummy-collapse pass keeps every surviving stored edge anchored at
its endpoint centers, whenever the input is anchored and its dummies sit
strictly between their neighbours in some vertical order. -/
theorem removeDummyNodes_keeps_anchoring (g : Graph) (rho : NodeId → ℚ)
    (hA : edgesAnchored g) (hO : dummyOrder rho g)
    (g2 : Graph) (h : removeDummyNodes g = some g2) : edgesAnchored g2 := by
  unfold removeDummyNodes at h
  have hres := foldlM_opt_inv removeDummyNode
    (fun gg => edgesAnchored gg ∧ dummyOrder rho gg ∧
      ∀ u : NodeId, (gg.node? u).isSome = true → gg.node? u = g.node? u)
    (g.nodeIds.filter (fun v => ((g.node? v).map (·.attrs.isDummyNode)).getD false))
    g ⟨hA, hO, fun _ _ => rfl⟩
    (fun gg node hmem hinv g2' hstep' =>
      removeDummyNode_keeps g rho gg hinv.1 hinv.2.1 hinv.2.2 node
        (List.mem_filter.mp hmem).2 g2' hstep')
    g2 h
  exact hres.1


set_option maxHeartbeats 1000000 in
/-- C8.  The routing contract: a successful `drawBezierCurves` run keeps
the node list and the edge keys and gives every edge of the input a
three-point control sequence whose first and last points are the source
and target vertex centers; the dummy-collapse pass `removeDummyNodes`
keeps every surviving stored edge (including each collapsed long edge)
anchored that way whenever its input is anchored and its dummies sit
strictly between their neighbours in some vertical order; hence the
composition of the two leaves every remaining stored edge with exactly
three points anchored at the centers of its endpoints, and does so on
the concrete dummy-chain graph. -/
theorem routing_gives_three_point_curves :
    (∀ (g g' : Graph), drawBezierCurves g = some g' →
        g'.nodes = g.nodes ∧ g'.edgeKeys = g.edgeKeys ∧
        ∀ ek ∈ g.edgeKeys, ∀ lv lw : NodeLabel,
          g.node? ek.1 = some lv → g.node? ek.2 = some lw →
          ∃ m : Point, (g'.edge? ek.1 ek.2).map (fun l => l.points) =
            some (some [(lv.attrs.x, lv.attrs.y), m, (lw.attrs.x, lw.attrs.y)])) ∧
    (∀ (g g2 : Graph) (rho : NodeId → ℚ), edgesAnchored g → dummyOrder rho g →
        removeDummyNodes g = some g2 → edgesAnchored g2) ∧
    (∀ (g g1 g2 : Graph) (rho : NodeId → ℚ), dummyOrder rho g →
        drawBezierCurves g = some g1 → removeDummyNodes g1 = some g2 →
        edgesAnchored g2) ∧
    ((drawBezierCurves dummyChainExample).bind removeDummyNodes).map bezierPointsOk =
      some true := by
  have hdraw : ∀ (g g' : Graph), drawBezierCurves g = some g' →
      g'.nodes = g.nodes ∧ g'.edgeKeys = g.edgeKeys ∧
      ∀ ek ∈ g.edgeKeys, ∀ lv lw : NodeLabel,
        g.node? ek.1 = some lv → g.node? ek.2 = some lw →
        ∃ m : Point, (g'.edge? ek.1 ek.2).map (fun l => l.points) =
          some (some [(lv.attrs.x, lv.attrs.y), m, (lw.attrs.x, lw.attrs.y)]) := by
    intro g g' h
    unfold drawBezierCurves at h
    have hQstep : ∀ (g1 : Graph) (ek : EdgeKey), ek ∈ g.edgeKeys →
        g1.nodes = g.nodes ∧ g1.edgeKeys = g.edgeKeys →
        ∀ g2, drawBezierEdge g1 ek = some g2 →
          g2.nodes = g.nodes ∧ g2.edgeKeys = g.edgeKeys := by
      intro g1 ek hek hq g2 hstep
      exact ⟨drawBezierEdge_nodes g g1 ek hq.1 g2 hstep,
        drawBezierEdge_keys g g1 ek hq.2 hek g2 hstep⟩
    have hQ := foldlM_opt_inv drawBezierEdge
      (fun gg => gg.nodes = g.nodes ∧ gg.edgeKeys = g.edgeKeys)
      g.edgeKeys g ⟨rfl, rfl⟩ (fun g1 ek hek hq g2 hs => hQstep g1 ek hek hq g2 hs) g' h
    refine ⟨hQ.1, hQ.2, ?_⟩
    intro ek hek lv lw hlv hlw
    have hest : ∀ g1 : Graph, g1.nodes = g.nodes ∧ g1.edgeKeys = g.edgeKeys →
        ∀ g2, drawBezierEdge g1 ek = some g2 →
        ∃ m : Point, (g2.edge? ek.1 ek.2).map (fun l => l.points) =
          some (some [(lv.attrs.x, lv.attrs.y), m, (lw.attrs.x, lw.attrs.y)]) := by
      intro g1 hq g2 hstep
      unfold drawBezierEdge at hstep
      have hv : g1.node? ek.1 = some lv := (node?_congr_nodes g1 g hq.1 ek.1).trans hlv
      have hw : g1.node? ek.2 = some lw := (node?_congr_nodes g1 g hq.1 ek.2).trans hlw
      rw [hv, hw] at hstep
      dsimp only at hstep
      cases he : g1.edge? ek.1 ek.2 with
      | some le =>
          rw [he] at hstep
          have hg2 := Option.some.inj hstep
          rw [← hg2, edge?_modEdge_self, he]
          exact ⟨_, rfl⟩
      | none =>
          rw [he] at hstep
          have hg2 := Option.some.inj hstep
          rw [← hg2, edge?_setEdgeL_self]
          exact ⟨_, rfl⟩
    refine foldlM_opt_establish drawBezierEdge
      (fun gg => gg.nodes = g.nodes ∧ gg.edgeKeys = g.edgeKeys)
      (fun gg => ∃ m : Point, (gg.edge? ek.1 ek.2).map (fun l => l.points) =
        some (some [(lv.attrs.x, lv.attrs.y), m, (lw.attrs.x, lw.attrs.y)]))
      ek g.edgeKeys g hek ⟨rfl, rfl⟩ (fun g1 a ha hq g2 hs => hQstep g1 a ha hq g2 hs)
      hest ?_ g' h
    intro g1 a ha hq hp g2 hstep
    by_cases hae : a = ek
    · exact hest g1 hq g2 (hae ▸ hstep)
    · unfold drawBezierEdge at hstep
      cases hv : g1.node? a.1 with
      | none => rw [hv] at hstep; dsimp only at hstep; cases hstep
      | some la =>
          rw [hv] at hstep
          cases hw : g1.node? a.2 with
          | none => rw [hw] at hstep; dsimp only at hstep; cases hstep
          | some lb =>
              rw [hw] at hstep
              dsimp only at hstep
              have hne : ¬(ek.1 = a.1 ∧ ek.2 = a.2) := by
                intro hcon
                have : ek = a := Prod.ext_iff.mpr hcon
                exact hae this.symm
              cases he : g1.edge? a.1 a.2 with
              | some le =>
                  rw [he] at hstep
                  have hg2 := Option.some.inj hstep
                  rw [← hg2, edge?_modEdge_ne g1 a.1 a.2 _ ek.1 ek.2 hne]
                  exact hp
              | none =>
                  rw [he] at hstep
                  have hg2 := Option.some.inj hstep
                  rw [← hg2, edge?_setEdgeL_ne g1 a.1 a.2 _ ek.1 ek.2 hne]
                  exact hp
  refine ⟨hdraw,
    fun g g2 rho hA hO h => removeDummyNodes_keeps_anchoring g rho hA hO g2 h,
    ?_, by with_unfolding_all rfl⟩
  intro g g1 g2 rho hO h1 h2
  obtain ⟨hn, hk, hper⟩ := hdraw g g1 h1
  have hend := drawBezier_endpoints_present g g1 h1
  have hA1 : edgesAnchored g1 := by
    intro v w lab hlab
    have hkm : (v, w) ∈ g1.edgeKeys := edge?_some_mem_edgeKeys g1 v w lab hlab
    rw [hk] at hkm
    obtain ⟨hv?, hw?⟩ := hend (v, w) hkm
    obtain ⟨lv, hlv⟩ := Option.isSome_iff_exists.mp hv?
    obtain ⟨lw, hlw⟩ := Option.isSome_iff_exists.mp hw?
    obtain ⟨m, hm⟩ := hper (v, w) hkm lv lw hlv hlw
    dsimp only at hm
    rw [hlab] at hm
    simp only [Option.map_some'] at hm
    exact ⟨lv, lw, m, (node?_congr_nodes g1 g hn v).trans hlv,
      (node?_congr_nodes g1 g hn w).trans hlw, Option.some.inj hm⟩
  have hO1 : dummyOrder rho g1 := by
    intro ek hek hd
    rw [hk] at hek
    refine hO ek hek ?_
    rw [node?_congr_nodes g1 g hn ek.1, node?_congr_nodes g1 g hn ek.2] at hd
    exact hd
  exact removeDummyNodes_keeps_anchoring g1 rho hA1 hO1 g2 h2

/-- The routing law applied at a concrete two-vertex graph. -/
theorem routing_gives_three_point_curves_witness :
    routeResult.nodes = routeExample.nodes ∧
    ∃ m : Point, (routeResult.edge? "a" "b").map (fun l => l.points) =
      some (some [(routeLabelA.attrs.x, routeLabelA.attrs.y), m,
        (routeLabelB.attrs.x, routeLabelB.attrs.y)]) := by
  have h := routing_gives_three_point_curves.1 routeExample routeResult
    (by with_unfolding_all rfl)
  refine ⟨h.1, ?_⟩
  exact h.2.2 ("a", "b")
    (by rw [show routeExample.edgeKeys = [("a", "b")] from by with_unfolding_all rfl]
        exact List.mem_cons_self ("a", "b") [])
    routeLabelA routeLabelB (by with_unfolding_all rfl) (by with_unfolding_all rfl)

end Argumappr
